import Mathlib

/-!
# evmlistener: the block handler and its reorg resolver

A shallow embedding of `pkg/listener/handler.go` and of the generated header codecs
`pkg/evmclient/avax/gen_header_json.go` and `gen_header_rlp.go`.

* Blocks, messages and errors are plain data.
* `block.Keeper`, the RPC helper `getBlockByHash` and `pubsub.Publisher` are
  interfaces whose implementations are outside the handler; they are fields of
  `Handler`, so every theorem quantified over a `Handler` holds for every
  implementation.  Keeper reads are functions of the keeper state, `Add` and
  `Init` return the next keeper state.
* Every call made on a collaborator is recorded, in order, in a list of `Call`s,
  so that "calls X exactly once" and "issues no RPC call" are statements about
  that list.
* The `for` loop of `findReorgBlocks` has no bound in the source; the embedding
  runs it with a fuel (the maximal number of iterations) and reports
  `Result.fuelOut` when the loop is still running after that many iterations.
-/

namespace EvmListener

/-! ## Data -/

/-- The type `common.Hash`: a 32-byte identifier, kept abstract as a number. -/
abbrev common.Hash := Nat

/-- The record `types.Block`. `Number` is a `*big.Int` in the source; heights are
non-negative, so it is a natural number here, and `Number.Uint64()` is
`Number % 2^64`. Logs are opaque to the handler. -/
structure Block where
  Number : Nat
  Hash : common.Hash
  Timestamp : Nat
  ParentHash : common.Hash
  Logs : List Nat
  deriving DecidableEq, Repr

/-- The record `types.Message`. -/
structure Message where
  RevertedBlocks : List Block
  NewBlocks : List Block
  deriving DecidableEq, Repr

/-- Error values. The handler only ever tests an error with
`errors.Is(err, errors.ErrNotFound)`: `ErrNotFound` is an error for which that test
holds, and every other error is told apart by a code. -/
inductive Err where
  | ErrNotFound
  | other (code : Nat)
  deriving DecidableEq, Repr

/-- One call on a collaborator of the handler. -/
inductive Call where
  | keeperInit
  | keeperLen
  | keeperCap
  | keeperAdd (b : Block)
  | keeperGet (hash : common.Hash)
  | keeperExists (hash : common.Hash)
  | keeperHead
  | keeperIsReorg (b : Block)
  | rpcBlockNumber
  | rpcGetBlocks (fromBlock toBlock : Nat)
  | rpcBlockByHash (hash : common.Hash)
  | publish (msg : Message)
  deriving DecidableEq, Repr

/-- The interface `block.Keeper` over a keeper state `K`. -/
structure Keeper (K : Type) where
  Init : K → K × Option Err
  Len : K → Nat
  Cap : K → Nat
  Add : K → Block → K × Option Err
  Get : K → common.Hash → Except Err Block
  Exists : K → common.Hash → Except Err Bool
  Head : K → Except Err Block
  IsReorg : K → Block → Except Err Bool

/-- The struct `Handler`: its block keeper, the lookup `getBlockByHash(ctx, evmClient, ·)`
and `publisher.Publish(ctx, topic, ·)`. -/
structure Handler (K : Type) where
  blockKeeper : Keeper K
  getBlockByHash : common.Hash → Except Err Block
  Publish : Message → Option Err

/-- Outcome of a computation that may fail or still be looping when the fuel is spent. -/
inductive Result (α : Type) where
  | ok (v : α)
  | fail (e : Err)
  | fuelOut
  deriving DecidableEq, Repr

/-- The 64-bit unsigned range. -/
def u64 : Nat := 2 ^ 64

/-- The statement `x--` on a `uint64`. -/
def decU64 (x : Nat) : Nat := (x + (u64 - 1)) % u64

/-! ## `getBlock` -/

/-- The method `Handler.getBlock`: the keeper first, the RPC only on `ErrNotFound`. -/
def getBlock {K : Type} (h : Handler K) (k : K) (hash : common.Hash) :
    Except Err Block × List Call :=
  match h.blockKeeper.Get k hash with
  | .ok b => (.ok b, [Call.keeperGet hash])
  | .error err =>
    if err ≠ Err.ErrNotFound then
      (.error err, [Call.keeperGet hash])
    else
      (h.getBlockByHash hash, [Call.keeperGet hash, Call.rpcBlockByHash hash])

/-! ## `findReorgBlocks` -/

/-- The local variables of `findReorgBlocks`, with the calls made so far. -/
structure WalkState where
  storedBlock : Block
  newBlock : Block
  storedNumber : Nat
  newNumber : Nat
  reorgBlocks : List Block
  newBlocks : List Block
  calls : List Call
  deriving DecidableEq, Repr

/-- The first `if` of the loop body: the stored cursor steps to its parent, read
from the keeper only. -/
def storedStep {K : Type} (h : Handler K) (k : K) (s : WalkState) :
    Except (Err × List Call) WalkState :=
  if s.storedNumber ≥ s.newNumber then
    match h.blockKeeper.Get k s.storedBlock.ParentHash with
    | .error err => .error (err, s.calls ++ [Call.keeperGet s.storedBlock.ParentHash])
    | .ok tmp =>
      .ok { s with
        storedBlock := tmp
        storedNumber := decU64 s.storedNumber
        reorgBlocks := s.reorgBlocks ++ [tmp]
        calls := s.calls ++ [Call.keeperGet s.storedBlock.ParentHash] }
  else .ok s

/-- The second `if` of the loop body: the new cursor steps to its parent, read
through `getBlock`. -/
def newStep {K : Type} (h : Handler K) (k : K) (s : WalkState) :
    Except (Err × List Call) WalkState :=
  if s.newNumber > s.storedNumber then
    match getBlock h k s.newBlock.ParentHash with
    | (.error err, cs) => .error (err, s.calls ++ cs)
    | (.ok tmp, cs) =>
      .ok { s with
        newBlock := tmp
        newNumber := decU64 s.newNumber
        newBlocks := s.newBlocks ++ [tmp]
        calls := s.calls ++ cs }
  else .ok s

/-- One iteration of the loop body. -/
def walkBody {K : Type} (h : Handler K) (k : K) (s : WalkState) :
    Except (Err × List Call) WalkState :=
  match storedStep h k s with
  | .error e => .error e
  | .ok s1 => newStep h k s1

/-- The loop `for !bytes.Equal(storedBlock.ParentHash, newBlock.ParentHash)`, run
for at most `fuel` iterations. -/
def walkLoop {K : Type} (h : Handler K) (k : K) :
    Nat → WalkState → Result WalkState × List Call
  | fuel, s =>
    if s.storedBlock.ParentHash = s.newBlock.ParentHash then (.ok s, s.calls)
    else
      match fuel with
      | 0 => (.fuelOut, s.calls)
      | fuel + 1 =>
        match walkBody h k s with
        | .error (err, cs) => (.fail err, cs)
        | .ok s1 => walkLoop h k fuel s1

/-- The assignment `l[i], l[j] = l[j], l[i]`. -/
def swapAt (l : List Block) (i j : Nat) : List Block :=
  match l[i]?, l[j]? with
  | some x, some y => (l.set i y).set j x
  | _, _ => l

/-- The loop `for i := 0; i < n/2; i++ { swap i, n-i-1 }` that ends `findReorgBlocks`. -/
def reverseInPlace (newBlocks : List Block) : List Block :=
  (List.range (newBlocks.length / 2)).foldl
    (fun acc i => swapAt acc i (newBlocks.length - i - 1)) newBlocks

/-- The state in which `findReorgBlocks` enters its loop. -/
def walkInit (storedBlock newBlock : Block) (calls : List Call) : WalkState :=
  { storedBlock := storedBlock
    newBlock := newBlock
    storedNumber := storedBlock.Number % u64
    newNumber := newBlock.Number % u64
    reorgBlocks := [storedBlock]
    newBlocks := [newBlock]
    calls := calls }

/-- The method `Handler.findReorgBlocks`; `calls` are the calls already made. -/
def findReorgBlocks {K : Type} (h : Handler K) (k : K) (fuel : Nat)
    (storedBlock newBlock : Block) (calls : List Call) :
    Result (List Block × List Block) × List Call :=
  match walkLoop h k fuel (walkInit storedBlock newBlock calls) with
  | (.ok s, cs) => (.ok (s.reorgBlocks, reverseInPlace s.newBlocks), cs)
  | (.fail err, cs) => (.fail err, cs)
  | (.fuelOut, cs) => (.fuelOut, cs)

/-- The method `Handler.handleReorgBlock`. -/
def handleReorgBlock {K : Type} (h : Handler K) (k : K) (fuel : Nat) (b : Block)
    (calls : List Call) : Result (List Block × List Block) × List Call :=
  match h.blockKeeper.Head k with
  | .error err => (.fail err, calls ++ [Call.keeperHead])
  | .ok head => findReorgBlocks h k fuel head b (calls ++ [Call.keeperHead])

/-! ## `Handle` -/

/-- What a call of `Handle` leaves behind: its return value, the keeper state and
the calls it made, in order. -/
structure Outcome (K : Type) where
  status : Result Unit
  keeper : K
  calls : List Call

/-- The loop `for _, b := range newBlocks { blockKeeper.Add(b) }`, stopping at the
first failing `Add`. -/
def addBlocks {K : Type} (kp : Keeper K) : K → List Block → List Call → Outcome K
  | k, [], calls => { status := .ok (), keeper := k, calls := calls }
  | k, b :: rest, calls =>
    match kp.Add k b with
    | (k1, some err) => { status := .fail err, keeper := k1, calls := calls ++ [Call.keeperAdd b] }
    | (k1, none) => addBlocks kp k1 rest (calls ++ [Call.keeperAdd b])

/-- The tail of `Handle` from the construction of the message on: publish, then add. -/
def publishAndAdd {K : Type} (h : Handler K) (k : K) (revertedBlocks newBlocks : List Block)
    (calls : List Call) : Outcome K :=
  let msg : Message := { RevertedBlocks := revertedBlocks, NewBlocks := newBlocks }
  match h.Publish msg with
  | some err => { status := .fail err, keeper := k, calls := calls ++ [Call.publish msg] }
  | none => addBlocks h.blockKeeper k newBlocks (calls ++ [Call.publish msg])

/-- The method `Handler.Handle`. -/
def Handle {K : Type} (h : Handler K) (fuel : Nat) (k : K) (b : Block) : Outcome K :=
  match h.blockKeeper.Exists k b.Hash with
  | .error err => { status := .fail err, keeper := k, calls := [Call.keeperExists b.Hash] }
  | .ok true => { status := .ok (), keeper := k, calls := [Call.keeperExists b.Hash] }
  | .ok false =>
    match h.blockKeeper.IsReorg k b with
    | .error err =>
      { status := .fail err, keeper := k
        calls := [Call.keeperExists b.Hash, Call.keeperIsReorg b] }
    | .ok true =>
      match handleReorgBlock h k fuel b [Call.keeperExists b.Hash, Call.keeperIsReorg b] with
      | (.fail err, cs) => { status := .fail err, keeper := k, calls := cs }
      | (.fuelOut, cs) => { status := .fuelOut, keeper := k, calls := cs }
      | (.ok (revertedBlocks, newBlocks), cs) => publishAndAdd h k revertedBlocks newBlocks cs
    | .ok false =>
      -- `err` is the nil error returned by `IsReorg`; the source tests it again here.
      let err : Option Err := none
      match err with
      | some e =>
        { status := .fail e, keeper := k
          calls := [Call.keeperExists b.Hash, Call.keeperIsReorg b] }
      | none =>
        publishAndAdd h k [] [b] [Call.keeperExists b.Hash, Call.keeperIsReorg b]

/-! ## `Init` -/

/-- The subtraction `a - b` on `uint64` values. -/
def subU64 (a b : Nat) : Nat := (a % u64 + (u64 - b % u64)) % u64

/-- The part of `EVMClient` that `Handler.Init` uses: `evmClient.BlockNumber(ctx)` and
the fetch `getBlocks(ctx, evmClient, fromBlock, toBlock)`. -/
structure EVMClient where
  BlockNumber : Except Err Nat
  getBlocks : Nat → Nat → Except Err (List Block)

/-- The method `Handler.Init`. The conversion `uint64(h.blockKeeper.Cap())` and the
`uint64` subtraction are `subU64`. -/
def Init {K : Type} (h : Handler K) (c : EVMClient) (k : K) : Outcome K :=
  match h.blockKeeper.Init k with
  | (k1, some err) => { status := .fail err, keeper := k1, calls := [Call.keeperInit] }
  | (k1, none) =>
    if h.blockKeeper.Len k1 > 0 then
      { status := .ok (), keeper := k1, calls := [Call.keeperInit, Call.keeperLen] }
    else
      match c.BlockNumber with
      | .error err =>
        { status := .fail err, keeper := k1
          calls := [Call.keeperInit, Call.keeperLen, Call.rpcBlockNumber] }
      | .ok toBlock =>
        let fromBlock := subU64 toBlock (h.blockKeeper.Cap k1)
        match c.getBlocks fromBlock toBlock with
        | .error err =>
          { status := .fail err, keeper := k1
            calls := [Call.keeperInit, Call.keeperLen, Call.rpcBlockNumber, Call.keeperCap,
              Call.rpcGetBlocks fromBlock toBlock] }
        | .ok blocks =>
          addBlocks h.blockKeeper k1 blocks
            [Call.keeperInit, Call.keeperLen, Call.rpcBlockNumber, Call.keeperCap,
              Call.rpcGetBlocks fromBlock toBlock]

/-! ## More ways to read a run -/

/-- The ranges handed to the block fetch, in order. -/
def fetchedRanges (calls : List Call) : List (Nat × Nat) :=
  calls.filterMap fun c => match c with
    | .rpcGetBlocks a b => some (a, b)
    | _ => none

/-- A call on the RPC client. -/
def Call.isRpc : Call → Bool
  | .rpcBlockNumber => true
  | .rpcGetBlocks _ _ => true
  | .rpcBlockByHash _ => true
  | _ => false

/-- The number of ancestor lookups among the calls: every lookup, on either side of
the walk, starts with exactly one `Keeper.Get`. -/
def lookupCount (calls : List Call) : Nat :=
  calls.countP fun c => match c with
    | .keeperGet _ => true
    | _ => false

/-- The calls made up to the end of one half of the loop body, whether it succeeded
or failed. -/
def stepCalls : Except (Err × List Call) WalkState → List Call
  | .ok s => s.calls
  | .error (_, cs) => cs

/-- The keeper state after `Add` has been called on each block in turn. -/
def applyAdds {K : Type} (kp : Keeper K) : K → List Block → K
  | k, [] => k
  | k, b :: rest => applyAdds kp (kp.Add k b).1 rest

/-- The state of the walk after `n` complete iterations of the loop, when the loop
runs that long. -/
def walkAfter {K : Type} (h : Handler K) (k : K) : Nat → WalkState → Option WalkState
  | 0, s => some s
  | n + 1, s =>
    if s.storedBlock.ParentHash = s.newBlock.ParentHash then none
    else
      match walkBody h k s with
      | .error _ => none
      | .ok s1 => walkAfter h k n s1

/-- The block reached from `b` by `n` successful parent lookups through `f`, if all
of them succeed. -/
def follow (f : common.Hash → Option Block) : Nat → Block → Option Block
  | 0, b => some b
  | n + 1, b =>
    match f b.ParentHash with
    | none => none
    | some p => follow f n p

/-- An infinite chain of successful parent lookups through `f` that starts at `b`. -/
def InfiniteChain (f : common.Hash → Option Block) (b : Block) : Prop :=
  ∃ c : Nat → Block, c 0 = b ∧ ∀ i, f (c i).ParentHash = some (c (i + 1))

/-- The stored-side parent lookup as a partial function: `Keeper.Get`. -/
def storedLookup {K : Type} (h : Handler K) (k : K) (x : common.Hash) : Option Block :=
  match h.blockKeeper.Get k x with
  | .ok b => some b
  | .error _ => none

/-- The new-side parent lookup as a partial function: `getBlock`. -/
def newLookup {K : Type} (h : Handler K) (k : K) (x : common.Hash) : Option Block :=
  match (getBlock h k x).1 with
  | .ok b => some b
  | .error _ => none

/-! ## Reading a list of calls -/

/-- The messages handed to the publisher, in order. -/
def published (calls : List Call) : List Message :=
  calls.filterMap fun c => match c with
    | .publish m => some m
    | _ => none

/-- The blocks handed to `Keeper.Add`, in order. -/
def added (calls : List Call) : List Block :=
  calls.filterMap fun c => match c with
    | .keeperAdd b => some b
    | _ => none

/-- The hashes looked up through the RPC client, in order. -/
def rpcLookups (calls : List Call) : List common.Hash :=
  calls.filterMap fun c => match c with
    | .rpcBlockByHash x => some x
    | _ => none

/-! ## Predicates used in the statements -/

/-- A call that looks a block up by hash, in the keeper or through the RPC client. -/
def Call.isLookup : Call → Bool
  | .keeperGet _ => true
  | .rpcBlockByHash _ => true
  | _ => false

/-- Every block of the list is followed by its parent (tip-to-ancestor order). -/
def Linked (l : List Block) : Prop :=
  List.Chain' (fun x y => y.Hash = x.ParentHash) l

/-- The relation between the local variables of `findReorgBlocks` and its two tips
that every iteration keeps. -/
structure WalkInv (storedTip newTip : Block) (s : WalkState) : Prop where
  reorgHead : s.reorgBlocks.head? = some storedTip
  reorgLast : s.reorgBlocks.getLast? = some s.storedBlock
  newHead : s.newBlocks.head? = some newTip
  newLast : s.newBlocks.getLast? = some s.newBlock

/-- The list `cs` extends `pre` by lookups only. -/
def LookupExt (pre cs : List Call) : Prop :=
  ∃ extra, cs = pre ++ extra ∧ ∀ c ∈ extra, c.isLookup = true

/-- The calls `cs` end with a failed lookup whose error is `e`: a keeper `Get` that
returned `e`, or an RPC lookup that returned `e` after the keeper answered
`ErrNotFound`. -/
def FailedLookup {K : Type} (h : Handler K) (k : K) (e : Err) (cs : List Call) : Prop :=
  ∃ pre x,
    (cs = pre ++ [Call.keeperGet x] ∧ h.blockKeeper.Get k x = .error e) ∨
    (cs = pre ++ [Call.keeperGet x, Call.rpcBlockByHash x] ∧
      h.blockKeeper.Get k x = .error Err.ErrNotFound ∧ h.getBlockByHash x = .error e)

/-! ## A keeper following section 4.2 of the specification

The handler is stated over the `Keeper` interface. The scenarios of the
specification need one concrete keeper to run against. -/

/-- Modelled from the spec: the state of the bounded block history of section 4.2
(package `block` is not among the sources): its capacity `W` and the held entries,
oldest insertion first. -/
structure History where
  cap : Nat
  entries : List Block
  deriving DecidableEq, Repr

/-- Modelled from the spec: the head of the history of section 4.2, the entry with the
highest `Number`; among equals the one inserted last (scenario 2: the head is B164'
once B164' is added next to B164). -/
def History.headOf : List Block → Option Block
  | [] => none
  | b :: rest =>
    match History.headOf rest with
    | none => some b
    | some c => if b.Number > c.Number then some b else some c

/-- Modelled from the spec: the entry that section 4.2 evicts, the one with the lowest
`Number`; among equals the one inserted first. -/
def History.lowestOf : List Block → Option Block
  | [] => none
  | b :: rest =>
    match History.lowestOf rest with
    | none => some b
    | some c => if c.Number < b.Number then some c else some b

/-- Modelled from the spec: the implementation of `block.Keeper` (package `block`
is not among the sources). Section 4.2: `Init` loads nothing and succeeds; `Add`
is a no-op success on a hash already held, otherwise inserts and, when the
length exceeds `W`, evicts the entry with the lowest number; `Get` returns the
block or `NotFound`; `Head` is the entry with the highest number and fails on
an empty history (error code 0 stands for `Empty`); `IsReorg b` is false
exactly when `b.Number = head.Number + 1` and `b.ParentHash = head.Hash`. -/
def specKeeper : Keeper History where
  Init := fun k => (k, none)
  Len := fun k => k.entries.length
  Cap := fun k => k.cap
  Add := fun k b =>
    if k.entries.any (fun e => e.Hash == b.Hash) then (k, none)
    else
      let es := k.entries ++ [b]
      if es.length > k.cap then
        match History.lowestOf es with
        | some low => ({ k with entries := es.erase low }, none)
        | none => ({ k with entries := es }, none)
      else ({ k with entries := es }, none)
  Get := fun k hash =>
    match k.entries.find? (fun e => e.Hash == hash) with
    | some b => .ok b
    | none => .error Err.ErrNotFound
  Exists := fun k hash => .ok (k.entries.any (fun e => e.Hash == hash))
  Head := fun k =>
    match History.headOf k.entries with
    | some b => .ok b
    | none => .error (Err.other 0)
  IsReorg := fun k b =>
    match History.headOf k.entries with
    | some hd => .ok (!(b.Number == hd.Number + 1 && b.ParentHash == hd.Hash))
    | none => .error (Err.other 0)

/-! ## Blocks of the scenarios -/

/-- A block of the canonical chain at height `n`: hash `n`, parent `n - 1`. -/
def chainBlock (n : Nat) : Block :=
  { Number := n, Hash := n, Timestamp := 0, ParentHash := n - 1, Logs := [] }

/-- A sibling of the canonical block at height `n`: hash `1000 + n`, same parent. -/
def siblingBlock (n : Nat) : Block :=
  { Number := n, Hash := 1000 + n, Timestamp := 0, ParentHash := n - 1, Logs := [] }

/-- A child of the sibling at height `n - 1`: hash `2000 + n`, parent `1000 + (n - 1)`. -/
def siblingChild (n : Nat) : Block :=
  { Number := n, Hash := 2000 + n, Timestamp := 0, ParentHash := 1000 + (n - 1), Logs := [] }

/-- An RPC client that knows the canonical blocks of heights 1 to 999 and their
siblings, and nothing else. -/
def chainRpc (hash : common.Hash) : Except Err Block :=
  if 0 < hash ∧ hash < 1000 then .ok (chainBlock hash)
  else if 1000 < hash ∧ hash < 2000 then .ok (siblingBlock (hash - 1000))
  else .error (Err.other 7)

/-- A handler over the section 4.2 keeper, the canonical-chain RPC and a publisher
that always succeeds. -/
def scenarioHandler : Handler History :=
  { blockKeeper := specKeeper, getBlockByHash := chainRpc, Publish := fun _ => none }

/-- A history of capacity 64 holding the canonical blocks 162 and 163; its head is block 163. -/
def historyAt163 : History := { cap := 64, entries := [chainBlock 162, chainBlock 163] }

/-- The seeded history of the scenarios: capacity 64, canonical blocks 100 to 163. -/
def seedHistory : History :=
  { cap := 64, entries := (List.range 64).map fun i => chainBlock (100 + i) }

/-- The history after `Handle(B164)` on the seeded history (scenario 1). -/
def historyAfterExtension : History :=
  (Handle scenarioHandler 10 seedHistory (chainBlock 164)).keeper

/-- The history after scenario 1 followed by `Handle(B164')` (scenario 2). -/
def historyAfterSibling : History :=
  (Handle scenarioHandler 10 historyAfterExtension (siblingBlock 164)).keeper

/-- Modelled from the spec: the section 4.2 keeper with eviction left out, so that
`Add` keeps every block. In this keeper a successful `Add(x)` always makes
`Exists(x.hash)` true. -/
def retainingKeeper : Keeper History :=
  { specKeeper with
    Add := fun k b =>
      if k.entries.any (fun e => e.Hash == b.Hash) then (k, none)
      else ({ k with entries := k.entries ++ [b] }, none) }

/-- A handler over the keeper without eviction. -/
def retainingHandler : Handler History :=
  { blockKeeper := retainingKeeper, getBlockByHash := chainRpc, Publish := fun _ => none }

/-- A handler whose publisher always fails with error code 9. -/
def failingPublishHandler : Handler History :=
  { blockKeeper := specKeeper, getBlockByHash := chainRpc
    Publish := fun _ => some (Err.other 9) }

/-! ## The too-deep scenario and the seed scenarios -/

/-- Modelled from the spec: the error kind `ReorgTooDeep` of section 7 (package
`errors` is not among the sources), an error other than `ErrNotFound`. -/
def ErrReorgTooDeep : Err := Err.other 2

/-- A block of a fork that leaves the canonical chain after block 5: hash `3000 + n`,
parent the fork block below it, and block 5 for the first fork block. -/
def forkBlock (n : Nat) : Block :=
  { Number := n, Hash := 3000 + n, Timestamp := 0
    ParentHash := if n = 6 then 5 else 3000 + (n - 1), Logs := [] }

/-- An RPC client that knows the canonical blocks and the fork blocks 6' to 11'. -/
def forkRpc (hash : common.Hash) : Except Err Block :=
  if 0 < hash ∧ hash < 1000 then .ok (chainBlock hash)
  else if 3006 ≤ hash ∧ hash ≤ 3011 then .ok (forkBlock (hash - 3000))
  else .error (Err.other 7)

/-- A handler over the section 4.2 keeper and the RPC client that knows the fork. -/
def forkHandler : Handler History :=
  { blockKeeper := specKeeper, getBlockByHash := forkRpc, Publish := fun _ => none }

/-- The history of scenario 6: capacity 4, canonical blocks 7 to 10, head block 10. -/
def historyAt10 : History :=
  { cap := 4, entries := [chainBlock 7, chainBlock 8, chainBlock 9, chainBlock 10] }

/-- The calls with which `Handle` enters the walk in scenario 6. -/
def tooDeepCalls : List Call :=
  [Call.keeperExists (forkBlock 11).Hash, Call.keeperIsReorg (forkBlock 11), Call.keeperHead]

/-- The local variables of the walk of scenario 6 after `i` iterations, for `i` from
1 to 4: both cursors are at height `11 - i`. -/
def tooDeepState (i : Nat) : WalkState :=
  { storedBlock := chainBlock (11 - i)
    newBlock := forkBlock (11 - i)
    storedNumber := 11 - i
    newNumber := 11 - i
    reorgBlocks := (List.range i).map fun j => chainBlock (10 - j)
    newBlocks := (List.range (i + 1)).map fun j => forkBlock (11 - j)
    calls := tooDeepCalls ++ [Call.keeperGet 3010, Call.rpcBlockByHash 3010] ++
      ((List.range (i - 1)).map fun j =>
        [Call.keeperGet (9 - j), Call.keeperGet (3009 - j),
          Call.rpcBlockByHash (3009 - j)]).flatten }

/-- An observed block at height 164 whose parent, hash 4000, neither the keeper nor the
RPC client knows. -/
def orphanBlock : Block :=
  { Number := 164, Hash := 5000, Timestamp := 0, ParentHash := 4000, Logs := [] }

/-- An empty history of capacity 64. -/
def emptyHistory : History := { cap := 64, entries := [] }

/-- A client whose tip is at height `tip` and whose fetch returns the canonical blocks
of the heights `fromBlock` to `toBlock`, both included. -/
def chainClient (tip : Nat) : EVMClient :=
  { BlockNumber := .ok tip
    getBlocks := fun fromBlock toBlock =>
      .ok ((List.range (toBlock + 1 - fromBlock)).map fun i => chainBlock (fromBlock + i)) }

/-- The section 4.2 keeper with an `Init` that fails with error code 3. -/
def brokenInitKeeper : Keeper History :=
  { specKeeper with Init := fun k => (k, some (Err.other 3)) }

/-- A handler over the keeper whose `Init` fails. -/
def brokenInitHandler : Handler History :=
  { blockKeeper := brokenInitKeeper, getBlockByHash := chainRpc, Publish := fun _ => none }

/-- A stored tip at height 0 whose parent hash is 11. -/
def zeroStoredTip : Block :=
  { Number := 0, Hash := 10, Timestamp := 0, ParentHash := 11, Logs := [] }

/-- A new tip at height 0 whose parent hash is 21. -/
def zeroNewTip : Block :=
  { Number := 0, Hash := 20, Timestamp := 0, ParentHash := 21, Logs := [] }

/-- A history that holds the stored tip at height 0 and a block with hash 11. -/
def historyAtZero : History :=
  { cap := 64
    entries := [{ Number := 0, Hash := 11, Timestamp := 0, ParentHash := 12, Logs := [] },
      zeroStoredTip] }

/-! ## The header codecs of package `avax`

`gen_header_json.go` and `gen_header_rlp.go`. Byte strings (hashes, the address, the
bloom filter, the nonce, the extra data) are lists of bytes; a `*big.Int` is an
optional integer, `nil` being `none`. -/

namespace avax

/-- The struct `avax.Header`, with the fields the two codecs read and write. -/
structure Header where
  ParentHash : List Nat
  UncleHash : List Nat
  Coinbase : List Nat
  Root : List Nat
  TxHash : List Nat
  ReceiptHash : List Nat
  Bloom : List Nat
  Difficulty : Option Int
  Number : Option Int
  GasLimit : Nat
  GasUsed : Nat
  Time : Nat
  Extra : List Nat
  MixDigest : List Nat
  Nonce : List Nat
  ExtDataHash : List Nat
  BaseFee : Option Int
  ExtDataGasUsed : Option Int
  BlockGasCost : Option Int
  ExcessDataGas : Option Int
  deriving DecidableEq, Repr

/-- The local struct `Header` of `UnmarshalJSON`, which `json.Unmarshal` fills from the
JSON object: a field is `none` when the object has no value under its key. -/
structure DecHeader where
  ParentHash : Option (List Nat)
  UncleHash : Option (List Nat)
  Coinbase : Option (List Nat)
  Root : Option (List Nat)
  TxHash : Option (List Nat)
  ReceiptHash : Option (List Nat)
  Bloom : Option (List Nat)
  Difficulty : Option Int
  Number : Option Int
  GasLimit : Option Nat
  GasUsed : Option Nat
  Time : Option Nat
  Extra : Option (List Nat)
  MixDigest : Option (List Nat)
  Nonce : Option (List Nat)
  ExtDataHash : Option (List Nat)
  BaseFee : Option Int
  ExtDataGasUsed : Option Int
  BlockGasCost : Option Int
  ExcessDataGas : Option Int
  deriving DecidableEq, Repr

/-- The method `Header.UnmarshalJSON`. The argument `decoded` is the outcome of
`json.Unmarshal(input, &dec)`; the result is the header `h` as the method leaves it and
the error it returns. -/
def UnmarshalJSON (decoded : Except String DecHeader) (h : Header) : Header × Option String :=
  match decoded with
  | .error err => (h, some err)
  | .ok dec =>
    match dec.ParentHash with
    | none => (h, some "missing required field 'parentHash' for Header")
    | some v =>
      let h1 : Header := { h with ParentHash := v }
      match dec.UncleHash with
      | none => (h1, some "missing required field 'sha3Uncles' for Header")
      | some v =>
        let h2 : Header := { h1 with UncleHash := v }
        match dec.Coinbase with
        | none => (h2, some "missing required field 'miner' for Header")
        | some v =>
          let h3 : Header := { h2 with Coinbase := v }
          match dec.Root with
          | none => (h3, some "missing required field 'stateRoot' for Header")
          | some v =>
            let h4 : Header := { h3 with Root := v }
            match dec.TxHash with
            | none => (h4, some "missing required field 'transactionsRoot' for Header")
            | some v =>
              let h5 : Header := { h4 with TxHash := v }
              match dec.ReceiptHash with
              | none => (h5, some "missing required field 'receiptsRoot' for Header")
              | some v =>
                let h6 : Header := { h5 with ReceiptHash := v }
                match dec.Bloom with
                | none => (h6, some "missing required field 'logsBloom' for Header")
                | some v =>
                  let h7 : Header := { h6 with Bloom := v }
                  match dec.Difficulty with
                  | none => (h7, some "missing required field 'difficulty' for Header")
                  | some v =>
                    let h8 : Header := { h7 with Difficulty := some v }
                    match dec.Number with
                    | none => (h8, some "missing required field 'number' for Header")
                    | some v =>
                      let h9 : Header := { h8 with Number := some v }
                      match dec.GasLimit with
                      | none => (h9, some "missing required field 'gasLimit' for Header")
                      | some v =>
                        let h10 : Header := { h9 with GasLimit := v }
                        match dec.GasUsed with
                        | none => (h10, some "missing required field 'gasUsed' for Header")
                        | some v =>
                          let h11 : Header := { h10 with GasUsed := v }
                          match dec.Time with
                          | none => (h11, some "missing required field 'timestamp' for Header")
                          | some v =>
                            let h12 : Header := { h11 with Time := v }
                            match dec.Extra with
                            | none => (h12, some "missing required field 'extraData' for Header")
                            | some v =>
                              let h13 : Header := { h12 with Extra := v }
                              let h14 : Header :=
                                match dec.MixDigest with
                                | some v => { h13 with MixDigest := v }
                                | none => h13
                              let h15 : Header :=
                                match dec.Nonce with
                                | some v => { h14 with Nonce := v }
                                | none => h14
                              match dec.ExtDataHash with
                              | none => (h15, some "missing required field 'extDataHash' for Header")
                              | some v =>
                                let h16 : Header := { h15 with ExtDataHash := v }
                                let h17 : Header :=
                                  match dec.BaseFee with
                                  | some v => { h16 with BaseFee := some v }
                                  | none => h16
                                let h18 : Header :=
                                  match dec.ExtDataGasUsed with
                                  | some v => { h17 with ExtDataGasUsed := some v }
                                  | none => h17
                                let h19 : Header :=
                                  match dec.BlockGasCost with
                                  | some v => { h18 with BlockGasCost := some v }
                                  | none => h18
                                let h20 : Header :=
                                  match dec.ExcessDataGas with
                                  | some v => { h19 with ExcessDataGas := some v }
                                  | none => h19
                                (h20, none)

/-! ### The JSON object and `json.Unmarshal`

The decoder starts with `json.Unmarshal(input, &dec)` of the standard library. What
follows is that call on a JSON object, as far as `UnmarshalJSON` depends on it: which
member of the object reaches which field of `dec`, and when a field stays `nil`. -/

/-- A JSON value as the header decoder tells values apart: `null`, a value of one of
the three kinds the fields take (a byte string, a big integer, a 64-bit unsigned
integer), or any other value, which no field takes. -/
inductive JsonValue where
  | null
  | bytes (b : List Nat)
  | big (v : Int)
  | uint64 (v : Nat)
  | other
  deriving DecidableEq, Repr

/-- A JSON object: its members, key and value, in the order of the text. -/
abbrev JsonObject := List (String × JsonValue)

/-- The value `json.Unmarshal` leaves in the pointer field named `name`: the value of
the last member of the object whose key matches `name`, and `nil` when no member
matches or that member is `null`. The matching of keys with field names, `keyMatch`,
is the library's (an exact match, else a match ignoring case). -/
def fieldValue (keyMatch : String → String → Bool) (obj : JsonObject) (name : String) :
    Option JsonValue :=
  match obj.reverse.find? (fun kv => keyMatch kv.1 name) with
  | none => none
  | some (_, JsonValue.null) => none
  | some (_, v) => some v

/-- A byte-string value. -/
def JsonValue.asBytes : JsonValue → Option (List Nat)
  | .bytes b => some b
  | _ => none

/-- A big-integer value. -/
def JsonValue.asBig : JsonValue → Option Int
  | .big v => some v
  | _ => none

/-- A 64-bit unsigned value. -/
def JsonValue.asUint64 : JsonValue → Option Nat
  | .uint64 v => some v
  | _ => none

/-- A field is well typed when it has no value or a value of the kind it takes. -/
def typedOk {α : Type} (v : Option JsonValue) (dec : JsonValue → Option α) : Bool :=
  match v with
  | none => true
  | some x => (dec x).isSome

/-- Every member of the object whose key matches the field `name` is `null` or a value
of the kind the field takes. -/
def typedMembers {α : Type} (keyMatch : String → String → Bool) (obj : JsonObject)
    (name : String) (dec : JsonValue → Option α) : Bool :=
  obj.all fun kv => !keyMatch kv.1 name || kv.2 == JsonValue.null || (dec kv.2).isSome

/-- The object is well typed: every member that reaches a field of `dec` is `null` or of
the field's kind, so that `json.Unmarshal` returns no error. Members under other keys
are ignored. -/
def wellTyped (keyMatch : String → String → Bool) (obj : JsonObject) : Bool :=
  typedMembers keyMatch obj "parentHash" JsonValue.asBytes &&
    typedMembers keyMatch obj "sha3Uncles" JsonValue.asBytes &&
    typedMembers keyMatch obj "miner" JsonValue.asBytes &&
    typedMembers keyMatch obj "stateRoot" JsonValue.asBytes &&
    typedMembers keyMatch obj "transactionsRoot" JsonValue.asBytes &&
    typedMembers keyMatch obj "receiptsRoot" JsonValue.asBytes &&
    typedMembers keyMatch obj "logsBloom" JsonValue.asBytes &&
    typedMembers keyMatch obj "difficulty" JsonValue.asBig &&
    typedMembers keyMatch obj "number" JsonValue.asBig &&
    typedMembers keyMatch obj "gasLimit" JsonValue.asUint64 &&
    typedMembers keyMatch obj "gasUsed" JsonValue.asUint64 &&
    typedMembers keyMatch obj "timestamp" JsonValue.asUint64 &&
    typedMembers keyMatch obj "extraData" JsonValue.asBytes &&
    typedMembers keyMatch obj "mixHash" JsonValue.asBytes &&
    typedMembers keyMatch obj "nonce" JsonValue.asBytes &&
    typedMembers keyMatch obj "extDataHash" JsonValue.asBytes &&
    typedMembers keyMatch obj "baseFeePerGas" JsonValue.asBig &&
    typedMembers keyMatch obj "extDataGasUsed" JsonValue.asBig &&
    typedMembers keyMatch obj "blockGasCost" JsonValue.asBig &&
    typedMembers keyMatch obj "excessDataGas" JsonValue.asBig

/-- The call `json.Unmarshal(input, &dec)` on a JSON object. -/
def jsonUnmarshal (keyMatch : String → String → Bool) (obj : JsonObject) :
    Except String DecHeader :=
  if wellTyped keyMatch obj then
    .ok {
    ParentHash := (fieldValue keyMatch obj "parentHash").bind JsonValue.asBytes
    UncleHash := (fieldValue keyMatch obj "sha3Uncles").bind JsonValue.asBytes
    Coinbase := (fieldValue keyMatch obj "miner").bind JsonValue.asBytes
    Root := (fieldValue keyMatch obj "stateRoot").bind JsonValue.asBytes
    TxHash := (fieldValue keyMatch obj "transactionsRoot").bind JsonValue.asBytes
    ReceiptHash := (fieldValue keyMatch obj "receiptsRoot").bind JsonValue.asBytes
    Bloom := (fieldValue keyMatch obj "logsBloom").bind JsonValue.asBytes
    Difficulty := (fieldValue keyMatch obj "difficulty").bind JsonValue.asBig
    Number := (fieldValue keyMatch obj "number").bind JsonValue.asBig
    GasLimit := (fieldValue keyMatch obj "gasLimit").bind JsonValue.asUint64
    GasUsed := (fieldValue keyMatch obj "gasUsed").bind JsonValue.asUint64
    Time := (fieldValue keyMatch obj "timestamp").bind JsonValue.asUint64
    Extra := (fieldValue keyMatch obj "extraData").bind JsonValue.asBytes
    MixDigest := (fieldValue keyMatch obj "mixHash").bind JsonValue.asBytes
    Nonce := (fieldValue keyMatch obj "nonce").bind JsonValue.asBytes
    ExtDataHash := (fieldValue keyMatch obj "extDataHash").bind JsonValue.asBytes
    BaseFee := (fieldValue keyMatch obj "baseFeePerGas").bind JsonValue.asBig
    ExtDataGasUsed := (fieldValue keyMatch obj "extDataGasUsed").bind JsonValue.asBig
    BlockGasCost := (fieldValue keyMatch obj "blockGasCost").bind JsonValue.asBig
    ExcessDataGas := (fieldValue keyMatch obj "excessDataGas").bind JsonValue.asBig }
  else .error "json: cannot unmarshal value into Go struct field"

/-- The 14 required keys in the order of the specification. -/
def requiredNames : List String :=
  ["parentHash", "sha3Uncles", "miner", "stateRoot", "transactionsRoot", "receiptsRoot", "logsBloom", "difficulty", "number", "gasLimit", "gasUsed", "timestamp", "extraData", "extDataHash"]

/-- The first required key, in the order of the specification, whose field gets no
value from the object. -/
def firstUnset (keyMatch : String → String → Bool) (obj : JsonObject) : Option String :=
  requiredNames.find? fun name => (fieldValue keyMatch obj name).isNone

/-- The object has a member with exactly this key. -/
def hasKey (obj : JsonObject) (name : String) : Bool :=
  obj.any fun kv => kv.1 == name

/-- Matching of a key with a field name on ASCII keys: equal, or equal once upper-case
letters are turned into lower case. -/
def foldMatch (key name : String) : Bool :=
  key == name || key.data.map Char.toLower == name.data.map Char.toLower

/-- An object with the 14 required keys and `miner` set to `null`. -/
def nullMinerObject : JsonObject :=
  [("parentHash", JsonValue.bytes []),
    ("sha3Uncles", JsonValue.bytes []),
    ("miner", JsonValue.null),
    ("stateRoot", JsonValue.bytes []),
    ("transactionsRoot", JsonValue.bytes []),
    ("receiptsRoot", JsonValue.bytes []),
    ("logsBloom", JsonValue.bytes []),
    ("difficulty", JsonValue.big 1),
    ("number", JsonValue.big 1),
    ("gasLimit", JsonValue.uint64 0),
    ("gasUsed", JsonValue.uint64 0),
    ("timestamp", JsonValue.uint64 0),
    ("extraData", JsonValue.bytes []),
    ("extDataHash", JsonValue.bytes [])]

/-- An object with 13 of the required keys spelled as in the specification and the key
`ParentHash` in place of `parentHash`. -/
def caseVariantObject : JsonObject :=
  [("ParentHash", JsonValue.bytes []),
    ("sha3Uncles", JsonValue.bytes []),
    ("miner", JsonValue.bytes []),
    ("stateRoot", JsonValue.bytes []),
    ("transactionsRoot", JsonValue.bytes []),
    ("receiptsRoot", JsonValue.bytes []),
    ("logsBloom", JsonValue.bytes []),
    ("difficulty", JsonValue.big 1),
    ("number", JsonValue.big 1),
    ("gasLimit", JsonValue.uint64 0),
    ("gasUsed", JsonValue.uint64 0),
    ("timestamp", JsonValue.uint64 0),
    ("extraData", JsonValue.bytes []),
    ("extDataHash", JsonValue.bytes [])]

/-- The 14 required keys in the order of the specification, each with whether the
decoded object has a value for it. -/
def requiredKeys (dec : DecHeader) : List (String × Bool) :=
  [("parentHash", dec.ParentHash.isSome),
    ("sha3Uncles", dec.UncleHash.isSome),
    ("miner", dec.Coinbase.isSome),
    ("stateRoot", dec.Root.isSome),
    ("transactionsRoot", dec.TxHash.isSome),
    ("receiptsRoot", dec.ReceiptHash.isSome),
    ("logsBloom", dec.Bloom.isSome),
    ("difficulty", dec.Difficulty.isSome),
    ("number", dec.Number.isSome),
    ("gasLimit", dec.GasLimit.isSome),
    ("gasUsed", dec.GasUsed.isSome),
    ("timestamp", dec.Time.isSome),
    ("extraData", dec.Extra.isSome),
    ("extDataHash", dec.ExtDataHash.isSome)]

/-- The first required key, in the order of the specification, that is absent. -/
def firstMissing (dec : DecHeader) : Option String :=
  ((requiredKeys dec).find? fun p => !p.2).map Prod.fst

/-- The message of the error for a missing required key. -/
def missingMessage (name : String) : String :=
  "missing required field '" ++ name ++ "' for Header"

/-- Errors of `EncodeRLP`: `rlp.ErrNegativeBigInt`, or an error of the writer. -/
inductive RlpErr where
  | ErrNegativeBigInt
  | writer (code : Nat)
  deriving DecidableEq, Repr

/-- One write on the encoder buffer inside the list: `WriteBytes`, `Write(rlp.EmptyString)`,
`WriteBigInt` or `WriteUint64`. -/
inductive RlpItem where
  | bytes (b : List Nat)
  | emptyString
  | bigInt (v : Int)
  | uint64 (v : Nat)
  deriving DecidableEq, Repr

/-- The block the generated encoder repeats for every `*big.Int` field: the empty
string for `nil`, `ErrNegativeBigInt` for a negative value, `WriteBigInt` otherwise. -/
def writeBig (x : Option Int) (buf : List RlpItem) : Except RlpErr (List RlpItem) :=
  match x with
  | none => .ok (buf ++ [RlpItem.emptyString])
  | some v =>
    if v < 0 then .error RlpErr.ErrNegativeBigInt
    else .ok (buf ++ [RlpItem.bigInt v])

/-- The second half of `Header.EncodeRLP`, from `_tmp1 := obj.BaseFee != nil` to
`return w.Flush()`: the optional items, written onto the buffer `w3`. -/
def encodeOptional (obj : Header) (w3 : List RlpItem) (flush : Option RlpErr) :
    Except RlpErr (List RlpItem) :=
  let tmp1 : Bool := obj.BaseFee.isSome
  let tmp2 : Bool := obj.ExtDataGasUsed.isSome
  let tmp3 : Bool := obj.BlockGasCost.isSome
  let tmp4 : Bool := obj.ExcessDataGas.isSome
  match (if tmp1 || tmp2 || tmp3 || tmp4 then writeBig obj.BaseFee w3 else .ok w3) with
  | .error e => .error e
  | .ok w4 =>
  match (if tmp2 || tmp3 || tmp4 then writeBig obj.ExtDataGasUsed w4 else .ok w4) with
  | .error e => .error e
  | .ok w5 =>
  match (if tmp3 || tmp4 then writeBig obj.BlockGasCost w5 else .ok w5) with
  | .error e => .error e
  | .ok w6 =>
  match (if tmp4 then writeBig obj.ExcessDataGas w6 else .ok w6) with
  | .error e => .error e
  | .ok w7 =>
  match flush with
  | some e => .error e
  | none => .ok w7

/-- The method `Header.EncodeRLP`. The result is the sequence of items written between
`w.List()` and `w.ListEnd`, or the error returned; `flush` is what `w.Flush()` returns,
`none` for a writer that does not fail. -/
def EncodeRLP (obj : Header) (flush : Option RlpErr) : Except RlpErr (List RlpItem) :=
  let w0 : List RlpItem :=
    [RlpItem.bytes obj.ParentHash, RlpItem.bytes obj.UncleHash, RlpItem.bytes obj.Coinbase,
      RlpItem.bytes obj.Root, RlpItem.bytes obj.TxHash, RlpItem.bytes obj.ReceiptHash,
      RlpItem.bytes obj.Bloom]
  match writeBig obj.Difficulty w0 with
  | .error e => .error e
  | .ok w1 =>
  match writeBig obj.Number w1 with
  | .error e => .error e
  | .ok w2 =>
  let w3 : List RlpItem :=
    w2 ++ [RlpItem.uint64 obj.GasLimit, RlpItem.uint64 obj.GasUsed, RlpItem.uint64 obj.Time,
      RlpItem.bytes obj.Extra, RlpItem.bytes obj.MixDigest, RlpItem.bytes obj.Nonce,
      RlpItem.bytes obj.ExtDataHash]
  encodeOptional obj w3 flush

/-- A `*big.Int` field that is non-nil and negative. -/
def isNegative (x : Option Int) : Bool :=
  match x with
  | some v => decide (v < 0)
  | none => false

/-- Some integer field of the header is non-nil and negative. -/
def hasNegative (obj : Header) : Bool :=
  isNegative obj.Difficulty || isNegative obj.Number || isNegative obj.BaseFee ||
    isNegative obj.ExtDataGasUsed || isNegative obj.BlockGasCost ||
    isNegative obj.ExcessDataGas

/-- The item written for a `*big.Int` field that is not negative: the empty string for
`nil`. -/
def bigItem (x : Option Int) : RlpItem :=
  match x with
  | none => RlpItem.emptyString
  | some v => RlpItem.bigInt v

/-- The 16 mandatory items, `ParentHash` through `ExtDataHash`. -/
def mandatoryItems (obj : Header) : List RlpItem :=
  [RlpItem.bytes obj.ParentHash, RlpItem.bytes obj.UncleHash, RlpItem.bytes obj.Coinbase,
    RlpItem.bytes obj.Root, RlpItem.bytes obj.TxHash, RlpItem.bytes obj.ReceiptHash,
    RlpItem.bytes obj.Bloom, bigItem obj.Difficulty, bigItem obj.Number,
    RlpItem.uint64 obj.GasLimit, RlpItem.uint64 obj.GasUsed, RlpItem.uint64 obj.Time,
    RlpItem.bytes obj.Extra, RlpItem.bytes obj.MixDigest, RlpItem.bytes obj.Nonce,
    RlpItem.bytes obj.ExtDataHash]

/-- The four optional fields, in order. -/
def optionalFields (obj : Header) : List (Option Int) :=
  [obj.BaseFee, obj.ExtDataGasUsed, obj.BlockGasCost, obj.ExcessDataGas]

/-- The 1-based position of the last non-nil entry of a list, 0 when all are nil. -/
def lastNonNil : List (Option Int) → Nat
  | [] => 0
  | x :: rest =>
    match lastNonNil rest with
    | 0 => if x.isSome then 1 else 0
    | n + 1 => n + 2

/-- A header for the examples: every byte string empty, every number zero, and the
given six integer fields. -/
def sampleHeader (difficulty number baseFee extDataGasUsed blockGasCost excessDataGas :
    Option Int) : Header :=
  { ParentHash := [], UncleHash := [], Coinbase := [], Root := [], TxHash := []
    ReceiptHash := [], Bloom := [], Difficulty := difficulty, Number := number
    GasLimit := 0, GasUsed := 0, Time := 0, Extra := [], MixDigest := [], Nonce := []
    ExtDataHash := [], BaseFee := baseFee, ExtDataGasUsed := extDataGasUsed
    BlockGasCost := blockGasCost, ExcessDataGas := excessDataGas }

/-- A decoded object for the examples with every key present. -/
def fullDec : DecHeader :=
  { ParentHash := some [], UncleHash := some [], Coinbase := some [], Root := some []
    TxHash := some [], ReceiptHash := some [], Bloom := some [], Difficulty := some 1
    Number := some 1, GasLimit := some 0, GasUsed := some 0, Time := some 0
    Extra := some [], MixDigest := some [], Nonce := some [], ExtDataHash := some []
    BaseFee := some 1, ExtDataGasUsed := some 1, BlockGasCost := some 1
    ExcessDataGas := some 1 }

end avax

/-! ## The in-place reversal is list reversal -/

theorem swapAt_length (l : List Block) (i j : Nat) : (swapAt l i j).length = l.length := by
  unfold swapAt
  split <;> simp

theorem swapAt_getElem? (l : List Block) (i j m : Nat) (hi : i < l.length) (hj : j < l.length) :
    (swapAt l i j)[m]? = if m = j then l[i]? else if m = i then l[j]? else l[m]? := by
  unfold swapAt
  have e1 : l[i]? = some l[i] := List.getElem?_eq_getElem hi
  have e2 : l[j]? = some l[j] := List.getElem?_eq_getElem hj
  rw [e1, e2]
  simp only [List.getElem?_set]
  by_cases h1 : m = j
  · subst h1; simp [hi, hj]
  · by_cases h2 : m = i
    · subst h2
      have : ¬ j = m := fun h => h1 h.symm
      simp [this, hi, hj, h1]
    · have a : ¬ j = m := fun h => h1 h.symm
      have b : ¬ i = m := fun h => h2 h.symm
      simp [a, b, h1, h2]

theorem reverse_prefix (l : List Block) : ∀ k, k ≤ l.length / 2 →
    ((List.range k).foldl (fun acc i => swapAt acc i (l.length - i - 1)) l).length = l.length ∧
    ∀ m, ((List.range k).foldl (fun acc i => swapAt acc i (l.length - i - 1)) l)[m]? =
      if m < k ∨ (l.length - k ≤ m ∧ m < l.length) then l[l.length - 1 - m]? else l[m]? := by
  intro k
  induction k with
  | zero =>
    intro _
    refine ⟨by simp, fun m => ?_⟩
    have c : ¬ (m < 0 ∨ (l.length - 0 ≤ m ∧ m < l.length)) := by omega
    simp only [List.range_zero, List.foldl_nil, if_neg c]
  | succ k ih =>
    intro hk
    obtain ⟨hlen, hget⟩ := ih (by omega)
    rw [List.range_succ, List.foldl_append]
    simp only [List.foldl_cons, List.foldl_nil]
    refine ⟨by rw [swapAt_length, hlen], fun m => ?_⟩
    rw [swapAt_getElem? _ _ _ _ (by omega) (by omega), hget, hget, hget]
    by_cases h1 : m = l.length - k - 1
    · subst h1
      have c1 : ¬ (k < k ∨ (l.length - k ≤ k ∧ k < l.length)) := by omega
      have c2 : (l.length - k - 1 < k + 1 ∨ (l.length - (k+1) ≤ l.length - k - 1 ∧ l.length - k - 1 < l.length)) := by omega
      simp only [if_true, if_neg c1, if_pos c2]
      congr 1; omega
    · by_cases h2 : m = k
      · subst h2
        have c1 : ¬ (l.length - m - 1 < m ∨ (l.length - m ≤ l.length - m - 1 ∧ l.length - m - 1 < l.length)) := by omega
        have c2 : (m < m + 1 ∨ (l.length - (m+1) ≤ m ∧ m < l.length)) := by omega
        simp only [if_neg h1, if_true, if_neg c1, if_pos c2]
        congr 1; omega
      · simp only [if_neg h1, if_neg h2]
        by_cases c : m < k ∨ (l.length - k ≤ m ∧ m < l.length)
        · have c2 : (m < k + 1 ∨ (l.length - (k+1) ≤ m ∧ m < l.length)) := by omega
          simp only [if_pos c, if_pos c2]
        · have c2 : ¬ (m < k + 1 ∨ (l.length - (k+1) ≤ m ∧ m < l.length)) := by omega
          simp only [if_neg c, if_neg c2]

theorem reverseInPlace_eq (l : List Block) : reverseInPlace l = l.reverse := by
  obtain ⟨hlen, hget⟩ := reverse_prefix l (l.length / 2) (le_refl _)
  apply List.ext_getElem?
  intro m
  unfold reverseInPlace
  rw [hget]
  by_cases hm : m < l.length
  · rw [List.getElem?_reverse hm]
    by_cases c : m < l.length / 2 ∨ (l.length - l.length / 2 ≤ m ∧ m < l.length)
    · simp only [if_pos c]
    · simp only [if_neg c]
      congr 1; omega
  · have e1 : l.reverse[m]? = none := List.getElem?_eq_none (by simp; omega)
    have e2 : l[m]? = none := List.getElem?_eq_none (by omega)
    have c : ¬ (m < l.length / 2 ∨ (l.length - l.length / 2 ≤ m ∧ m < l.length)) := by omega
    simp only [if_neg c, e1, e2]

/-! ## The steps of the walk -/

theorem getBlock_ok {K : Type} (h : Handler K) (k : K) (x : common.Hash) (b : Block)
    (cs : List Call) (e : getBlock h k x = (.ok b, cs)) :
    h.blockKeeper.Get k x = .ok b ∨ h.getBlockByHash x = .ok b := by
  unfold getBlock at e
  split at e
  · left
    simp only [Prod.mk.injEq, Except.ok.injEq] at e
    rw [← e.1]; assumption
  · split at e
    · simp at e
    · right
      simp only [Prod.mk.injEq] at e
      exact e.1

theorem getBlock_calls {K : Type} (h : Handler K) (k : K) (x : common.Hash) :
    ∀ c ∈ (getBlock h k x).2, c.isLookup = true := by
  unfold getBlock
  split
  · simp [Call.isLookup]
  · split <;> simp [Call.isLookup]

theorem storedStep_ok_cases {K : Type} (h : Handler K) (k : K) (s s' : WalkState)
    (e : storedStep h k s = .ok s') :
    s' = s ∨ ∃ tmp, h.blockKeeper.Get k s.storedBlock.ParentHash = .ok tmp ∧
      s' = { s with
        storedBlock := tmp
        storedNumber := decU64 s.storedNumber
        reorgBlocks := s.reorgBlocks ++ [tmp]
        calls := s.calls ++ [Call.keeperGet s.storedBlock.ParentHash] } := by
  unfold storedStep at e
  split at e
  · split at e
    · simp at e
    · rename_i tmp hget
      right
      refine ⟨tmp, hget, ?_⟩
      simp only [Except.ok.injEq] at e
      exact e.symm
  · left
    simp only [Except.ok.injEq] at e
    exact e.symm

theorem newStep_ok_cases {K : Type} (h : Handler K) (k : K) (s s' : WalkState)
    (e : newStep h k s = .ok s') :
    s' = s ∨ ∃ tmp cs, getBlock h k s.newBlock.ParentHash = (.ok tmp, cs) ∧
      s' = { s with
        newBlock := tmp
        newNumber := decU64 s.newNumber
        newBlocks := s.newBlocks ++ [tmp]
        calls := s.calls ++ cs } := by
  unfold newStep at e
  split at e
  · split at e
    · simp at e
    · rename_i tmp cs hget
      right
      refine ⟨tmp, cs, hget, ?_⟩
      simp only [Except.ok.injEq] at e
      exact e.symm
  · left
    simp only [Except.ok.injEq] at e
    exact e.symm

/-- Induction over the loop: a property kept by both halves of the body holds
when the loop exits, and the loop exits only on equal parent hashes. -/
theorem walkLoop_ok_inv {K : Type} (h : Handler K) (k : K) (P : WalkState → Prop)
    (hs : ∀ s s', P s → storedStep h k s = .ok s' → P s')
    (hn : ∀ s s', P s → newStep h k s = .ok s' → P s') :
    ∀ (fuel : Nat) (s s' : WalkState) (cs : List Call), P s →
      walkLoop h k fuel s = (.ok s', cs) →
      P s' ∧ s'.storedBlock.ParentHash = s'.newBlock.ParentHash ∧ cs = s'.calls := by
  intro fuel
  induction fuel with
  | zero =>
    intro s s' cs hp e
    unfold walkLoop at e
    split at e
    · rename_i heq
      simp only [Prod.mk.injEq, Result.ok.injEq] at e
      obtain ⟨e1, e2⟩ := e
      subst e1
      exact ⟨hp, heq, e2.symm⟩
    · simp at e
  | succ n ih =>
    intro s s' cs hp e
    unfold walkLoop at e
    split at e
    · rename_i heq
      simp only [Prod.mk.injEq, Result.ok.injEq] at e
      obtain ⟨e1, e2⟩ := e
      subst e1
      exact ⟨hp, heq, e2.symm⟩
    · simp only at e
      split at e
      · simp at e
      · rename_i s1 hbody
        unfold walkBody at hbody
        split at hbody
        · simp at hbody
        · rename_i s0 hst
          exact ih s1 s' cs (hn s0 s1 (hs s s0 hp hst) hbody) e

theorem walkInit_inv (storedTip newTip : Block) (calls : List Call) :
    WalkInv storedTip newTip (walkInit storedTip newTip calls) :=
  ⟨rfl, rfl, rfl, rfl⟩

theorem storedStep_inv {K : Type} (h : Handler K) (k : K) (storedTip newTip : Block)
    (s s' : WalkState) (hp : WalkInv storedTip newTip s) (e : storedStep h k s = .ok s') :
    WalkInv storedTip newTip s' := by
  rcases storedStep_ok_cases h k s s' e with rfl | ⟨tmp, _, rfl⟩
  · exact hp
  · refine ⟨?_, ?_, hp.newHead, hp.newLast⟩
    · simp [hp.reorgHead]
    · simp

theorem newStep_inv {K : Type} (h : Handler K) (k : K) (storedTip newTip : Block)
    (s s' : WalkState) (hp : WalkInv storedTip newTip s) (e : newStep h k s = .ok s') :
    WalkInv storedTip newTip s' := by
  rcases newStep_ok_cases h k s s' e with rfl | ⟨tmp, cs, _, rfl⟩
  · exact hp
  · refine ⟨hp.reorgHead, hp.reorgLast, ?_, ?_⟩
    · simp [hp.newHead]
    · simp

theorem linked_concat (l : List Block) (t tmp : Block) (hl : Linked l)
    (hlast : l.getLast? = some t) (hh : tmp.Hash = t.ParentHash) : Linked (l ++ [tmp]) := by
  unfold Linked at *
  rw [List.chain'_append]
  refine ⟨hl, List.chain'_singleton _, ?_⟩
  intro x hx y hy
  rw [hlast] at hx
  simp only [Option.mem_def, Option.some.injEq, List.head?_cons] at hx hy
  subst hx; subst hy
  exact hh

theorem storedStep_linked {K : Type} (h : Handler K) (k : K)
    (hGet : ∀ x b, h.blockKeeper.Get k x = .ok b → b.Hash = x)
    (storedTip newTip : Block) (s s' : WalkState)
    (hp : WalkInv storedTip newTip s ∧ Linked s.reorgBlocks ∧ Linked s.newBlocks)
    (e : storedStep h k s = .ok s') :
    WalkInv storedTip newTip s' ∧ Linked s'.reorgBlocks ∧ Linked s'.newBlocks := by
  refine ⟨storedStep_inv h k storedTip newTip s s' hp.1 e, ?_⟩
  rcases storedStep_ok_cases h k s s' e with rfl | ⟨tmp, hg, rfl⟩
  · exact hp.2
  · exact ⟨linked_concat _ _ _ hp.2.1 hp.1.reorgLast (hGet _ _ hg), hp.2.2⟩

theorem newStep_linked {K : Type} (h : Handler K) (k : K)
    (hGet : ∀ x b, h.blockKeeper.Get k x = .ok b → b.Hash = x)
    (hRpc : ∀ x b, h.getBlockByHash x = .ok b → b.Hash = x)
    (storedTip newTip : Block) (s s' : WalkState)
    (hp : WalkInv storedTip newTip s ∧ Linked s.reorgBlocks ∧ Linked s.newBlocks)
    (e : newStep h k s = .ok s') :
    WalkInv storedTip newTip s' ∧ Linked s'.reorgBlocks ∧ Linked s'.newBlocks := by
  refine ⟨newStep_inv h k storedTip newTip s s' hp.1 e, ?_⟩
  rcases newStep_ok_cases h k s s' e with rfl | ⟨tmp, cs, hg, rfl⟩
  · exact hp.2
  · have hh : tmp.Hash = s.newBlock.ParentHash := by
      rcases getBlock_ok h k _ _ _ hg with h1 | h1
      · exact hGet _ _ h1
      · exact hRpc _ _ h1
    exact ⟨hp.2.1, linked_concat _ _ _ hp.2.2 hp.1.newLast hh⟩

/-- A successful `findReorgBlocks` comes from a loop exit on a state `s`. -/
theorem findReorgBlocks_ok {K : Type} (h : Handler K) (k : K) (fuel : Nat)
    (storedTip newTip : Block) (calls : List Call) (reverted new : List Block)
    (cs : List Call)
    (e : findReorgBlocks h k fuel storedTip newTip calls = (.ok (reverted, new), cs)) :
    ∃ s, walkLoop h k fuel (walkInit storedTip newTip calls) = (.ok s, cs) ∧
      reverted = s.reorgBlocks ∧ new = s.newBlocks.reverse := by
  unfold findReorgBlocks at e
  split at e
  · rename_i s cs1 hw
    simp only [Prod.mk.injEq, Result.ok.injEq] at e
    obtain ⟨⟨e1, e2⟩, e3⟩ := e
    subst e3
    exact ⟨s, hw, e1.symm, by rw [← e2, reverseInPlace_eq]⟩
  · simp at e
  · simp at e

theorem linked_get (l : List Block) (hl : Linked l) (i : Nat) (x y : Block)
    (hx : l[i]? = some x) (hy : l[i + 1]? = some y) : y.Hash = x.ParentHash := by
  unfold Linked at hl
  rw [List.chain'_iff_get] at hl
  obtain ⟨h1, e1⟩ := List.getElem?_eq_some.mp hx
  obtain ⟨h2, e2⟩ := List.getElem?_eq_some.mp hy
  have := hl i (by omega)
  simp only [List.get_eq_getElem] at this
  rw [e1, e2] at this
  exact this

theorem specKeeper_get_hash (k : History) (x : common.Hash) (b : Block)
    (e : specKeeper.Get k x = .ok b) : b.Hash = x := by
  simp only [specKeeper] at e
  split at e
  · rename_i c hf
    simp only [Except.ok.injEq] at e
    subst e
    have := List.find?_some hf
    simpa using this
  · simp at e

theorem chainRpc_hash (x : common.Hash) (b : Block) (e : chainRpc x = .ok b) : b.Hash = x := by
  unfold chainRpc at e
  split at e
  · simp only [Except.ok.injEq] at e
    subst e
    rfl
  · split at e
    · rename_i hx
      simp only [Except.ok.injEq] at e
      subst e
      exact Nat.add_sub_cancel' (Nat.le_of_lt hx.1)
    · simp at e

/-! ## The calls made by the walk -/

theorem LookupExt.refl (pre : List Call) : LookupExt pre pre :=
  ⟨[], by simp, by simp⟩

theorem LookupExt.trans {a b c : List Call} (h1 : LookupExt a b) (h2 : LookupExt b c) :
    LookupExt a c := by
  obtain ⟨e1, rfl, p1⟩ := h1
  obtain ⟨e2, rfl, p2⟩ := h2
  refine ⟨e1 ++ e2, by simp, ?_⟩
  intro c hc
  rcases List.mem_append.mp hc with hc | hc
  · exact p1 c hc
  · exact p2 c hc

theorem published_lookups (extra : List Call) (hl : ∀ c ∈ extra, c.isLookup = true) :
    published extra = [] := by
  unfold published
  rw [List.filterMap_eq_nil_iff]
  intro c hc
  have := hl c hc
  cases c <;> simp_all [Call.isLookup]

theorem added_lookups (extra : List Call) (hl : ∀ c ∈ extra, c.isLookup = true) :
    added extra = [] := by
  unfold added
  rw [List.filterMap_eq_nil_iff]
  intro c hc
  have := hl c hc
  cases c <;> simp_all [Call.isLookup]

theorem published_append (a b : List Call) : published (a ++ b) = published a ++ published b := by
  simp [published, List.filterMap_append]

theorem added_append (a b : List Call) : added (a ++ b) = added a ++ added b := by
  simp [added, List.filterMap_append]

theorem LookupExt.published {pre cs : List Call} (hx : LookupExt pre cs) :
    published cs = published pre := by
  obtain ⟨extra, rfl, p⟩ := hx
  rw [published_append, published_lookups extra p, List.append_nil]

theorem LookupExt.added {pre cs : List Call} (hx : LookupExt pre cs) :
    added cs = added pre := by
  obtain ⟨extra, rfl, p⟩ := hx
  rw [added_append, added_lookups extra p, List.append_nil]

theorem storedStep_calls_ok {K : Type} (h : Handler K) (k : K) (s s' : WalkState)
    (e : storedStep h k s = .ok s') : LookupExt s.calls s'.calls := by
  rcases storedStep_ok_cases h k s s' e with rfl | ⟨tmp, _, rfl⟩
  · exact LookupExt.refl _
  · exact ⟨[Call.keeperGet s.storedBlock.ParentHash], rfl, by simp [Call.isLookup]⟩

theorem storedStep_calls_error {K : Type} (h : Handler K) (k : K) (s : WalkState)
    (err : Err) (cs : List Call) (e : storedStep h k s = .error (err, cs)) :
    LookupExt s.calls cs := by
  unfold storedStep at e
  split at e
  · split at e
    · simp only [Except.error.injEq, Prod.mk.injEq] at e
      exact ⟨[Call.keeperGet s.storedBlock.ParentHash], e.2.symm, by simp [Call.isLookup]⟩
    · simp at e
  · simp at e

theorem newStep_calls_ok {K : Type} (h : Handler K) (k : K) (s s' : WalkState)
    (e : newStep h k s = .ok s') : LookupExt s.calls s'.calls := by
  rcases newStep_ok_cases h k s s' e with rfl | ⟨tmp, cs, hg, rfl⟩
  · exact LookupExt.refl _
  · refine ⟨cs, rfl, ?_⟩
    have := getBlock_calls h k s.newBlock.ParentHash
    rw [hg] at this
    exact this

theorem newStep_calls_error {K : Type} (h : Handler K) (k : K) (s : WalkState)
    (err : Err) (cs : List Call) (e : newStep h k s = .error (err, cs)) :
    LookupExt s.calls cs := by
  unfold newStep at e
  split at e
  · split at e
    · rename_i err1 cs1 hg
      simp only [Except.error.injEq, Prod.mk.injEq] at e
      refine ⟨cs1, e.2.symm, ?_⟩
      have := getBlock_calls h k s.newBlock.ParentHash
      rw [hg] at this
      exact this
    · simp at e
  · simp at e

theorem walkBody_calls_ok {K : Type} (h : Handler K) (k : K) (s s' : WalkState)
    (e : walkBody h k s = .ok s') : LookupExt s.calls s'.calls := by
  unfold walkBody at e
  split at e
  · simp at e
  · rename_i s0 hst
    exact (storedStep_calls_ok h k s s0 hst).trans (newStep_calls_ok h k s0 s' e)

theorem walkBody_calls_error {K : Type} (h : Handler K) (k : K) (s : WalkState)
    (err : Err) (cs : List Call) (e : walkBody h k s = .error (err, cs)) :
    LookupExt s.calls cs := by
  unfold walkBody at e
  split at e
  · rename_i e0 hst
    simp only [Except.error.injEq] at e
    subst e
    exact storedStep_calls_error h k s err cs hst
  · rename_i s0 hst
    exact (storedStep_calls_ok h k s s0 hst).trans (newStep_calls_error h k s0 err cs e)

/-- Whatever the loop returns, it has only added lookups to the calls. -/
theorem walkLoop_calls {K : Type} (h : Handler K) (k : K) :
    ∀ (fuel : Nat) (s : WalkState), LookupExt s.calls (walkLoop h k fuel s).2 := by
  intro fuel
  induction fuel with
  | zero =>
    intro s
    unfold walkLoop
    split
    · exact LookupExt.refl _
    · exact LookupExt.refl _
  | succ n ih =>
    intro s
    unfold walkLoop
    split
    · exact LookupExt.refl _
    · simp only
      split
      · rename_i err cs hb
        exact walkBody_calls_error h k s err cs hb
      · rename_i s1 hb
        exact (walkBody_calls_ok h k s s1 hb).trans (ih s1)

theorem findReorgBlocks_calls {K : Type} (h : Handler K) (k : K) (fuel : Nat)
    (storedTip newTip : Block) (calls : List Call) :
    LookupExt calls (findReorgBlocks h k fuel storedTip newTip calls).2 := by
  have := walkLoop_calls h k fuel (walkInit storedTip newTip calls)
  unfold findReorgBlocks
  split <;> rename_i hw <;> rw [hw] at this <;> exact this

theorem handleReorgBlock_published {K : Type} (h : Handler K) (k : K) (fuel : Nat)
    (b : Block) (calls : List Call) :
    published (handleReorgBlock h k fuel b calls).2 = published calls ∧
      added (handleReorgBlock h k fuel b calls).2 = added calls := by
  unfold handleReorgBlock
  split
  · simp [published_append, added_append, published, added]
  · rename_i head _
    have := findReorgBlocks_calls h k fuel head b (calls ++ [Call.keeperHead])
    rw [this.published, this.added]
    simp [published_append, added_append, published, added]

/-! ## Publishing and committing -/

/-- The commit loop calls `Add` on a prefix of the blocks, in order: on all of them
when it succeeds, up to and including the failing one otherwise. -/
theorem addBlocks_calls {K : Type} (kp : Keeper K) :
    ∀ (bs : List Block) (k : K) (calls : List Call),
      ∃ n, n ≤ bs.length ∧
        (addBlocks kp k bs calls).calls = calls ++ (bs.take n).map Call.keeperAdd ∧
        (((addBlocks kp k bs calls).status = .ok () ∧ n = bs.length) ∨
          (∃ e, (addBlocks kp k bs calls).status = .fail e ∧ 0 < n)) := by
  intro bs
  induction bs with
  | nil =>
    intro k calls
    exact ⟨0, by simp, by simp [addBlocks], Or.inl ⟨rfl, rfl⟩⟩
  | cons b rest ih =>
    intro k calls
    unfold addBlocks
    split
    · rename_i k1 err _
      exact ⟨1, by simp, by simp, Or.inr ⟨err, rfl, by omega⟩⟩
    · rename_i k1 _
      obtain ⟨n, hn, hc, hs⟩ := ih k1 (calls ++ [Call.keeperAdd b])
      refine ⟨n + 1, by simp; omega, by rw [hc]; simp, ?_⟩
      rcases hs with ⟨h1, h2⟩ | ⟨e, h1, _⟩
      · exact Or.inl ⟨h1, by simp [h2]⟩
      · exact Or.inr ⟨e, h1, by omega⟩

theorem addBlocks_published {K : Type} (kp : Keeper K) (bs : List Block) (k : K)
    (calls : List Call) : published (addBlocks kp k bs calls).calls = published calls := by
  obtain ⟨n, _, hc, _⟩ := addBlocks_calls kp bs k calls
  rw [hc, published_append]
  have : published ((bs.take n).map Call.keeperAdd) = [] := by
    unfold published
    rw [List.filterMap_eq_nil_iff]
    intro c hc
    obtain ⟨x, _, rfl⟩ := List.mem_map.mp hc
    rfl
  rw [this, List.append_nil]

/-- After a successful commit loop the last block added is known to a keeper whose
successful `Add` makes `Exists` true. -/
theorem addBlocks_exists_last {K : Type} (kp : Keeper K)
    (hAdd : ∀ k x k1, kp.Add k x = (k1, none) → kp.Exists k1 x.Hash = .ok true) :
    ∀ (bs : List Block) (k : K) (calls : List Call) (b : Block),
      bs.getLast? = some b → (addBlocks kp k bs calls).status = .ok () →
      kp.Exists (addBlocks kp k bs calls).keeper b.Hash = .ok true := by
  intro bs
  induction bs with
  | nil => intro k calls b hl; simp at hl
  | cons x rest ih =>
    intro k calls b hl hs
    unfold addBlocks at hs ⊢
    split at hs
    · simp at hs
    · rename_i k1 hadd
      cases rest with
      | nil =>
        simp only [List.getLast?_singleton, Option.some.injEq] at hl
        subst hl
        simp only [addBlocks]
        exact hAdd k x k1 hadd
      | cons y tl =>
        apply ih k1 _ b
        · rw [List.getLast?_cons_cons] at hl
          exact hl
        · exact hs

theorem publishAndAdd_published {K : Type} (h : Handler K) (k : K)
    (reverted new : List Block) (calls : List Call) :
    published (publishAndAdd h k reverted new calls).calls =
      published calls ++ [{ RevertedBlocks := reverted, NewBlocks := new }] := by
  unfold publishAndAdd
  simp only
  split
  · simp [published_append, published]
  · rw [addBlocks_published]
    simp [published_append, published]

theorem publishAndAdd_publish_fails {K : Type} (h : Handler K) (k : K)
    (reverted new : List Block) (calls : List Call) (e : Err)
    (hp : h.Publish { RevertedBlocks := reverted, NewBlocks := new } = some e) :
    (publishAndAdd h k reverted new calls).status = .fail e ∧
      (publishAndAdd h k reverted new calls).keeper = k ∧
      added (publishAndAdd h k reverted new calls).calls = added calls := by
  unfold publishAndAdd
  simp only [hp]
  refine ⟨trivial, trivial, ?_⟩
  simp [added_append, added]

/-- The two ways a call of `Handle` can go: it stops before publishing, with the
keeper untouched, or it reaches the publish step with a message whose new blocks
end with the handled block. -/
theorem Handle_cases {K : Type} (h : Handler K) (fuel : Nat) (k : K) (b : Block) :
    (published (Handle h fuel k b).calls = [] ∧ added (Handle h fuel k b).calls = [] ∧
      (Handle h fuel k b).keeper = k ∧
      ((Handle h fuel k b).status = .ok () → h.blockKeeper.Exists k b.Hash = .ok true)) ∨
    ∃ reverted new pre, published pre = [] ∧ added pre = [] ∧
      h.blockKeeper.Exists k b.Hash = .ok false ∧ new.getLast? = some b ∧
      Handle h fuel k b = publishAndAdd h k reverted new pre := by
  unfold Handle
  split
  · left; simp [published, added]
  · rename_i hex
    left; simp [published, added, hex]
  · rename_i hex
    split
    · left; simp [published, added]
    · rename_i hre
      have hpa := handleReorgBlock_published h k fuel b
        [Call.keeperExists b.Hash, Call.keeperIsReorg b]
      split
      · rename_i err cs hh
        rw [hh] at hpa
        left
        simp only at hpa ⊢
        refine ⟨by rw [hpa.1]; simp [published], by rw [hpa.2]; simp [added], trivial, ?_⟩
        intro hc; simp at hc
      · rename_i cs hh
        rw [hh] at hpa
        left
        simp only at hpa ⊢
        refine ⟨by rw [hpa.1]; simp [published], by rw [hpa.2]; simp [added], trivial, ?_⟩
        intro hc; simp at hc
      · rename_i reverted new cs hh
        rw [hh] at hpa
        right
        refine ⟨reverted, new, cs, by rw [hpa.1]; simp [published],
          by rw [hpa.2]; simp [added], hex, ?_, rfl⟩
        unfold handleReorgBlock at hh
        split at hh
        · simp at hh
        · rename_i head _
          obtain ⟨s, hw, _, rfl⟩ := findReorgBlocks_ok h k fuel head b _ _ _ cs hh
          obtain ⟨inv, _, _⟩ :=
            walkLoop_ok_inv h k (WalkInv head b)
              (storedStep_inv h k head b) (newStep_inv h k head b)
              fuel _ s cs (walkInit_inv head b _) hw
          rw [List.getLast?_reverse]
          exact inv.newHead
    · right
      exact ⟨[], [b], [Call.keeperExists b.Hash, Call.keeperIsReorg b],
        by simp [published], by simp [added], hex, rfl, rfl⟩

/-! ## The resolver -/

/-- C4: a successful `findReorgBlocks` returns two non-empty sequences, and the last
reverted block has the same parent hash as the first new block. -/
theorem C4_sequences_stop_above_shared_parent {K : Type} (h : Handler K) (k : K)
    (fuel : Nat) (storedTip newTip : Block) (calls : List Call)
    (reverted new : List Block) (cs : List Call)
    (e : findReorgBlocks h k fuel storedTip newTip calls = (.ok (reverted, new), cs)) :
    reverted ≠ [] ∧ new ≠ [] ∧
      ∃ x y, reverted.getLast? = some x ∧ new.head? = some y ∧
        x.ParentHash = y.ParentHash := by
  obtain ⟨s, hw, rfl, rfl⟩ := findReorgBlocks_ok h k fuel storedTip newTip calls _ _ cs e
  obtain ⟨inv, hpar, _⟩ :=
    walkLoop_ok_inv h k (WalkInv storedTip newTip)
      (storedStep_inv h k storedTip newTip) (newStep_inv h k storedTip newTip)
      fuel _ s cs (walkInit_inv storedTip newTip calls) hw
  refine ⟨?_, ?_, s.storedBlock, s.newBlock, inv.reorgLast, ?_, hpar⟩
  · intro hnil
    have := inv.reorgLast
    rw [hnil] at this
    simp at this
  · intro hnil
    have := inv.newLast
    rw [List.reverse_eq_nil_iff.mp hnil] at this
    simp at this
  · rw [List.head?_reverse]
    exact inv.newLast

/-- Witness for C4: the stored tip 163 against a sibling of block 162; the stored side
steps once. -/
theorem C4_sequences_stop_above_shared_parent_witness :
    [chainBlock 163, chainBlock 162] ≠ [] ∧ [siblingBlock 162] ≠ [] ∧
      ∃ x y, [chainBlock 163, chainBlock 162].getLast? = some x ∧
        [siblingBlock 162].head? = some y ∧ x.ParentHash = y.ParentHash :=
  C4_sequences_stop_above_shared_parent scenarioHandler historyAt163 10
    (chainBlock 163) (siblingBlock 162) [] [chainBlock 163, chainBlock 162]
    [siblingBlock 162] [Call.keeperGet 162] (by decide)

/-- C5: when every lookup by hash returns a block with the requested hash, a
successful `findReorgBlocks` returns `reverted` starting at the stored tip with
every block followed by its parent, and `new` with every block preceded by its
parent. -/
theorem C5_order_of_the_sequences {K : Type} (h : Handler K) (k : K)
    (hGet : ∀ x b, h.blockKeeper.Get k x = .ok b → b.Hash = x)
    (hRpc : ∀ x b, h.getBlockByHash x = .ok b → b.Hash = x)
    (fuel : Nat) (storedTip newTip : Block) (calls : List Call)
    (reverted new : List Block) (cs : List Call)
    (e : findReorgBlocks h k fuel storedTip newTip calls = (.ok (reverted, new), cs)) :
    reverted[0]? = some storedTip ∧
      (∀ i x y, reverted[i]? = some x → reverted[i + 1]? = some y →
        y.Hash = x.ParentHash) ∧
      (∀ i x y, new[i]? = some x → new[i + 1]? = some y → x.Hash = y.ParentHash) := by
  obtain ⟨s, hw, rfl, rfl⟩ := findReorgBlocks_ok h k fuel storedTip newTip calls _ _ cs e
  obtain ⟨⟨inv, l1, l2⟩, _, _⟩ :=
    walkLoop_ok_inv h k
      (fun s => WalkInv storedTip newTip s ∧ Linked s.reorgBlocks ∧ Linked s.newBlocks)
      (storedStep_linked h k hGet storedTip newTip)
      (newStep_linked h k hGet hRpc storedTip newTip)
      fuel _ s cs
      ⟨walkInit_inv storedTip newTip calls, List.chain'_singleton _, List.chain'_singleton _⟩ hw
  refine ⟨?_, fun i x y hx hy => linked_get _ l1 i x y hx hy, ?_⟩
  · rw [← List.head?_eq_getElem?]
    exact inv.reorgHead
  · intro i x y hx hy
    have l3 : List.Chain' (fun x y => x.Hash = y.ParentHash) s.newBlocks.reverse := by
      rw [List.chain'_reverse]
      exact l2
    rw [List.chain'_iff_get] at l3
    obtain ⟨h1, e1⟩ := List.getElem?_eq_some.mp hx
    obtain ⟨h2, e2⟩ := List.getElem?_eq_some.mp hy
    have := l3 i (by omega)
    simp only [List.get_eq_getElem] at this
    rw [e1, e2] at this
    exact this

/-- Witness for C5: the stored tip 163 against a child of the sibling of block 162; both
sides step once, the new side through the RPC client. -/
theorem C5_order_of_the_sequences_witness :
    [chainBlock 163, chainBlock 162][0]? = some (chainBlock 163) ∧
      (∀ i x y, [chainBlock 163, chainBlock 162][i]? = some x →
        [chainBlock 163, chainBlock 162][i + 1]? = some y → y.Hash = x.ParentHash) ∧
      (∀ i x y, [siblingBlock 162, siblingChild 163][i]? = some x →
        [siblingBlock 162, siblingChild 163][i + 1]? = some y →
        x.Hash = y.ParentHash) :=
  C5_order_of_the_sequences scenarioHandler historyAt163
    (specKeeper_get_hash historyAt163) chainRpc_hash 10
    (chainBlock 163) (siblingChild 163) [] [chainBlock 163, chainBlock 162]
    [siblingBlock 162, siblingChild 163]
    [Call.keeperGet 162, Call.keeperGet 1162, Call.rpcBlockByHash 1162] (by decide)

/-! ## The handler -/

/-- On a block the keeper already holds, `Handle` stops after the `Exists` call. -/
theorem Handle_known {K : Type} (h : Handler K) (fuel : Nat) (k : K) (b : Block)
    (hex : h.blockKeeper.Exists k b.Hash = .ok true) :
    Handle h fuel k b =
      { status := .ok (), keeper := k, calls := [Call.keeperExists b.Hash] } := by
  unfold Handle
  rw [hex]

/-- C1 (the code at the failing input): the keeper holds blocks 162 and 163 with head
163, every lookup by hash returns the block with that hash, and the observed block
165 descends from the head through block 164, which only the RPC client knows. The
keeper classifies block 165 as a reorg, and `Handle` publishes one message in which
the head, block 163, is both the reverted block and the first new block. -/
theorem C1_gap_block_puts_head_on_both_sides :
    specKeeper.IsReorg historyAt163 (chainBlock 165) = .ok true ∧
      (∀ x b, specKeeper.Get historyAt163 x = .ok b → b.Hash = x) ∧
      (∀ x b, chainRpc x = .ok b → b.Hash = x) ∧
      published (Handle scenarioHandler 10 historyAt163 (chainBlock 165)).calls =
        [{ RevertedBlocks := [chainBlock 163]
           NewBlocks := [chainBlock 163, chainBlock 164, chainBlock 165] }] ∧
      (chainBlock 163).Hash ∈ [chainBlock 163].map Block.Hash ∧
      (chainBlock 163).Hash ∈
        [chainBlock 163, chainBlock 164, chainBlock 165].map Block.Hash :=
  ⟨rfl, specKeeper_get_hash historyAt163, chainRpc_hash, by decide, by decide, by decide⟩

/-- C2 (as stated, refuted): in the flip-flop scenario on the seeded history, the first
`Handle(B164)` publishes `{reverted: [], new: [B164]}`, `Handle(B164')` publishes
`{reverted: [B164], new: [B164']}`, block 164 is still in the keeper, and the further
`Handle(B164)` publishes nothing, so not the message `{reverted: [B164'], new: [B164]}`. -/
theorem C2_flip_flop_publishes_nothing :
    published (Handle scenarioHandler 10 seedHistory (chainBlock 164)).calls =
        [{ RevertedBlocks := [], NewBlocks := [chainBlock 164] }] ∧
      published (Handle scenarioHandler 10 historyAfterExtension (siblingBlock 164)).calls =
        [{ RevertedBlocks := [chainBlock 164], NewBlocks := [siblingBlock 164] }] ∧
      specKeeper.Exists historyAfterSibling (chainBlock 164).Hash = .ok true ∧
      published (Handle scenarioHandler 10 historyAfterSibling (chainBlock 164)).calls = [] ∧
      published (Handle scenarioHandler 10 historyAfterSibling (chainBlock 164)).calls ≠
        [{ RevertedBlocks := [siblingBlock 164], NewBlocks := [chainBlock 164] }] :=
  ⟨by decide, by decide, rfl, by decide, by decide⟩

/-- C2 (amended): after `Handle(B164)` and `Handle(B164')`, if block 164 is still in the
keeper, a further `Handle(B164)` returns success, publishes no message, issues no RPC
call and leaves the keeper as it was: the only call it makes is `Exists`. -/
theorem C2_flip_flop_is_deduplicated {K : Type} (h : Handler K) (fuel1 fuel2 fuel3 : Nat)
    (k0 : K) (b164 b164' : Block)
    (hkept : h.blockKeeper.Exists
      (Handle h fuel2 (Handle h fuel1 k0 b164).keeper b164').keeper b164.Hash = .ok true) :
    (Handle h fuel3 (Handle h fuel2 (Handle h fuel1 k0 b164).keeper b164').keeper b164).status
        = .ok () ∧
      (Handle h fuel3 (Handle h fuel2 (Handle h fuel1 k0 b164).keeper b164').keeper b164).calls
        = [Call.keeperExists b164.Hash] ∧
      published
        (Handle h fuel3 (Handle h fuel2 (Handle h fuel1 k0 b164).keeper b164').keeper b164).calls
        = [] ∧
      rpcLookups
        (Handle h fuel3 (Handle h fuel2 (Handle h fuel1 k0 b164).keeper b164').keeper b164).calls
        = [] ∧
      (Handle h fuel3 (Handle h fuel2 (Handle h fuel1 k0 b164).keeper b164').keeper b164).keeper
        = (Handle h fuel2 (Handle h fuel1 k0 b164).keeper b164').keeper := by
  rw [Handle_known h fuel3 _ b164 hkept]
  exact ⟨rfl, rfl, rfl, rfl, rfl⟩

/-- Witness for C2 (amended): the flip-flop scenario on the seeded history. -/
theorem C2_flip_flop_is_deduplicated_witness :
    specKeeper.Exists
        (Handle scenarioHandler 10
          (Handle scenarioHandler 10 seedHistory (chainBlock 164)).keeper
          (siblingBlock 164)).keeper (chainBlock 164).Hash = .ok true ∧
      published
        (Handle scenarioHandler 10
          (Handle scenarioHandler 10
            (Handle scenarioHandler 10 seedHistory (chainBlock 164)).keeper
            (siblingBlock 164)).keeper (chainBlock 164)).calls = [] :=
  ⟨rfl, (C2_flip_flop_is_deduplicated scenarioHandler 10 10 10 seedHistory
    (chainBlock 164) (siblingBlock 164) rfl).2.2.1⟩

/-- C3: every message that `Handle(b)` hands to the publisher with non-empty new blocks
has `b` as the last of its new blocks. -/
theorem C3_new_blocks_end_with_handled_block {K : Type} (h : Handler K) (fuel : Nat)
    (k : K) (b : Block) (m : Message)
    (hm : m ∈ published (Handle h fuel k b).calls) (hne : m.NewBlocks ≠ []) :
    m.NewBlocks.getLast? = some b := by
  rcases Handle_cases h fuel k b with ⟨hp, _⟩ | ⟨reverted, new, pre, hp, _, _, hl, he⟩
  · rw [hp] at hm
    simp at hm
  · rw [he, publishAndAdd_published, hp] at hm
    simp only [List.nil_append, List.mem_singleton] at hm
    subst hm
    exact hl

/-- Witness for C3: a reorg of depth two on the history holding blocks 162 and 163. -/
theorem C3_new_blocks_end_with_handled_block_witness :
    ({ RevertedBlocks := [chainBlock 163, chainBlock 162]
       NewBlocks := [siblingBlock 162, siblingChild 163] } : Message) ∈
        published (Handle scenarioHandler 10 historyAt163 (siblingChild 163)).calls ∧
      [siblingBlock 162, siblingChild 163].getLast? = some (siblingChild 163) :=
  ⟨by decide,
    C3_new_blocks_end_with_handled_block scenarioHandler 10 historyAt163 (siblingChild 163)
      { RevertedBlocks := [chainBlock 163, chainBlock 162]
        NewBlocks := [siblingBlock 162, siblingChild 163] } (by decide) (by decide)⟩

/-- C6: when `Exists(b.hash)` is true, `Handle(b)` returns success and its only call
is that `Exists`: nothing is published, no `IsReorg`, `Head`, `Get`, RPC call or `Add`
is made, and the keeper state and its head are what they were. -/
theorem C6_dedup {K : Type} (h : Handler K) (fuel : Nat) (k : K) (b : Block)
    (hex : h.blockKeeper.Exists k b.Hash = .ok true) :
    (Handle h fuel k b).status = .ok () ∧
      (Handle h fuel k b).calls = [Call.keeperExists b.Hash] ∧
      published (Handle h fuel k b).calls = [] ∧
      added (Handle h fuel k b).calls = [] ∧
      (Handle h fuel k b).keeper = k ∧
      h.blockKeeper.Head (Handle h fuel k b).keeper = h.blockKeeper.Head k := by
  rw [Handle_known h fuel k b hex]
  exact ⟨rfl, rfl, rfl, rfl, rfl, rfl⟩

/-- Witness for C6: the head block 163 delivered again. -/
theorem C6_dedup_witness :
    specKeeper.Exists historyAt163 (chainBlock 163).Hash = .ok true ∧
      (Handle scenarioHandler 10 historyAt163 (chainBlock 163)).calls =
        [Call.keeperExists (chainBlock 163).Hash] :=
  ⟨rfl, (C6_dedup scenarioHandler 10 historyAt163 (chainBlock 163) rfl).2.1⟩

theorem retainingKeeper_add_exists (k : History) (x : Block) (k1 : History)
    (e : retainingKeeper.Add k x = (k1, none)) :
    retainingKeeper.Exists k1 x.Hash = .ok true := by
  simp only [retainingKeeper, specKeeper] at e ⊢
  split at e
  · rename_i hany
    simp only [Prod.mk.injEq, and_true] at e
    subst e
    rw [hany]
  · simp only [Prod.mk.injEq, and_true] at e
    subst e
    simp

theorem publishAndAdd_ok {K : Type} (h : Handler K) (k : K) (reverted new : List Block)
    (calls : List Call) (hs : (publishAndAdd h k reverted new calls).status = .ok ()) :
    publishAndAdd h k reverted new calls =
      addBlocks h.blockKeeper k new
        (calls ++ [Call.publish { RevertedBlocks := reverted, NewBlocks := new }]) := by
  unfold publishAndAdd at hs ⊢
  simp only at hs ⊢
  split
  · rename_i err hp
    rw [hp] at hs
    simp at hs
  · rfl

/-- C7 (as stated, refuted): the keeper without eviction makes `Exists(x.hash)` true
after every successful `Add(x)`; on a history that already holds block 163 the first
`Handle(B163)` succeeds, and the two calls together publish no message at all. -/
theorem C7_known_block_publishes_no_message :
    (∀ k x k1, retainingKeeper.Add k x = (k1, none) →
        retainingKeeper.Exists k1 x.Hash = .ok true) ∧
      (Handle retainingHandler 10 historyAt163 (chainBlock 163)).status = .ok () ∧
      published (Handle retainingHandler 10 historyAt163 (chainBlock 163)).calls ++
        published (Handle retainingHandler 10
          (Handle retainingHandler 10 historyAt163 (chainBlock 163)).keeper
          (chainBlock 163)).calls = [] :=
  ⟨retainingKeeper_add_exists, by decide, by decide⟩

/-- C7 (amended): for a keeper in which a successful `Add(x)` makes `Exists(x.hash)`
true, and a block `b` the keeper does not hold yet, if a first `Handle(b)` succeeds
then an immediately following `Handle(b)` publishes nothing, and the two calls
together publish exactly one message, whose new blocks end with `b`. -/
theorem C7_idempotence {K : Type} (h : Handler K) (fuel fuel2 : Nat) (k : K) (b : Block)
    (hAdd : ∀ k x k1, h.blockKeeper.Add k x = (k1, none) →
      h.blockKeeper.Exists k1 x.Hash = .ok true)
    (hfresh : h.blockKeeper.Exists k b.Hash = .ok false)
    (hok : (Handle h fuel k b).status = .ok ()) :
    published (Handle h fuel2 (Handle h fuel k b).keeper b).calls = [] ∧
      ∃ m, published (Handle h fuel k b).calls ++
          published (Handle h fuel2 (Handle h fuel k b).keeper b).calls = [m] ∧
        m.NewBlocks.getLast? = some b := by
  rcases Handle_cases h fuel k b with ⟨_, _, _, hx⟩ | ⟨reverted, new, pre, hp, _, _, hl, he⟩
  · have := hx hok
    rw [hfresh] at this
    simp at this
  · have hpub := publishAndAdd_published h k reverted new pre
    rw [he] at hok ⊢
    have hkn : h.blockKeeper.Exists (publishAndAdd h k reverted new pre).keeper b.Hash
        = .ok true := by
      have e2 := publishAndAdd_ok h k reverted new pre hok
      rw [e2] at hok ⊢
      exact addBlocks_exists_last h.blockKeeper hAdd new k _ b hl hok
    rw [Handle_known h fuel2 _ b hkn, hpub, hp]
    exact ⟨rfl, { RevertedBlocks := reverted, NewBlocks := new }, rfl, hl⟩

/-- Witness for C7 (amended): a new block on the reorg path, handled twice by the
keeper without eviction. -/
theorem C7_idempotence_witness :
    published (Handle retainingHandler 10
        (Handle retainingHandler 10 historyAt163 (siblingChild 163)).keeper
        (siblingChild 163)).calls = [] ∧
      ∃ m, published (Handle retainingHandler 10 historyAt163 (siblingChild 163)).calls ++
          published (Handle retainingHandler 10
            (Handle retainingHandler 10 historyAt163 (siblingChild 163)).keeper
            (siblingChild 163)).calls = [m] ∧
        m.NewBlocks.getLast? = some (siblingChild 163) :=
  C7_idempotence retainingHandler 10 10 historyAt163 (siblingChild 163)
    retainingKeeper_add_exists rfl (by decide)

/-- C8: on a block that is neither known nor a reorg, `Handle` calls `Exists`,
`IsReorg` and `Publish` with the message `{reverted: [], new: [b]}`, and then, when
the publish succeeded, `Add(b)` once; it makes no other call, in particular no
`Head`, no `Get` and no RPC call. -/
theorem C8_non_reorg_path {K : Type} (h : Handler K) (fuel : Nat) (k : K) (b : Block)
    (hex : h.blockKeeper.Exists k b.Hash = .ok false)
    (hre : h.blockKeeper.IsReorg k b = .ok false) :
    (Handle h fuel k b).calls =
        [Call.keeperExists b.Hash, Call.keeperIsReorg b,
          Call.publish { RevertedBlocks := [], NewBlocks := [b] }] ++
        (match h.Publish { RevertedBlocks := [], NewBlocks := [b] } with
          | none => [Call.keeperAdd b]
          | some _ => []) ∧
      published (Handle h fuel k b).calls = [{ RevertedBlocks := [], NewBlocks := [b] }] ∧
      (∀ c ∈ (Handle h fuel k b).calls, c ≠ Call.keeperHead ∧ c.isLookup = false) ∧
      (h.Publish { RevertedBlocks := [], NewBlocks := [b] } = none →
        added (Handle h fuel k b).calls = [b]) := by
  have e : Handle h fuel k b =
      publishAndAdd h k [] [b] [Call.keeperExists b.Hash, Call.keeperIsReorg b] := by
    unfold Handle
    rw [hex]
    simp only
    rw [hre]
  rw [e]
  unfold publishAndAdd
  simp only
  cases hp : h.Publish { RevertedBlocks := [], NewBlocks := [b] } with
  | some err =>
    simp [published, added, Call.isLookup]
  | none =>
    simp only [addBlocks]
    cases hadd : h.blockKeeper.Add k b with
    | mk k1 r =>
      cases r with
      | none => simp [published, added, Call.isLookup, addBlocks]
      | some err => simp [published, added, Call.isLookup]

/-- Witness for C8: the clean extension of scenario 1. -/
theorem C8_non_reorg_path_witness :
    specKeeper.Exists seedHistory (chainBlock 164).Hash = .ok false ∧
      specKeeper.IsReorg seedHistory (chainBlock 164) = .ok false ∧
      published (Handle scenarioHandler 10 seedHistory (chainBlock 164)).calls =
        [{ RevertedBlocks := [], NewBlocks := [chainBlock 164] }] :=
  ⟨rfl, rfl, (C8_non_reorg_path scenarioHandler 10 seedHistory (chainBlock 164) rfl rfl).2.1⟩

/-- C9: when the publisher returns an error for the message `Handle(b)` hands to it,
`Handle(b)` returns that error, calls `Add` zero times and leaves the keeper state as
it was. -/
theorem C9_publish_failure_keeps_keeper {K : Type} (h : Handler K) (fuel : Nat) (k : K)
    (b : Block) (m : Message) (e : Err)
    (hm : m ∈ published (Handle h fuel k b).calls) (hp : h.Publish m = some e) :
    (Handle h fuel k b).status = .fail e ∧ added (Handle h fuel k b).calls = [] ∧
      (Handle h fuel k b).keeper = k := by
  rcases Handle_cases h fuel k b with ⟨hpub, _⟩ | ⟨reverted, new, pre, hpub, hadd, _, _, he⟩
  · rw [hpub] at hm
    simp at hm
  · rw [he, publishAndAdd_published, hpub] at hm
    simp only [List.nil_append, List.mem_singleton] at hm
    subst hm
    obtain ⟨h1, h2, h3⟩ := publishAndAdd_publish_fails h k reverted new pre e hp
    rw [he]
    exact ⟨h1, by rw [h3, hadd], h2⟩

/-- Witness for C9: a clean extension with a publisher that fails. -/
theorem C9_publish_failure_keeps_keeper_witness :
    ({ RevertedBlocks := [], NewBlocks := [chainBlock 164] } : Message) ∈
        published (Handle failingPublishHandler 10 historyAt163 (chainBlock 164)).calls ∧
      (Handle failingPublishHandler 10 historyAt163 (chainBlock 164)).status =
        .fail (Err.other 9) ∧
      added (Handle failingPublishHandler 10 historyAt163 (chainBlock 164)).calls = [] ∧
      (Handle failingPublishHandler 10 historyAt163 (chainBlock 164)).keeper = historyAt163 :=
  ⟨by decide,
    C9_publish_failure_keeps_keeper failingPublishHandler 10 historyAt163 (chainBlock 164)
      { RevertedBlocks := [], NewBlocks := [chainBlock 164] } (Err.other 9) (by decide) rfl⟩

/-! ## Where the walk can fail -/

theorem getBlock_error {K : Type} (h : Handler K) (k : K) (x : common.Hash) (e : Err)
    (cs : List Call) (hg : getBlock h k x = (.error e, cs)) :
    (cs = [Call.keeperGet x] ∧ h.blockKeeper.Get k x = .error e) ∨
      (cs = [Call.keeperGet x, Call.rpcBlockByHash x] ∧
        h.blockKeeper.Get k x = .error Err.ErrNotFound ∧ h.getBlockByHash x = .error e) := by
  unfold getBlock at hg
  split at hg
  · simp at hg
  · rename_i err hget
    split at hg
    · simp only [Prod.mk.injEq, Except.error.injEq] at hg
      left
      exact ⟨hg.2.symm, by rw [hget, hg.1]⟩
    · rename_i hnf
      simp only [ne_eq, not_not] at hnf
      simp only [Prod.mk.injEq] at hg
      right
      exact ⟨hg.2.symm, by rw [hget, hnf], hg.1⟩

theorem storedStep_error {K : Type} (h : Handler K) (k : K) (s : WalkState)
    (e : Err) (cs : List Call) (hs : storedStep h k s = .error (e, cs)) :
    FailedLookup h k e cs := by
  unfold storedStep at hs
  split at hs
  · split at hs
    · rename_i err hget
      simp only [Except.error.injEq, Prod.mk.injEq] at hs
      exact ⟨s.calls, s.storedBlock.ParentHash, Or.inl ⟨hs.2.symm, by rw [hget, hs.1]⟩⟩
    · simp at hs
  · simp at hs

theorem newStep_error {K : Type} (h : Handler K) (k : K) (s : WalkState)
    (e : Err) (cs : List Call) (hs : newStep h k s = .error (e, cs)) :
    FailedLookup h k e cs := by
  unfold newStep at hs
  split at hs
  · split at hs
    · rename_i err cs1 hg
      simp only [Except.error.injEq, Prod.mk.injEq] at hs
      obtain ⟨rfl, rfl⟩ := hs
      rcases getBlock_error h k _ _ _ hg with ⟨rfl, h1⟩ | ⟨rfl, h1, h2⟩
      · exact ⟨s.calls, s.newBlock.ParentHash, Or.inl ⟨rfl, h1⟩⟩
      · exact ⟨s.calls, s.newBlock.ParentHash, Or.inr ⟨rfl, h1, h2⟩⟩
    · simp at hs
  · simp at hs

/-- The loop fails only with the error of the lookup it made last. -/
theorem walkLoop_fail {K : Type} (h : Handler K) (k : K) :
    ∀ (fuel : Nat) (s : WalkState) (e : Err) (cs : List Call),
      walkLoop h k fuel s = (.fail e, cs) → FailedLookup h k e cs := by
  intro fuel
  induction fuel with
  | zero =>
    intro s e cs hw
    unfold walkLoop at hw
    split at hw <;> simp at hw
  | succ n ih =>
    intro s e cs hw
    unfold walkLoop at hw
    split at hw
    · simp at hw
    · simp only at hw
      split at hw
      · rename_i err cs1 hb
        simp only [Prod.mk.injEq, Result.fail.injEq] at hw
        obtain ⟨rfl, rfl⟩ := hw
        unfold walkBody at hb
        split at hb
        · rename_i e0 hst
          simp only [Except.error.injEq] at hb
          subst hb
          exact storedStep_error h k s _ _ hst
        · rename_i s0 hst
          exact newStep_error h k s0 _ _ hb
      · rename_i s1 hb
        exact ih s1 e cs hw

theorem findReorgBlocks_fail {K : Type} (h : Handler K) (k : K) (fuel : Nat)
    (storedTip newTip : Block) (calls : List Call) (e : Err) (cs : List Call)
    (hf : findReorgBlocks h k fuel storedTip newTip calls = (.fail e, cs)) :
    FailedLookup h k e cs := by
  unfold findReorgBlocks at hf
  split at hf
  · simp at hf
  · rename_i err cs1 hw
    simp only [Prod.mk.injEq, Result.fail.injEq] at hf
    obtain ⟨rfl, rfl⟩ := hf
    exact walkLoop_fail h k fuel _ _ _ hw
  · simp at hf

/-- A failing `Head` or a failing `findReorgBlocks` is the outcome of `Handle` on a
block classified as a reorg: nothing is published, nothing is added, the keeper state
is as it was. -/
theorem Handle_resolution_fail {K : Type} (h : Handler K) (fuel : Nat) (k : K)
    (b : Block) (e : Err)
    (hex : h.blockKeeper.Exists k b.Hash = .ok false)
    (hre : h.blockKeeper.IsReorg k b = .ok true)
    (hfail : h.blockKeeper.Head k = .error e ∨
      ∃ head, h.blockKeeper.Head k = .ok head ∧
        (findReorgBlocks h k fuel head b
          [Call.keeperExists b.Hash, Call.keeperIsReorg b, Call.keeperHead]).1 = .fail e) :
    (Handle h fuel k b).status = .fail e ∧
      published (Handle h fuel k b).calls = [] ∧
      added (Handle h fuel k b).calls = [] ∧
      (Handle h fuel k b).keeper = k ∧
      (h.blockKeeper.Head k = .error e ∨ FailedLookup h k e (Handle h fuel k b).calls) ∧
      Handle h fuel (Handle h fuel k b).keeper b = Handle h fuel k b := by
  have hst : ∃ cs, handleReorgBlock h k fuel b
      [Call.keeperExists b.Hash, Call.keeperIsReorg b] = (.fail e, cs) ∧
      (h.blockKeeper.Head k = .error e ∨ FailedLookup h k e cs) := by
    unfold handleReorgBlock
    rcases hfail with hh | ⟨head, hh, hf⟩
    · rw [hh]; exact ⟨_, rfl, Or.inl rfl⟩
    · rw [hh]
      simp only [List.cons_append, List.nil_append]
      refine ⟨_, Prod.ext hf rfl, Or.inr ?_⟩
      exact findReorgBlocks_fail h k fuel head b _ e _ (Prod.ext hf rfl)
  obtain ⟨cs, hcs, hlk⟩ := hst
  have e1 : Handle h fuel k b = { status := .fail e, keeper := k, calls := cs } := by
    unfold Handle
    rw [hex]
    simp only
    rw [hre]
    simp only
    rw [hcs]
  have hx := handleReorgBlock_published h k fuel b
    [Call.keeperExists b.Hash, Call.keeperIsReorg b]
  rw [hcs] at hx
  rw [e1]
  refine ⟨rfl, ?_, ?_, rfl, hlk, ?_⟩
  · rw [hx.1]; simp [published]
  · rw [hx.2]; simp [added]
  · exact e1

/-! ## The error of a walk that leaves the window -/

theorem walkAfter_walkLoop {K : Type} (h : Handler K) (k : K) :
    ∀ (n : Nat) (s s' : WalkState), walkAfter h k n s = some s' →
      ∀ m, walkLoop h k (n + m) s = walkLoop h k m s' := by
  intro n
  induction n with
  | zero =>
    intro s s' hw m
    simp only [walkAfter, Option.some.injEq] at hw
    subst hw
    simp
  | succ n ih =>
    intro s s' hw m
    unfold walkAfter at hw
    split at hw
    · simp at hw
    · rename_i hne
      split at hw
      · simp at hw
      · rename_i s1 hb
        have e : n + 1 + m = (n + m) + 1 := by omega
        rw [e]
        conv => lhs; unfold walkLoop
        rw [if_neg hne]
        simp only
        rw [hb]
        exact ih s1 s' hw m

theorem storedStep_miss {K : Type} (h : Handler K) (k : K) (s : WalkState) (e : Err)
    (hside : s.storedNumber ≥ s.newNumber)
    (hmiss : h.blockKeeper.Get k s.storedBlock.ParentHash = .error e) :
    storedStep h k s = .error (e, s.calls ++ [Call.keeperGet s.storedBlock.ParentHash]) := by
  unfold storedStep
  rw [if_pos hside, hmiss]

theorem walkLoop_stored_miss {K : Type} (h : Handler K) (k : K) (s : WalkState) (e : Err)
    (hne : s.storedBlock.ParentHash ≠ s.newBlock.ParentHash)
    (hside : s.storedNumber ≥ s.newNumber)
    (hmiss : h.blockKeeper.Get k s.storedBlock.ParentHash = .error e) (m : Nat) :
    walkLoop h k (m + 1) s =
      (.fail e, s.calls ++ [Call.keeperGet s.storedBlock.ParentHash]) := by
  unfold walkLoop
  rw [if_neg hne]
  simp only
  unfold walkBody
  rw [storedStep_miss h k s e hside hmiss]

/-- On a block classified as a reorg, a failing `handleReorgBlock` is the outcome of
`Handle`. -/
theorem Handle_reorg_fail {K : Type} (h : Handler K) (fuel : Nat) (k : K) (b : Block)
    (e : Err) (cs : List Call)
    (hex : h.blockKeeper.Exists k b.Hash = .ok false)
    (hre : h.blockKeeper.IsReorg k b = .ok true)
    (hf : handleReorgBlock h k fuel b [Call.keeperExists b.Hash, Call.keeperIsReorg b] =
      (.fail e, cs)) :
    Handle h fuel k b = { status := .fail e, keeper := k, calls := cs } := by
  unfold Handle
  rw [hex]
  simp only
  rw [hre]
  simp only
  rw [hf]

/-- A stored-side lookup that fails after `n` iterations of the walk decides the
outcome of the resolver and of `Handle`. -/
theorem Handle_stored_miss {K : Type} (h : Handler K) (fuel : Nat) (k : K)
    (b head : Block) (n : Nat) (s : WalkState) (e : Err)
    (hex : h.blockKeeper.Exists k b.Hash = .ok false)
    (hre : h.blockKeeper.IsReorg k b = .ok true)
    (hhead : h.blockKeeper.Head k = .ok head)
    (hreach : walkAfter h k n
      (walkInit head b [Call.keeperExists b.Hash, Call.keeperIsReorg b, Call.keeperHead])
      = some s)
    (hne : s.storedBlock.ParentHash ≠ s.newBlock.ParentHash)
    (hside : s.storedNumber ≥ s.newNumber)
    (hmiss : h.blockKeeper.Get k s.storedBlock.ParentHash = .error e)
    (hfuel : n < fuel) :
    (findReorgBlocks h k fuel head b
        [Call.keeperExists b.Hash, Call.keeperIsReorg b, Call.keeperHead]).1 = .fail e ∧
      (Handle h fuel k b).status = .fail e ∧
      published (Handle h fuel k b).calls = [] ∧
      (Handle h fuel k b).keeper = k := by
  obtain ⟨m, rfl⟩ : ∃ m, fuel = n + (m + 1) := ⟨fuel - n - 1, by omega⟩
  have hw := walkAfter_walkLoop h k n _ s hreach (m + 1)
  rw [walkLoop_stored_miss h k s e hne hside hmiss m] at hw
  have hf : findReorgBlocks h k (n + (m + 1)) head b
      [Call.keeperExists b.Hash, Call.keeperIsReorg b, Call.keeperHead] =
      (.fail e, s.calls ++ [Call.keeperGet s.storedBlock.ParentHash]) := by
    unfold findReorgBlocks
    rw [hw]
  have hh : handleReorgBlock h k (n + (m + 1)) b
      [Call.keeperExists b.Hash, Call.keeperIsReorg b] =
      (.fail e, s.calls ++ [Call.keeperGet s.storedBlock.ParentHash]) := by
    unfold handleReorgBlock
    rw [hhead]
    exact hf
  have hx := handleReorgBlock_published h k (n + (m + 1)) b
    [Call.keeperExists b.Hash, Call.keeperIsReorg b]
  rw [hh] at hx
  rw [Handle_reorg_fail h _ k b e _ hex hre hh, hf]
  refine ⟨rfl, rfl, ?_, rfl⟩
  rw [hx.1]
  simp [published]

theorem walkAfter_step {K : Type} (h : Handler K) (k : K) (n : Nat) (s s1 s' : WalkState)
    (hne : s.storedBlock.ParentHash ≠ s.newBlock.ParentHash)
    (hb : walkBody h k s = .ok s1) (hr : walkAfter h k n s1 = some s') :
    walkAfter h k (n + 1) s = some s' := by
  unfold walkAfter
  rw [if_neg hne, hb]
  exact hr

/-- The walk of scenario 6 runs for four iterations and then stands at block 7. -/
theorem tooDeep_reach :
    walkAfter forkHandler historyAt10 4 (walkInit (chainBlock 10) (forkBlock 11) tooDeepCalls)
      = some (tooDeepState 4) :=
  walkAfter_step _ _ 3 _ (tooDeepState 1) _ (by decide) rfl
    (walkAfter_step _ _ 2 _ (tooDeepState 2) _ (by decide) rfl
      (walkAfter_step _ _ 1 _ (tooDeepState 3) _ (by decide) rfl
        (walkAfter_step _ _ 0 _ (tooDeepState 4) _ (by decide) rfl rfl)))

/-! ## A failing lookup stops `Handle` -/

theorem getBlock_keeper_error {K : Type} (h : Handler K) (k : K) (x : common.Hash) (e : Err)
    (hget : h.blockKeeper.Get k x = .error e) (hne : e ≠ Err.ErrNotFound) :
    getBlock h k x = (.error e, [Call.keeperGet x]) := by
  unfold getBlock
  rw [hget]
  simp [hne]

theorem getBlock_rpc_error {K : Type} (h : Handler K) (k : K) (x : common.Hash) (e : Err)
    (hget : h.blockKeeper.Get k x = .error Err.ErrNotFound)
    (hrpc : h.getBlockByHash x = .error e) :
    getBlock h k x = (.error e, [Call.keeperGet x, Call.rpcBlockByHash x]) := by
  unfold getBlock
  rw [hget]
  simp [hrpc]

theorem newStep_miss {K : Type} (h : Handler K) (k : K) (s : WalkState) (e : Err)
    (cs : List Call) (hside : s.newNumber > s.storedNumber)
    (hg : getBlock h k s.newBlock.ParentHash = (.error e, cs)) :
    newStep h k s = .error (e, s.calls ++ cs) := by
  unfold newStep
  rw [if_pos hside, hg]

theorem walkLoop_new_miss {K : Type} (h : Handler K) (k : K) (s s0 : WalkState) (e : Err)
    (cs : List Call)
    (hne : s.storedBlock.ParentHash ≠ s.newBlock.ParentHash)
    (hst : storedStep h k s = .ok s0)
    (hside : s0.newNumber > s0.storedNumber)
    (hg : getBlock h k s0.newBlock.ParentHash = (.error e, cs)) (m : Nat) :
    walkLoop h k (m + 1) s = (.fail e, s0.calls ++ cs) := by
  unfold walkLoop
  rw [if_neg hne]
  simp only
  unfold walkBody
  rw [hst]
  simp only
  rw [newStep_miss h k s0 e cs hside hg]

/-- C10: for a block classified as a reorg, when `Keeper.Head` fails with an error `e`,
or the walk of `findReorgBlocks` reaches, after `n` iterations, a state in which an
ancestor lookup fails with `e` (the stored cursor has to step and `Keeper.Get` of its
parent fails; or the new cursor has to step and `Keeper.Get` of its parent fails with
an error other than `ErrNotFound`, or fails with `ErrNotFound` and the RPC lookup
fails), `Handle(b)` returns `e`, publishes no message, calls `Add` zero times and
leaves the keeper state as it was; a second `Handle(b)` on the resulting keeper has
the same outcome. -/
theorem C10_resolution_failure_is_atomic {K : Type} (h : Handler K) (fuel : Nat) (k : K)
    (b : Block) (e : Err)
    (hex : h.blockKeeper.Exists k b.Hash = .ok false)
    (hre : h.blockKeeper.IsReorg k b = .ok true)
    (hfail : h.blockKeeper.Head k = .error e ∨
      ∃ head n s, h.blockKeeper.Head k = .ok head ∧ n < fuel ∧
        walkAfter h k n
          (walkInit head b [Call.keeperExists b.Hash, Call.keeperIsReorg b, Call.keeperHead])
          = some s ∧
        s.storedBlock.ParentHash ≠ s.newBlock.ParentHash ∧
        ((s.storedNumber ≥ s.newNumber ∧
            h.blockKeeper.Get k s.storedBlock.ParentHash = .error e) ∨
          (∃ s0, storedStep h k s = .ok s0 ∧ s0.newNumber > s0.storedNumber ∧
            ((h.blockKeeper.Get k s0.newBlock.ParentHash = .error e ∧
                e ≠ Err.ErrNotFound) ∨
              (h.blockKeeper.Get k s0.newBlock.ParentHash = .error Err.ErrNotFound ∧
                h.getBlockByHash s0.newBlock.ParentHash = .error e))))) :
    (Handle h fuel k b).status = .fail e ∧
      published (Handle h fuel k b).calls = [] ∧
      added (Handle h fuel k b).calls = [] ∧
      (Handle h fuel k b).keeper = k ∧
      (h.blockKeeper.Head k = .error e ∨ FailedLookup h k e (Handle h fuel k b).calls) ∧
      Handle h fuel (Handle h fuel k b).keeper b = Handle h fuel k b := by
  apply Handle_resolution_fail h fuel k b e hex hre
  rcases hfail with hh | ⟨head, n, s, hh, hfuel, hreach, hne, hlook⟩
  · exact Or.inl hh
  · right
    refine ⟨head, hh, ?_⟩
    obtain ⟨m, rfl⟩ : ∃ m, fuel = n + (m + 1) := ⟨fuel - n - 1, by omega⟩
    have hw := walkAfter_walkLoop h k n _ s hreach (m + 1)
    have hfailed : ∃ cs, walkLoop h k (m + 1) s = (.fail e, cs) := by
      rcases hlook with ⟨hside, hmiss⟩ | ⟨s0, hst, hside, hnew⟩
      · exact ⟨_, walkLoop_stored_miss h k s e hne hside hmiss m⟩
      · rcases hnew with ⟨hget, hnf⟩ | ⟨hget, hrpc⟩
        · exact ⟨_, walkLoop_new_miss h k s s0 e _ hne hst hside
            (getBlock_keeper_error h k _ e hget hnf) m⟩
        · exact ⟨_, walkLoop_new_miss h k s s0 e _ hne hst hside
            (getBlock_rpc_error h k _ e hget hrpc) m⟩
    obtain ⟨cs, hcs⟩ := hfailed
    rw [hcs] at hw
    unfold findReorgBlocks
    rw [hw]

/-- Witness for C10: on the history holding blocks 162 and 163, a sibling of block 161
makes the stored-side walk ask the keeper for block 161, which it does not hold; and an
observed block whose parent nobody knows makes the new-side lookup fail in the RPC
client. -/
theorem C10_resolution_failure_is_atomic_witness :
    (Handle scenarioHandler 10 historyAt163 (siblingBlock 161)).status =
        .fail Err.ErrNotFound ∧
      published (Handle scenarioHandler 10 historyAt163 (siblingBlock 161)).calls = [] ∧
      chainRpc orphanBlock.ParentHash = .error (Err.other 7) ∧
      (Handle scenarioHandler 10 historyAt163 orphanBlock).status = .fail (Err.other 7) ∧
      (Handle scenarioHandler 10 historyAt163 orphanBlock).keeper = historyAt163 :=
  ⟨(C10_resolution_failure_is_atomic scenarioHandler 10 historyAt163 (siblingBlock 161)
      Err.ErrNotFound rfl rfl
      (Or.inr ⟨chainBlock 163, 1,
        { storedBlock := chainBlock 162, newBlock := siblingBlock 161
          storedNumber := 162, newNumber := 161
          reorgBlocks := [chainBlock 163, chainBlock 162]
          newBlocks := [siblingBlock 161]
          calls := [Call.keeperExists (siblingBlock 161).Hash,
            Call.keeperIsReorg (siblingBlock 161), Call.keeperHead, Call.keeperGet 162] },
        rfl, by decide, rfl, by decide, Or.inl ⟨by decide, rfl⟩⟩)).1,
    (C10_resolution_failure_is_atomic scenarioHandler 10 historyAt163 (siblingBlock 161)
      Err.ErrNotFound rfl rfl
      (Or.inr ⟨chainBlock 163, 1,
        { storedBlock := chainBlock 162, newBlock := siblingBlock 161
          storedNumber := 162, newNumber := 161
          reorgBlocks := [chainBlock 163, chainBlock 162]
          newBlocks := [siblingBlock 161]
          calls := [Call.keeperExists (siblingBlock 161).Hash,
            Call.keeperIsReorg (siblingBlock 161), Call.keeperHead, Call.keeperGet 162] },
        rfl, by decide, rfl, by decide, Or.inl ⟨by decide, rfl⟩⟩)).2.1,
    rfl,
    (C10_resolution_failure_is_atomic scenarioHandler 10 historyAt163 orphanBlock
      (Err.other 7) rfl rfl
      (Or.inr ⟨chainBlock 163, 0,
        walkInit (chainBlock 163) orphanBlock
          [Call.keeperExists orphanBlock.Hash, Call.keeperIsReorg orphanBlock,
            Call.keeperHead],
        rfl, by decide, rfl, by decide,
        Or.inr ⟨walkInit (chainBlock 163) orphanBlock
          [Call.keeperExists orphanBlock.Hash, Call.keeperIsReorg orphanBlock,
            Call.keeperHead], rfl, by decide, Or.inr ⟨rfl, rfl⟩⟩⟩)).1,
    (C10_resolution_failure_is_atomic scenarioHandler 10 historyAt163 orphanBlock
      (Err.other 7) rfl rfl
      (Or.inr ⟨chainBlock 163, 0,
        walkInit (chainBlock 163) orphanBlock
          [Call.keeperExists orphanBlock.Hash, Call.keeperIsReorg orphanBlock,
            Call.keeperHead],
        rfl, by decide, rfl, by decide,
        Or.inr ⟨walkInit (chainBlock 163) orphanBlock
          [Call.keeperExists orphanBlock.Hash, Call.keeperIsReorg orphanBlock,
            Call.keeperHead], rfl, by decide, Or.inr ⟨rfl, rfl⟩⟩⟩)).2.2.2.1⟩

/-- C11 (as stated, refuted): in scenario 6 (capacity 4, head block 10, observed block
11' on a fork that left the chain after block 5) the stored-side walk needs block 6,
which the keeper does not hold; the resolver and `Handle` return `ErrNotFound`, the
error of that `Keeper.Get`, which is not `ReorgTooDeep`. -/
theorem C11_too_deep_returns_not_found :
    specKeeper.Get historyAt10 (chainBlock 7).ParentHash = .error Err.ErrNotFound ∧
      (findReorgBlocks forkHandler historyAt10 20 (chainBlock 10) (forkBlock 11)
        [Call.keeperExists (forkBlock 11).Hash, Call.keeperIsReorg (forkBlock 11),
          Call.keeperHead]).1 = .fail Err.ErrNotFound ∧
      (Handle forkHandler 20 historyAt10 (forkBlock 11)).status = .fail Err.ErrNotFound ∧
      Err.ErrNotFound ≠ ErrReorgTooDeep :=
  ⟨rfl,
    (Handle_stored_miss forkHandler 20 historyAt10 (forkBlock 11) (chainBlock 10) 4
      (tooDeepState 4) Err.ErrNotFound rfl rfl rfl tooDeep_reach (by decide) (by decide) rfl
      (by decide)).1,
    (Handle_stored_miss forkHandler 20 historyAt10 (forkBlock 11) (chainBlock 10) 4
      (tooDeepState 4) Err.ErrNotFound rfl rfl rfl tooDeep_reach (by decide) (by decide) rfl
      (by decide)).2.1,
    by decide⟩

/-- C11 (amended): when the walk of `findReorgBlocks` has reached, after `n` iterations, a
state in which the stored cursor has to step and `Keeper.Get` of its parent hash fails
with an error `e`, the resolver and `Handle` return that same error `e` (for a parent
absent from the keeper, the keeper's `ErrNotFound`); no message is published and the
keeper state is unchanged. -/
theorem C11_too_deep_returns_keeper_error {K : Type} (h : Handler K) (fuel : Nat) (k : K)
    (b head : Block) (n : Nat) (s : WalkState) (e : Err)
    (hex : h.blockKeeper.Exists k b.Hash = .ok false)
    (hre : h.blockKeeper.IsReorg k b = .ok true)
    (hhead : h.blockKeeper.Head k = .ok head)
    (hreach : walkAfter h k n
      (walkInit head b [Call.keeperExists b.Hash, Call.keeperIsReorg b, Call.keeperHead])
      = some s)
    (hne : s.storedBlock.ParentHash ≠ s.newBlock.ParentHash)
    (hside : s.storedNumber ≥ s.newNumber)
    (hmiss : h.blockKeeper.Get k s.storedBlock.ParentHash = .error e)
    (hfuel : n < fuel) :
    (findReorgBlocks h k fuel head b
        [Call.keeperExists b.Hash, Call.keeperIsReorg b, Call.keeperHead]).1 = .fail e ∧
      (Handle h fuel k b).status = .fail e ∧
      published (Handle h fuel k b).calls = [] ∧
      (Handle h fuel k b).keeper = k :=
  Handle_stored_miss h fuel k b head n s e hex hre hhead hreach hne hside hmiss hfuel

/-- Witness for C11 (amended): scenario 6; after four iterations the stored cursor is
block 7 and block 6 is not in the keeper. -/
theorem C11_too_deep_returns_keeper_error_witness :
    walkAfter forkHandler historyAt10 4
        (walkInit (chainBlock 10) (forkBlock 11) tooDeepCalls) = some (tooDeepState 4) ∧
      specKeeper.Get historyAt10 (tooDeepState 4).storedBlock.ParentHash =
        .error Err.ErrNotFound ∧
      (Handle forkHandler 20 historyAt10 (forkBlock 11)).status = .fail Err.ErrNotFound ∧
      (Handle forkHandler 20 historyAt10 (forkBlock 11)).keeper = historyAt10 :=
  ⟨tooDeep_reach, rfl,
    (C11_too_deep_returns_keeper_error forkHandler 20 historyAt10 (forkBlock 11)
      (chainBlock 10) 4 (tooDeepState 4) Err.ErrNotFound rfl rfl rfl tooDeep_reach
      (by decide) (by decide) rfl (by decide)).2.1,
    (C11_too_deep_returns_keeper_error forkHandler 20 historyAt10 (forkBlock 11)
      (chainBlock 10) 4 (tooDeepState 4) Err.ErrNotFound rfl rfl rfl tooDeep_reach
      (by decide) (by decide) rfl (by decide)).2.2.2⟩

/-! ## The commit step -/

/-- The commit loop in full: it calls `Add` on a prefix of the blocks, in order, each
on the keeper state the previous `Add` left; it stops at the first `Add` that fails
and returns its error. -/
theorem addBlocks_spec {K : Type} (kp : Keeper K) :
    ∀ (bs : List Block) (k : K) (calls : List Call),
      ∃ n, n ≤ bs.length ∧
        (addBlocks kp k bs calls).calls = calls ++ (bs.take n).map Call.keeperAdd ∧
        (addBlocks kp k bs calls).keeper = applyAdds kp k (bs.take n) ∧
        (∀ i x, i + 1 < n → bs[i]? = some x →
          (kp.Add (applyAdds kp k (bs.take i)) x).2 = none) ∧
        (((addBlocks kp k bs calls).status = .ok () ∧ n = bs.length ∧
            ∀ x, bs[n - 1]? = some x →
              (kp.Add (applyAdds kp k (bs.take (n - 1))) x).2 = none) ∨
          (∃ e x, (addBlocks kp k bs calls).status = .fail e ∧ 0 < n ∧
            bs[n - 1]? = some x ∧
            (kp.Add (applyAdds kp k (bs.take (n - 1))) x).2 = some e)) := by
  intro bs
  induction bs with
  | nil =>
    intro k calls
    refine ⟨0, by simp, by simp [addBlocks], by simp [addBlocks, applyAdds], ?_, ?_⟩
    · intro i x hi; omega
    · left
      exact ⟨rfl, rfl, by simp⟩
  | cons b rest ih =>
    intro k calls
    cases hadd : kp.Add k b with
    | mk k1 r =>
      cases r with
      | some err =>
        have e1 : addBlocks kp k (b :: rest) calls =
            { status := .fail err, keeper := k1, calls := calls ++ [Call.keeperAdd b] } := by
          simp only [addBlocks, hadd]
        rw [e1]
        refine ⟨1, by simp, by simp, by simp [applyAdds, hadd], ?_, ?_⟩
        · intro i x hi; omega
        · right
          exact ⟨err, b, rfl, by omega, by simp, by simp [applyAdds, hadd]⟩
      | none =>
        have e1 : addBlocks kp k (b :: rest) calls =
            addBlocks kp k1 rest (calls ++ [Call.keeperAdd b]) := by
          simp only [addBlocks, hadd]
        rw [e1]
        obtain ⟨n, hn, hc, hk, hearly, hlast⟩ := ih k1 (calls ++ [Call.keeperAdd b])
        have hstep : ∀ l : List Block, applyAdds kp k (b :: l) = applyAdds kp k1 l := by
          intro l
          simp [applyAdds, hadd]
        refine ⟨n + 1, by simp; omega, by rw [hc]; simp, ?_, ?_, ?_⟩
        · rw [hk, List.take_succ_cons, hstep]
        · intro i x hi hx
          cases i with
          | zero =>
            simp only [List.getElem?_cons_zero, Option.some.injEq] at hx
            subst hx
            simp [applyAdds, hadd]
          | succ j =>
            simp only [List.getElem?_cons_succ] at hx
            rw [List.take_succ_cons, hstep]
            exact hearly j x (by omega) hx
        · rcases hlast with ⟨h1, h2, h3⟩ | ⟨e, x, h1, h2, h3, h4⟩
          · left
            refine ⟨h1, by simp [h2], ?_⟩
            intro x hx
            cases n with
            | zero =>
              simp only [Nat.zero_add, Nat.sub_self, List.getElem?_cons_zero,
                Option.some.injEq] at hx
              subst hx
              simp [applyAdds, hadd]
            | succ j =>
              simp only [Nat.add_sub_cancel, List.getElem?_cons_succ] at hx ⊢
              rw [List.take_succ_cons, hstep]
              exact h3 x (by simpa using hx)
          · right
            refine ⟨e, x, h1, by omega, ?_, ?_⟩
            · cases n with
              | zero => omega
              | succ j =>
                simp only [Nat.add_sub_cancel, List.getElem?_cons_succ] at h3 ⊢
                exact h3
            · cases n with
              | zero => omega
              | succ j =>
                simp only [Nat.add_sub_cancel] at h4 ⊢
                rw [List.take_succ_cons, hstep]
                exact h4

theorem added_map_keeperAdd (l : List Block) : added (l.map Call.keeperAdd) = l := by
  induction l with
  | nil => rfl
  | cons b rest ih =>
    simp only [List.map_cons]
    show added ([Call.keeperAdd b] ++ rest.map Call.keeperAdd) = b :: rest
    rw [added_append, ih]
    rfl

/-- The commit step: when `Handle(b)` hands a message `M` to the publisher and the
publish succeeds, the calls of `Handle` are some calls that add nothing, then the
publish, then `Add` on a prefix of `M.newBlocks` in order; the keeper state is the one
these `Add`s leave. Either all blocks are added and `Handle` succeeds, or the last `Add`
made failed, `Handle` returns its error and no later block is attempted. -/
theorem Handle_commit_step {K : Type} (h : Handler K) (fuel : Nat) (k : K) (b : Block)
    (m : Message) (hm : m ∈ published (Handle h fuel k b).calls)
    (hp : h.Publish m = none) :
    ∃ pre n, published pre = [] ∧ added pre = [] ∧ n ≤ m.NewBlocks.length ∧
      (Handle h fuel k b).calls =
        pre ++ [Call.publish m] ++ (m.NewBlocks.take n).map Call.keeperAdd ∧
      added (Handle h fuel k b).calls = m.NewBlocks.take n ∧
      (Handle h fuel k b).keeper = applyAdds h.blockKeeper k (m.NewBlocks.take n) ∧
      (∀ i x, i + 1 < n → m.NewBlocks[i]? = some x →
        (h.blockKeeper.Add (applyAdds h.blockKeeper k (m.NewBlocks.take i)) x).2 = none) ∧
      (((Handle h fuel k b).status = .ok () ∧ n = m.NewBlocks.length ∧
          ∀ x, m.NewBlocks[n - 1]? = some x →
            (h.blockKeeper.Add (applyAdds h.blockKeeper k (m.NewBlocks.take (n - 1))) x).2
              = none) ∨
        (∃ e x, (Handle h fuel k b).status = .fail e ∧ 0 < n ∧
          m.NewBlocks[n - 1]? = some x ∧
          (h.blockKeeper.Add (applyAdds h.blockKeeper k (m.NewBlocks.take (n - 1))) x).2
            = some e)) := by
  rcases Handle_cases h fuel k b with ⟨hpub, _⟩ | ⟨reverted, new, pre, hpub, hadd, _, _, he⟩
  · rw [hpub] at hm
    simp at hm
  · rw [he, publishAndAdd_published, hpub] at hm
    simp only [List.nil_append, List.mem_singleton] at hm
    subst hm
    have e2 : Handle h fuel k b = addBlocks h.blockKeeper k new
        (pre ++ [Call.publish { RevertedBlocks := reverted, NewBlocks := new }]) := by
      rw [he]
      unfold publishAndAdd
      simp only
      rw [hp]
    obtain ⟨n, hn, hc, hk, hearly, hlast⟩ := addBlocks_spec h.blockKeeper new k
      (pre ++ [Call.publish { RevertedBlocks := reverted, NewBlocks := new }])
    rw [e2]
    refine ⟨pre, n, hpub, hadd, hn, hc, ?_, hk, hearly, hlast⟩
    rw [hc, added_append, added_append, hadd, added_map_keeperAdd]
    rfl

/-- C17: `getBlock` returns the keeper's block with no RPC call when `Keeper.Get`
succeeds; it calls the RPC lookup exactly when `Keeper.Get` fails with `ErrNotFound`,
and then returns the RPC answer; any other keeper error is returned unchanged with no
RPC call. The stored-side half of the loop body makes no call or the one `Keeper.Get`
of the stored cursor's parent hash, and never an RPC call. -/
theorem C17_getBlock_prefers_keeper {K : Type} (h : Handler K) (k : K) (x : common.Hash) :
    (∀ b, h.blockKeeper.Get k x = .ok b →
        getBlock h k x = (.ok b, [Call.keeperGet x])) ∧
      (Call.rpcBlockByHash x ∈ (getBlock h k x).2 ↔
        h.blockKeeper.Get k x = .error Err.ErrNotFound) ∧
      (rpcLookups (getBlock h k x).2 ≠ [] ↔
        h.blockKeeper.Get k x = .error Err.ErrNotFound) ∧
      (h.blockKeeper.Get k x = .error Err.ErrNotFound →
        getBlock h k x =
          (h.getBlockByHash x, [Call.keeperGet x, Call.rpcBlockByHash x])) ∧
      (∀ e, h.blockKeeper.Get k x = .error e → e ≠ Err.ErrNotFound →
        getBlock h k x = (.error e, [Call.keeperGet x])) ∧
      (∀ s : WalkState,
        stepCalls (storedStep h k s) = s.calls ∨
        stepCalls (storedStep h k s) =
          s.calls ++ [Call.keeperGet s.storedBlock.ParentHash]) ∧
      (∀ s : WalkState,
        rpcLookups (stepCalls (storedStep h k s)) = rpcLookups s.calls) := by
  have hstored : ∀ s : WalkState,
      stepCalls (storedStep h k s) = s.calls ∨
      stepCalls (storedStep h k s) =
        s.calls ++ [Call.keeperGet s.storedBlock.ParentHash] := by
    intro s
    unfold storedStep
    split
    · split
      · right; rfl
      · right; rfl
    · left; rfl
  refine ⟨?_, ?_, ?_, ?_, ?_, hstored, ?_⟩
  · intro b hb
    unfold getBlock
    rw [hb]
  · unfold getBlock
    cases hg : h.blockKeeper.Get k x with
    | ok b => simp
    | error e =>
      cases e with
      | ErrNotFound => simp
      | other c => simp
  · unfold getBlock
    cases hg : h.blockKeeper.Get k x with
    | ok b => simp [rpcLookups]
    | error e =>
      cases e with
      | ErrNotFound => simp [rpcLookups]
      | other c => simp [rpcLookups]
  · intro hg
    unfold getBlock
    rw [hg]
    simp
  · intro e hg hne
    unfold getBlock
    rw [hg]
    simp [hne]
  · intro s
    rcases hstored s with e | e
    · rw [e]
    · rw [e]
      simp [rpcLookups, List.filterMap_append]

/-- Witness for C17: block 163 is in the keeper, hash 1162 only the RPC client knows. -/
theorem C17_getBlock_prefers_keeper_witness :
    getBlock scenarioHandler historyAt163 163 = (.ok (chainBlock 163), [Call.keeperGet 163]) ∧
      getBlock scenarioHandler historyAt163 1162 =
        (chainRpc 1162, [Call.keeperGet 1162, Call.rpcBlockByHash 1162]) :=
  ⟨(C17_getBlock_prefers_keeper scenarioHandler historyAt163 163).1 (chainBlock 163) rfl,
    (C17_getBlock_prefers_keeper scenarioHandler historyAt163 1162).2.2.2.1 rfl⟩

/-! ## `Init` -/

theorem u64_eq : u64 = 18446744073709551616 := by
  unfold u64
  norm_num

theorem subU64_ge (a b : Nat) (ha : a < u64) (hb : b ≤ a) : subU64 a b = a - b := by
  unfold subU64
  rw [u64_eq] at *
  omega

theorem subU64_lt (a b : Nat) (hb : b < u64) (hab : a < b) :
    subU64 a b = u64 - (b - a) ∧ a < subU64 a b := by
  unfold subU64
  rw [u64_eq] at *
  omega

theorem subU64_int (a b : Nat) :
    ((subU64 a b : Nat) : Int) = ((a : Int) - (b : Int)) % (u64 : Int) := by
  unfold subU64
  rw [u64_eq] at *
  omega

/-- The run of `Init` on an empty keeper, up to the fetch. -/
theorem Init_seed {K : Type} (h : Handler K) (c : EVMClient) (k k1 : K) (T : Nat)
    (hinit : h.blockKeeper.Init k = (k1, none)) (hlen : h.blockKeeper.Len k1 = 0)
    (htip : c.BlockNumber = .ok T) :
    Init h c k =
      match c.getBlocks (subU64 T (h.blockKeeper.Cap k1)) T with
      | .error err =>
        { status := .fail err, keeper := k1
          calls := [Call.keeperInit, Call.keeperLen, Call.rpcBlockNumber, Call.keeperCap,
            Call.rpcGetBlocks (subU64 T (h.blockKeeper.Cap k1)) T] }
      | .ok blocks =>
        addBlocks h.blockKeeper k1 blocks
          [Call.keeperInit, Call.keeperLen, Call.rpcBlockNumber, Call.keeperCap,
            Call.rpcGetBlocks (subU64 T (h.blockKeeper.Cap k1)) T] := by
  unfold Init
  rw [hinit]
  simp only [hlen, gt_iff_lt, lt_self_iff_false, if_false, htip]

theorem fetchedRanges_map_keeperAdd (l : List Block) :
    fetchedRanges (l.map Call.keeperAdd) = [] := by
  unfold fetchedRanges
  rw [List.filterMap_eq_nil_iff]
  intro c hc
  obtain ⟨x, _, rfl⟩ := List.mem_map.mp hc
  rfl

/-- The one range that `Init` hands to the block fetch on an empty keeper. -/
theorem Init_seed_range {K : Type} (h : Handler K) (c : EVMClient) (k k1 : K) (T : Nat)
    (hinit : h.blockKeeper.Init k = (k1, none)) (hlen : h.blockKeeper.Len k1 = 0)
    (htip : c.BlockNumber = .ok T) :
    fetchedRanges (Init h c k).calls = [(subU64 T (h.blockKeeper.Cap k1), T)] := by
  rw [Init_seed h c k k1 T hinit hlen htip]
  split
  · rfl
  · rename_i blocks _
    obtain ⟨n, _, hc, _⟩ := addBlocks_calls h.blockKeeper blocks k1
      [Call.keeperInit, Call.keeperLen, Call.rpcBlockNumber, Call.keeperCap,
        Call.rpcGetBlocks (subU64 T (h.blockKeeper.Cap k1)) T]
    rw [hc]
    unfold fetchedRanges
    rw [List.filterMap_append]
    have := fetchedRanges_map_keeperAdd (blocks.take n)
    unfold fetchedRanges at this
    rw [this]
    rfl

/-- The blocks `Init` adds: a prefix of the fetched blocks, in the order returned. -/
theorem Init_seed_added {K : Type} (h : Handler K) (c : EVMClient) (k k1 : K) (T : Nat)
    (blocks : List Block)
    (hinit : h.blockKeeper.Init k = (k1, none)) (hlen : h.blockKeeper.Len k1 = 0)
    (htip : c.BlockNumber = .ok T)
    (hget : c.getBlocks (subU64 T (h.blockKeeper.Cap k1)) T = .ok blocks) :
    ∃ n, n ≤ blocks.length ∧ added (Init h c k).calls = blocks.take n ∧
      (((Init h c k).status = .ok () ∧ n = blocks.length) ∨
        (∃ e, (Init h c k).status = .fail e ∧ 0 < n)) := by
  rw [Init_seed h c k k1 T hinit hlen htip, hget]
  simp only
  obtain ⟨n, hn, hc, hs⟩ := addBlocks_calls h.blockKeeper blocks k1
    [Call.keeperInit, Call.keeperLen, Call.rpcBlockNumber, Call.keeperCap,
      Call.rpcGetBlocks (subU64 T (h.blockKeeper.Cap k1)) T]
  refine ⟨n, hn, ?_, hs⟩
  rw [hc, added_append, added_map_keeperAdd]
  rfl

/-- C15 (as stated, refuted): on an empty keeper of capacity 64 with the tip at height
163, `Init` hands the range with lower bound 99 and upper bound 163 to the block fetch;
the lower bound is `T - Cap()`, not `T - Cap() + 1 = 100`. -/
theorem C15_seed_range_starts_one_lower :
    specKeeper.Init emptyHistory = (emptyHistory, none) ∧
      specKeeper.Len emptyHistory = 0 ∧
      (chainClient 163).BlockNumber = .ok 163 ∧
      fetchedRanges (Init scenarioHandler (chainClient 163) emptyHistory).calls
        = [(99, 163)] ∧
      fetchedRanges (Init scenarioHandler (chainClient 163) emptyHistory).calls
        ≠ [(163 - specKeeper.Cap emptyHistory + 1, 163)] := by
  have e := Init_seed_range scenarioHandler (chainClient 163) emptyHistory emptyHistory 163
    rfl rfl rfl
  refine ⟨rfl, rfl, rfl, ?_, ?_⟩
  · rw [e]
    decide
  · rw [e]
    decide

/-- C15 (amended): when `Keeper.Init` succeeds, the keeper is empty and the RPC reports a
tip height `T` with `Cap() ≤ T`, `Init` hands exactly one range to the block fetch, with
lower bound `T - Cap()` and upper bound `T`, and calls `Add` on the fetched blocks in
the order returned: on all of them when `Init` succeeds, up to the first failing `Add`
otherwise. -/
theorem C15_seed_range {K : Type} (h : Handler K) (c : EVMClient) (k k1 : K) (T : Nat)
    (hinit : h.blockKeeper.Init k = (k1, none)) (hlen : h.blockKeeper.Len k1 = 0)
    (htip : c.BlockNumber = .ok T) (hT : T < u64) (hcap : h.blockKeeper.Cap k1 ≤ T) :
    fetchedRanges (Init h c k).calls = [(T - h.blockKeeper.Cap k1, T)] ∧
      ∀ blocks, c.getBlocks (T - h.blockKeeper.Cap k1) T = .ok blocks →
        ∃ n, n ≤ blocks.length ∧ added (Init h c k).calls = blocks.take n ∧
          (((Init h c k).status = .ok () ∧ n = blocks.length) ∨
            (∃ e, (Init h c k).status = .fail e ∧ 0 < n)) := by
  have hs := subU64_ge T (h.blockKeeper.Cap k1) hT hcap
  refine ⟨?_, ?_⟩
  · rw [Init_seed_range h c k k1 T hinit hlen htip, hs]
  · intro blocks hget
    rw [← hs] at hget
    exact Init_seed_added h c k k1 T blocks hinit hlen htip hget

/-- Witness for C15 (amended): an empty keeper of capacity 4 and the tip at height 10. -/
theorem C15_seed_range_witness :
    fetchedRanges (Init scenarioHandler (chainClient 10)
        { cap := 4, entries := [] }).calls = [(10 - 4, 10)] :=
  (C15_seed_range scenarioHandler (chainClient 10) { cap := 4, entries := [] }
    { cap := 4, entries := [] } 10 rfl rfl rfl (by rw [u64_eq]; decide) (by decide)).1

/-- C16: when `Keeper.Init` succeeds and the keeper is not empty, `Init` returns success
after the calls `Keeper.Init` and `Keeper.Len` only; when `Keeper.Init` fails, `Init`
returns that error after that one call. In both cases there is no RPC call and no
`Add`. -/
theorem C16_resume {K : Type} (h : Handler K) (c : EVMClient) (k k1 : K) :
    (h.blockKeeper.Init k = (k1, none) → 0 < h.blockKeeper.Len k1 →
        (Init h c k).status = .ok () ∧
        (Init h c k).calls = [Call.keeperInit, Call.keeperLen] ∧
        (Init h c k).keeper = k1 ∧
        (∀ x ∈ (Init h c k).calls, x.isRpc = false) ∧
        added (Init h c k).calls = []) ∧
      (∀ e, h.blockKeeper.Init k = (k1, some e) →
        (Init h c k).status = .fail e ∧
        (Init h c k).calls = [Call.keeperInit] ∧
        (Init h c k).keeper = k1 ∧
        (∀ x ∈ (Init h c k).calls, x.isRpc = false) ∧
        added (Init h c k).calls = []) := by
  constructor
  · intro hinit hlen
    have e : Init h c k =
        { status := .ok (), keeper := k1, calls := [Call.keeperInit, Call.keeperLen] } := by
      unfold Init
      rw [hinit]
      simp only [gt_iff_lt, hlen, if_true]
    rw [e]
    exact ⟨rfl, rfl, rfl, by simp [Call.isRpc], rfl⟩
  · intro err hinit
    have e : Init h c k =
        { status := .fail err, keeper := k1, calls := [Call.keeperInit] } := by
      unfold Init
      rw [hinit]
    rw [e]
    exact ⟨rfl, rfl, rfl, by simp [Call.isRpc], rfl⟩

/-- Witness for C16: a keeper that holds blocks 162 and 163, and a keeper whose `Init`
fails. -/
theorem C16_resume_witness :
    (Init scenarioHandler (chainClient 163) historyAt163).calls =
        [Call.keeperInit, Call.keeperLen] ∧
      (Init brokenInitHandler (chainClient 163) historyAt163).status =
        .fail (Err.other 3) :=
  ⟨((C16_resume scenarioHandler (chainClient 163) historyAt163 historyAt163).1 rfl
      (by decide)).2.1,
    ((C16_resume brokenInitHandler (chainClient 163) historyAt163 historyAt163).2
      (Err.other 3) rfl).1⟩

/-- C20: on an empty keeper, with a tip height `T` and a capacity that fit in 64 bits,
`Init` hands the lower bound `(T - Cap()) mod 2^64` and the upper bound `T` to the block
fetch, whatever `T` and `Cap()` are; for `T ≥ Cap()` the lower bound is `T - Cap()`,
and for `T < Cap()` it is `2^64 - (Cap() - T)`, which is greater than `T`. -/
theorem C20_seed_lower_bound {K : Type} (h : Handler K) (c : EVMClient) (k k1 : K) (T : Nat)
    (hinit : h.blockKeeper.Init k = (k1, none)) (hlen : h.blockKeeper.Len k1 = 0)
    (htip : c.BlockNumber = .ok T) (hT : T < u64) (hcap : h.blockKeeper.Cap k1 < u64) :
    fetchedRanges (Init h c k).calls = [(subU64 T (h.blockKeeper.Cap k1), T)] ∧
      ((subU64 T (h.blockKeeper.Cap k1) : Nat) : Int) =
        ((T : Int) - (h.blockKeeper.Cap k1 : Int)) % (2 ^ 64 : Int) ∧
      (h.blockKeeper.Cap k1 ≤ T →
        subU64 T (h.blockKeeper.Cap k1) = T - h.blockKeeper.Cap k1) ∧
      (T < h.blockKeeper.Cap k1 →
        subU64 T (h.blockKeeper.Cap k1) = 2 ^ 64 - (h.blockKeeper.Cap k1 - T) ∧
        T < subU64 T (h.blockKeeper.Cap k1)) := by
  refine ⟨Init_seed_range h c k k1 T hinit hlen htip, ?_, ?_, ?_⟩
  · have := subU64_int T (h.blockKeeper.Cap k1)
    rw [u64_eq] at this
    rw [this]
    norm_num
  · intro hle
    exact subU64_ge T _ hT hle
  · intro hlt
    have := subU64_lt T _ hcap hlt
    rw [u64_eq] at this
    rw [show (2:Nat) ^ 64 = 18446744073709551616 from by norm_num]
    exact this

/-- Witness for C20: an empty keeper of capacity 64 and a chain whose tip is at height
10, shorter than the window. -/
theorem C20_seed_lower_bound_witness :
    fetchedRanges (Init scenarioHandler (chainClient 10) emptyHistory).calls =
        [(subU64 10 64, 10)] ∧
      subU64 10 64 = 2 ^ 64 - (64 - 10) ∧ 10 < subU64 10 64 :=
  ⟨(C20_seed_lower_bound scenarioHandler (chainClient 10) emptyHistory emptyHistory 10
      rfl rfl rfl (by rw [u64_eq]; decide) (by rw [u64_eq]; decide)).1,
    ((C20_seed_lower_bound scenarioHandler (chainClient 10) emptyHistory emptyHistory 10
      rfl rfl rfl (by rw [u64_eq]; decide) (by rw [u64_eq]; decide)).2.2.2 (by decide)).1,
    ((C20_seed_lower_bound scenarioHandler (chainClient 10) emptyHistory emptyHistory 10
      rfl rfl rfl (by rw [u64_eq]; decide) (by rw [u64_eq]; decide)).2.2.2 (by decide)).2⟩

/-! ## The cost of the walk -/

theorem storedStep_ok_side {K : Type} (h : Handler K) (k : K) (s s' : WalkState)
    (e : storedStep h k s = .ok s') :
    (¬ s.storedNumber ≥ s.newNumber ∧ s' = s) ∨
    (s.storedNumber ≥ s.newNumber ∧
      ∃ tmp, h.blockKeeper.Get k s.storedBlock.ParentHash = .ok tmp ∧
        s' = { s with
          storedBlock := tmp
          storedNumber := decU64 s.storedNumber
          reorgBlocks := s.reorgBlocks ++ [tmp]
          calls := s.calls ++ [Call.keeperGet s.storedBlock.ParentHash] }) := by
  unfold storedStep at e
  split at e
  · rename_i hside
    split at e
    · simp at e
    · rename_i tmp hget
      right
      refine ⟨hside, tmp, hget, ?_⟩
      simp only [Except.ok.injEq] at e
      exact e.symm
  · rename_i hside
    left
    simp only [Except.ok.injEq] at e
    exact ⟨hside, e.symm⟩

theorem newStep_ok_side {K : Type} (h : Handler K) (k : K) (s s' : WalkState)
    (e : newStep h k s = .ok s') :
    (¬ s.newNumber > s.storedNumber ∧ s' = s) ∨
    (s.newNumber > s.storedNumber ∧
      ∃ tmp cs, getBlock h k s.newBlock.ParentHash = (.ok tmp, cs) ∧
        s' = { s with
          newBlock := tmp
          newNumber := decU64 s.newNumber
          newBlocks := s.newBlocks ++ [tmp]
          calls := s.calls ++ cs }) := by
  unfold newStep at e
  split at e
  · rename_i hside
    split at e
    · simp at e
    · rename_i tmp cs hget
      right
      refine ⟨hside, tmp, cs, hget, ?_⟩
      simp only [Except.ok.injEq] at e
      exact e.symm
  · rename_i hside
    left
    simp only [Except.ok.injEq] at e
    exact ⟨hside, e.symm⟩

theorem walkBody_ok_split {K : Type} (h : Handler K) (k : K) (s s1 : WalkState)
    (e : walkBody h k s = .ok s1) :
    ∃ s0, storedStep h k s = .ok s0 ∧ newStep h k s0 = .ok s1 := by
  unfold walkBody at e
  split at e
  · simp at e
  · rename_i s0 hst
    exact ⟨s0, hst, e⟩

theorem lookupCount_append (a b : List Call) :
    lookupCount (a ++ b) = lookupCount a + lookupCount b := by
  simp [lookupCount, List.countP_append]

theorem getBlock_lookupCount {K : Type} (h : Handler K) (k : K) (x : common.Hash) :
    lookupCount (getBlock h k x).2 = 1 := by
  unfold getBlock
  split
  · rfl
  · split <;> rfl

theorem decU64_lt (x : Nat) (hx : 0 < x) : decU64 x < x := by
  unfold decU64
  rw [u64_eq]
  omega

theorem follow_stored_step {K : Type} (h : Handler K) (k : K) (b tmp : Block) (a : Nat)
    (hget : h.blockKeeper.Get k b.ParentHash = .ok tmp)
    (hf : follow (storedLookup h k) a b = none) :
    ∃ a1, a = a1 + 1 ∧ follow (storedLookup h k) a1 tmp = none := by
  cases a with
  | zero => simp [follow] at hf
  | succ a1 =>
    refine ⟨a1, rfl, ?_⟩
    unfold follow at hf
    have e : storedLookup h k b.ParentHash = some tmp := by
      unfold storedLookup
      rw [hget]
    rw [e] at hf
    exact hf

theorem follow_new_step {K : Type} (h : Handler K) (k : K) (b tmp : Block) (cs : List Call)
    (n : Nat) (hget : getBlock h k b.ParentHash = (.ok tmp, cs))
    (hf : follow (newLookup h k) n b = none) :
    ∃ n1, n = n1 + 1 ∧ follow (newLookup h k) n1 tmp = none := by
  cases n with
  | zero => simp [follow] at hf
  | succ n1 =>
    refine ⟨n1, rfl, ?_⟩
    unfold follow at hf
    have e : newLookup h k b.ParentHash = some tmp := by
      unfold newLookup
      rw [hget]
    rw [e] at hf
    exact hf

/-- The loop stops, with a result or an error, within as many iterations as the two
chains of successful parent lookups are long together. -/
theorem walkLoop_terminates {K : Type} (h : Handler K) (k : K) :
    ∀ (n : Nat) (s : WalkState) (a b : Nat), a + b ≤ n →
      follow (storedLookup h k) a s.storedBlock = none →
      follow (newLookup h k) b s.newBlock = none →
      (walkLoop h k n s).1 ≠ .fuelOut := by
  intro n
  induction n with
  | zero =>
    intro s a b hab ha _
    have : a = 0 := by omega
    subst this
    simp [follow] at ha
  | succ n ih =>
    intro s a b hab ha hb
    unfold walkLoop
    split
    · simp
    · simp only
      split
      · simp
      · rename_i s1 hbody
        obtain ⟨s0, hst, hnw⟩ := walkBody_ok_split h k s s1 hbody
        rcases storedStep_ok_side h k s s0 hst with ⟨hs1, rfl⟩ | ⟨hs1, tmp, hget, rfl⟩
        · rcases newStep_ok_side h k s0 s1 hnw with ⟨hn1, _⟩ | ⟨_, tmp2, cs, hget2, rfl⟩
          · exfalso; omega
          · obtain ⟨b1, rfl, hb1⟩ := follow_new_step h k _ tmp2 cs b hget2 hb
            exact ih _ a b1 (by omega) ha hb1
        · obtain ⟨a1, rfl, ha1⟩ := follow_stored_step h k _ tmp a hget ha
          rcases newStep_ok_side h k _ s1 hnw with ⟨_, rfl⟩ | ⟨_, tmp2, cs, hget2, rfl⟩
          · exact ih _ a1 b (by omega) ha1 hb
          · obtain ⟨b1, rfl, hb1⟩ := follow_new_step h k _ tmp2 cs b hget2 hb
            exact ih _ a1 b1 (by omega) ha1 hb1

/-- What one successful iteration of the loop does to the two sequences and to the
number of lookups. -/
theorem walkBody_ok_moves {K : Type} (h : Handler K) (k : K) (s s1 : WalkState)
    (e : walkBody h k s = .ok s1) :
    (s.storedNumber ≥ s.newNumber →
        s1.reorgBlocks.length = s.reorgBlocks.length + 1) ∧
      (s.storedNumber < s.newNumber →
        s1.reorgBlocks = s.reorgBlocks ∧ s1.newBlocks.length = s.newBlocks.length + 1) ∧
      (s.storedNumber = s.newNumber → 0 < s.storedNumber →
        s1.reorgBlocks.length = s.reorgBlocks.length + 1 ∧
        s1.newBlocks.length = s.newBlocks.length + 1) ∧
      lookupCount s1.calls + s.reorgBlocks.length + s.newBlocks.length =
        lookupCount s.calls + s1.reorgBlocks.length + s1.newBlocks.length ∧
      lookupCount s.calls < lookupCount s1.calls := by
  obtain ⟨s0, hst, hnw⟩ := walkBody_ok_split h k s s1 e
  rcases storedStep_ok_side h k s s0 hst with ⟨hs1, rfl⟩ | ⟨hs1, tmp, hget, rfl⟩
  · rcases newStep_ok_side h k s0 s1 hnw with ⟨hn1, _⟩ | ⟨_, tmp2, cs, hget2, rfl⟩
    · exfalso; omega
    · have hc : lookupCount cs = 1 := by
        have := getBlock_lookupCount h k s0.newBlock.ParentHash
        rw [hget2] at this
        exact this
      refine ⟨fun hx => absurd hx hs1, fun _ => ⟨rfl, by simp⟩, fun hx _ => ?_, ?_, ?_⟩
      · exfalso; omega
      · simp only [List.length_append, List.length_singleton, lookupCount_append, hc]
        omega
      · simp only [lookupCount_append, hc]
        omega
  · have hg : lookupCount [Call.keeperGet s.storedBlock.ParentHash] = 1 := rfl
    rcases newStep_ok_side h k _ s1 hnw with ⟨hn1, rfl⟩ | ⟨hn1, tmp2, cs, hget2, rfl⟩
    · refine ⟨fun _ => by simp, fun hx => ?_, fun heq hpos => ?_, ?_, ?_⟩
      · exfalso; omega
      · exfalso
        simp only [gt_iff_lt, not_lt] at hn1
        have := decU64_lt s.storedNumber hpos
        omega
      · simp only [List.length_append, List.length_singleton, lookupCount_append, hg]
        omega
      · simp only [lookupCount_append, hg]
        omega
    · have hc : lookupCount cs = 1 := by
        have := getBlock_lookupCount h k s.newBlock.ParentHash
        rw [hget2] at this
        exact this
      refine ⟨fun _ => by simp, fun hx => ?_, fun _ _ => ⟨by simp, by simp⟩, ?_, ?_⟩
      · exfalso; omega
      · simp only [List.length_append, List.length_singleton, lookupCount_append, hg, hc]
        omega
      · simp only [lookupCount_append, hg, hc]
        omega

/-- An iteration that fails has made a lookup too. -/
theorem walkBody_error_lookup {K : Type} (h : Handler K) (k : K) (s : WalkState)
    (err : Err) (cs : List Call) (e : walkBody h k s = .error (err, cs)) :
    lookupCount s.calls < lookupCount cs := by
  unfold walkBody at e
  split at e
  · rename_i e0 hst
    simp only [Except.error.injEq] at e
    subst e
    unfold storedStep at hst
    split at hst
    · split at hst
      · simp only [Except.error.injEq, Prod.mk.injEq] at hst
        rw [← hst.2, lookupCount_append]
        show lookupCount s.calls < lookupCount s.calls + 1
        omega
      · simp at hst
    · simp at hst
  · rename_i s0 hst
    have h0 : lookupCount s.calls ≤ lookupCount s0.calls := by
      rcases storedStep_ok_side h k s s0 hst with ⟨_, rfl⟩ | ⟨_, tmp, _, rfl⟩
      · exact le_refl _
      · simp only [lookupCount_append]
        omega
    unfold newStep at e
    split at e
    · split at e
      · rename_i err1 cs1 hg
        simp only [Except.error.injEq, Prod.mk.injEq] at e
        have hc : lookupCount cs1 = 1 := by
          have := getBlock_lookupCount h k s0.newBlock.ParentHash
          rw [hg] at this
          exact this
        rw [← e.2, lookupCount_append, hc]
        omega
      · simp at e
    · simp at e

/-- On success the walk has made one lookup for every block it appended. -/
theorem findReorgBlocks_lookupCount {K : Type} (h : Handler K) (k : K) (fuel : Nat)
    (storedTip newTip : Block) (calls : List Call) (reverted new : List Block)
    (cs : List Call)
    (e : findReorgBlocks h k fuel storedTip newTip calls = (.ok (reverted, new), cs)) :
    lookupCount cs = lookupCount calls + (reverted.length - 1) + (new.length - 1) := by
  obtain ⟨s, hw, rfl, rfl⟩ := findReorgBlocks_ok h k fuel storedTip newTip calls _ _ cs e
  obtain ⟨⟨h1, h2, h3⟩, _, rfl⟩ :=
    walkLoop_ok_inv h k
      (fun s => 1 ≤ s.reorgBlocks.length ∧ 1 ≤ s.newBlocks.length ∧
        lookupCount s.calls + 2 =
          lookupCount calls + s.reorgBlocks.length + s.newBlocks.length)
      (by
        intro s s' hp hst
        rcases storedStep_ok_cases h k s s' hst with rfl | ⟨tmp, _, rfl⟩
        · exact hp
        · obtain ⟨p1, p2, p3⟩ := hp
          have hg : lookupCount [Call.keeperGet s.storedBlock.ParentHash] = 1 := rfl
          simp only [List.length_append, List.length_singleton, lookupCount_append, hg]
          omega)
      (by
        intro s s' hp hnw
        rcases newStep_ok_cases h k s s' hnw with rfl | ⟨tmp, cs1, hg, rfl⟩
        · exact hp
        · obtain ⟨p1, p2, p3⟩ := hp
          have hc : lookupCount cs1 = 1 := by
            have := getBlock_lookupCount h k s.newBlock.ParentHash
            rw [hg] at this
            exact this
          simp only [List.length_append, List.length_singleton, lookupCount_append, hc]
          omega)
      fuel _ s cs ⟨by simp [walkInit], by simp [walkInit], by simp [walkInit]⟩ hw
  rw [List.length_reverse]
  omega

theorem follow_succ_last (f : common.Hash → Option Block) :
    ∀ (n : Nat) (b : Block),
      follow f (n + 1) b = (follow f n b).bind fun x => f x.ParentHash := by
  intro n
  induction n with
  | zero =>
    intro b
    simp only [follow, Option.some_bind]
    cases f b.ParentHash <;> rfl
  | succ n ih =>
    intro b
    conv => lhs; unfold follow
    conv => rhs; unfold follow
    cases hf : f b.ParentHash with
    | none => rfl
    | some p => exact ih p

/-- A chain of lookups that is not infinite ends after finitely many steps. -/
theorem follow_ends (f : common.Hash → Option Block) (b : Block)
    (hfin : ¬ InfiniteChain f b) : ∃ a, follow f a b = none := by
  by_contra hno
  simp only [not_exists] at hno
  apply hfin
  have hsome : ∀ a, ∃ x, follow f a b = some x := by
    intro a
    cases hf : follow f a b with
    | none => exact absurd hf (hno a)
    | some x => exact ⟨x, rfl⟩
  refine ⟨fun i => (follow f i b).getD b, rfl, ?_⟩
  intro i
  obtain ⟨x, hx⟩ := hsome i
  obtain ⟨y, hy⟩ := hsome (i + 1)
  rw [follow_succ_last, hx] at hy
  simp only [Option.some_bind] at hy
  have e1 : (follow f i b).getD b = x := by rw [hx]; rfl
  have e2 : (follow f (i + 1) b).getD b = y := by
    rw [follow_succ_last, hx]
    simp only [Option.some_bind]
    rw [hy]; rfl
  show f ((follow f i b).getD b).ParentHash = some ((follow f (i + 1) b).getD b)
  rw [e1, e2]
  exact hy

/-- A chain of lookups that ends is not infinite. -/
theorem follow_none_finite (f : common.Hash → Option Block) (b : Block) (a : Nat)
    (hf : follow f a b = none) : ¬ InfiniteChain f b := by
  rintro ⟨c, hc0, hc⟩
  have hall : ∀ n, follow f n b = some (c n) := by
    intro n
    induction n with
    | zero => rw [← hc0]; rfl
    | succ n ih =>
      rw [follow_succ_last, ih]
      simp only [Option.some_bind]
      exact hc n
  rw [hall a] at hf
  simp at hf

/-- C18 (as stated, refuted): with both tips at height 0 and different parent hashes,
the heights are equal, and one iteration of the loop moves the stored cursor only: the
stored height wraps to `2^64 - 1`, so the test for the new side fails. -/
theorem C18_equal_heights_at_zero_move_stored_only :
    (walkInit zeroStoredTip zeroNewTip []).storedNumber =
        (walkInit zeroStoredTip zeroNewTip []).newNumber ∧
      (walkInit zeroStoredTip zeroNewTip []).storedBlock.ParentHash ≠
        (walkInit zeroStoredTip zeroNewTip []).newBlock.ParentHash ∧
      walkBody scenarioHandler historyAtZero (walkInit zeroStoredTip zeroNewTip []) =
        .ok { storedBlock :=
                { Number := 0, Hash := 11, Timestamp := 0, ParentHash := 12, Logs := [] }
              newBlock := zeroNewTip
              storedNumber := 2 ^ 64 - 1
              newNumber := 0
              reorgBlocks := [zeroStoredTip,
                { Number := 0, Hash := 11, Timestamp := 0, ParentHash := 12, Logs := [] }]
              newBlocks := [zeroNewTip]
              calls := [Call.keeperGet 11] } :=
  ⟨rfl, by decide, rfl⟩

/-- C18 (amended): every iteration of the loop makes at least one ancestor lookup,
whether it succeeds or fails. In a successful iteration the stored cursor moves when
`storedNumber >= newNumber`, otherwise the new cursor moves, both move when the
heights are equal and positive, and every lookup appends exactly one block. On
success the number of lookups is `(len(reverted) - 1) + (len(new) - 1)`. When neither
tip starts an infinite chain of successful parent lookups, the walk ends, with a
result or an error, for every fuel from some bound on. -/
theorem C18_bounded_walk {K : Type} (h : Handler K) (k : K) :
    (∀ s s1, walkBody h k s = .ok s1 →
        (s.storedNumber ≥ s.newNumber →
          s1.reorgBlocks.length = s.reorgBlocks.length + 1) ∧
        (s.storedNumber < s.newNumber →
          s1.reorgBlocks = s.reorgBlocks ∧
          s1.newBlocks.length = s.newBlocks.length + 1) ∧
        (s.storedNumber = s.newNumber → 0 < s.storedNumber →
          s1.reorgBlocks.length = s.reorgBlocks.length + 1 ∧
          s1.newBlocks.length = s.newBlocks.length + 1) ∧
        lookupCount s1.calls + s.reorgBlocks.length + s.newBlocks.length =
          lookupCount s.calls + s1.reorgBlocks.length + s1.newBlocks.length ∧
        lookupCount s.calls < lookupCount s1.calls) ∧
      (∀ s err cs, walkBody h k s = .error (err, cs) →
        lookupCount s.calls < lookupCount cs) ∧
      (∀ fuel storedTip newTip calls reverted new cs,
        findReorgBlocks h k fuel storedTip newTip calls = (.ok (reverted, new), cs) →
        lookupCount cs = lookupCount calls + (reverted.length - 1) + (new.length - 1)) ∧
      (∀ storedTip newTip calls,
        ¬ InfiniteChain (storedLookup h k) storedTip →
        ¬ InfiniteChain (newLookup h k) newTip →
        ∃ bound, ∀ fuel, bound ≤ fuel →
          (findReorgBlocks h k fuel storedTip newTip calls).1 ≠ .fuelOut) := by
  refine ⟨walkBody_ok_moves h k, walkBody_error_lookup h k,
    findReorgBlocks_lookupCount h k, ?_⟩
  intro storedTip newTip calls hs hn
  obtain ⟨a, ha⟩ := follow_ends _ _ hs
  obtain ⟨b, hb⟩ := follow_ends _ _ hn
  refine ⟨a + b, fun fuel hfuel => ?_⟩
  have hw := walkLoop_terminates h k fuel (walkInit storedTip newTip calls) a b hfuel ha hb
  unfold findReorgBlocks
  split
  · simp
  · simp
  · rename_i cs hx
    rw [hx] at hw
    exact absurd rfl hw

/-- Witness for C18 (amended): a reorg of depth two with one lookup on each side, and
scenario 6, where the stored chain ends after block 7 and the new chain at the first
block of the canonical chain. -/
theorem C18_bounded_walk_witness :
    lookupCount [Call.keeperGet 162, Call.keeperGet 1162, Call.rpcBlockByHash 1162] =
        lookupCount [] + ([chainBlock 163, chainBlock 162].length - 1) +
          ([siblingBlock 162, siblingChild 163].length - 1) ∧
      ∃ bound, ∀ fuel, bound ≤ fuel →
        (findReorgBlocks forkHandler historyAt10 fuel (chainBlock 10) (forkBlock 11) []).1
          ≠ .fuelOut :=
  ⟨(C18_bounded_walk scenarioHandler historyAt163).2.2.1 10 (chainBlock 163)
      (siblingChild 163) [] [chainBlock 163, chainBlock 162]
      [siblingBlock 162, siblingChild 163]
      [Call.keeperGet 162, Call.keeperGet 1162, Call.rpcBlockByHash 1162] (by decide),
    (C18_bounded_walk forkHandler historyAt10).2.2.2 (chainBlock 10) (forkBlock 11) []
      (follow_none_finite _ _ 4 rfl) (follow_none_finite _ _ 12 rfl)⟩

namespace avax

/-! ## Decoding a header from JSON -/

/-- The error of `UnmarshalJSON` on a decoded object is the message for the first
required key that is absent, and there is none when no required key is absent. -/
theorem UnmarshalJSON_error (dec : DecHeader) (h : Header) :
    (UnmarshalJSON (.ok dec) h).2 = (firstMissing dec).map missingMessage := by
  rcases dec with ⟨f1, f2, f3, f4, f5, f6, f7, f8, f9, f10, f11, f12, f13, f14, f15, f16, f17, f18, f19, f20⟩
  cases f1 with
  | none => rfl
  | some v1 =>
    cases f2 with
    | none => rfl
    | some v2 =>
      cases f3 with
      | none => rfl
      | some v3 =>
        cases f4 with
        | none => rfl
        | some v4 =>
          cases f5 with
          | none => rfl
          | some v5 =>
            cases f6 with
            | none => rfl
            | some v6 =>
              cases f7 with
              | none => rfl
              | some v7 =>
                cases f8 with
                | none => rfl
                | some v8 =>
                  cases f9 with
                  | none => rfl
                  | some v9 =>
                    cases f10 with
                    | none => rfl
                    | some v10 =>
                      cases f11 with
                      | none => rfl
                      | some v11 =>
                        cases f12 with
                        | none => rfl
                        | some v12 =>
                          cases f13 with
                          | none => rfl
                          | some v13 =>
                            cases f16 with
                            | none => rfl
                            | some v16 =>
                              rfl

theorem firstMissing_none_iff (dec : DecHeader) :
    firstMissing dec = none ↔ ∀ p ∈ requiredKeys dec, p.2 = true := by
  unfold firstMissing
  rw [Option.map_eq_none', List.find?_eq_none]
  constructor
  · intro hx p hp
    have := hx p hp
    simpa using this
  · intro hx p hp
    simp [hx p hp]

/-- On the decoded struct: the error names the first required field that is `nil`, it
occurs exactly when a required field is `nil`, and the optional fields never matter. -/
theorem UnmarshalJSON_missing_iff (dec : DecHeader) (h : Header) :
    (UnmarshalJSON (.ok dec) h).2 = (firstMissing dec).map missingMessage ∧
      ((∃ name, (UnmarshalJSON (.ok dec) h).2 = some (missingMessage name)) ↔
        ∃ p ∈ requiredKeys dec, p.2 = false) ∧
      ((UnmarshalJSON (.ok dec) h).2 ≠ none ↔ ∃ p ∈ requiredKeys dec, p.2 = false) ∧
      ((∀ p ∈ requiredKeys dec, p.2 = true) →
        ∀ mixDigest nonce baseFee extDataGasUsed blockGasCost excessDataGas,
          (UnmarshalJSON (.ok { dec with
            MixDigest := mixDigest, Nonce := nonce, BaseFee := baseFee
            ExtDataGasUsed := extDataGasUsed, BlockGasCost := blockGasCost
            ExcessDataGas := excessDataGas }) h).2 = none) := by
  have hmain := UnmarshalJSON_error dec h
  have hiff : (UnmarshalJSON (.ok dec) h).2 ≠ none ↔ ∃ p ∈ requiredKeys dec, p.2 = false := by
    rw [hmain]
    constructor
    · intro hne
      by_contra hno
      apply hne
      have : firstMissing dec = none := by
        rw [firstMissing_none_iff]
        intro p hp
        by_contra hp2
        exact hno ⟨p, hp, by simpa using hp2⟩
      rw [this]
      rfl
    · rintro ⟨p, hp, hp2⟩ hnone
      rw [Option.map_eq_none'] at hnone
      have := (firstMissing_none_iff dec).mp hnone p hp
      rw [hp2] at this
      simp at this
  refine ⟨hmain, ?_, hiff, ?_⟩
  · constructor
    · rintro ⟨name, hn⟩
      exact hiff.mp (by rw [hn]; simp)
    · intro hx
      have hne := hiff.mpr hx
      rw [hmain] at hne ⊢
      cases hf : firstMissing dec with
      | none => rw [hf] at hne; exact absurd rfl hne
      | some name => exact ⟨name, rfl⟩
  · intro hall mixDigest nonce baseFee extDataGasUsed blockGasCost excessDataGas
    rw [UnmarshalJSON_error, Option.map_eq_none', firstMissing_none_iff]
    exact hall

/-! ## Decoding a header from a JSON object -/

theorem typedOk_isSome {α : Type} (v : Option JsonValue) (dec : JsonValue → Option α)
    (ht : typedOk v dec = true) : (v.bind dec).isSome = v.isSome := by
  cases v with
  | none => rfl
  | some x =>
    simp only [typedOk] at ht
    simp [ht]

theorem typedMembers_typedOk {α : Type} (keyMatch : String → String → Bool)
    (obj : JsonObject) (name : String) (dec : JsonValue → Option α)
    (ht : typedMembers keyMatch obj name dec = true) :
    typedOk (fieldValue keyMatch obj name) dec = true := by
  unfold fieldValue
  cases hf : obj.reverse.find? (fun kv => keyMatch kv.1 name) with
  | none => rfl
  | some kv =>
    obtain ⟨key, v⟩ := kv
    have hmem : (key, v) ∈ obj := by
      have := List.mem_of_find?_eq_some hf
      simpa using this
    have hmatch : keyMatch key name = true := by
      have := List.find?_some hf
      simpa using this
    unfold typedMembers at ht
    rw [List.all_eq_true] at ht
    have hx := ht (key, v) hmem
    simp only [hmatch, Bool.not_true, Bool.false_or, Bool.or_eq_true, beq_iff_eq] at hx
    cases v with
    | null => rfl
    | bytes b =>
      rcases hx with hx | hx
      · exact absurd hx (by simp)
      · exact hx
    | big i =>
      rcases hx with hx | hx
      · exact absurd hx (by simp)
      · exact hx
    | uint64 n =>
      rcases hx with hx | hx
      · exact absurd hx (by simp)
      · exact hx
    | other =>
      rcases hx with hx | hx
      · exact absurd hx (by simp)
      · exact hx

theorem find_first_false (g : String → Bool) : ∀ ns : List String,
    ((ns.map fun n => (n, g n)).find? fun p => !p.2).map Prod.fst =
      ns.find? fun n => !g n := by
  intro ns
  induction ns with
  | nil => rfl
  | cons n rest ih =>
    simp only [List.map_cons, List.find?_cons]
    cases g n with
    | true => simpa using ih
    | false => simp

/-- On a well-typed object `json.Unmarshal` succeeds, and a required field of the
decoded struct is set exactly when the object gives it a value. -/
theorem jsonUnmarshal_required (keyMatch : String → String → Bool) (obj : JsonObject)
    (hw : wellTyped keyMatch obj = true) :
    ∃ dec, jsonUnmarshal keyMatch obj = .ok dec ∧
      requiredKeys dec =
        requiredNames.map fun n => (n, (fieldValue keyMatch obj n).isSome) := by
  refine ⟨{
        ParentHash := (fieldValue keyMatch obj "parentHash").bind JsonValue.asBytes
        UncleHash := (fieldValue keyMatch obj "sha3Uncles").bind JsonValue.asBytes
        Coinbase := (fieldValue keyMatch obj "miner").bind JsonValue.asBytes
        Root := (fieldValue keyMatch obj "stateRoot").bind JsonValue.asBytes
        TxHash := (fieldValue keyMatch obj "transactionsRoot").bind JsonValue.asBytes
        ReceiptHash := (fieldValue keyMatch obj "receiptsRoot").bind JsonValue.asBytes
        Bloom := (fieldValue keyMatch obj "logsBloom").bind JsonValue.asBytes
        Difficulty := (fieldValue keyMatch obj "difficulty").bind JsonValue.asBig
        Number := (fieldValue keyMatch obj "number").bind JsonValue.asBig
        GasLimit := (fieldValue keyMatch obj "gasLimit").bind JsonValue.asUint64
        GasUsed := (fieldValue keyMatch obj "gasUsed").bind JsonValue.asUint64
        Time := (fieldValue keyMatch obj "timestamp").bind JsonValue.asUint64
        Extra := (fieldValue keyMatch obj "extraData").bind JsonValue.asBytes
        MixDigest := (fieldValue keyMatch obj "mixHash").bind JsonValue.asBytes
        Nonce := (fieldValue keyMatch obj "nonce").bind JsonValue.asBytes
        ExtDataHash := (fieldValue keyMatch obj "extDataHash").bind JsonValue.asBytes
        BaseFee := (fieldValue keyMatch obj "baseFeePerGas").bind JsonValue.asBig
        ExtDataGasUsed := (fieldValue keyMatch obj "extDataGasUsed").bind JsonValue.asBig
        BlockGasCost := (fieldValue keyMatch obj "blockGasCost").bind JsonValue.asBig
        ExcessDataGas := (fieldValue keyMatch obj "excessDataGas").bind JsonValue.asBig }, ?_, ?_⟩
  · unfold jsonUnmarshal
    rw [if_pos hw]
  · simp only [wellTyped, Bool.and_eq_true] at hw
    obtain ⟨⟨⟨⟨⟨⟨⟨⟨⟨⟨⟨⟨⟨⟨⟨⟨⟨⟨⟨h1, h2⟩, h3⟩, h4⟩, h5⟩, h6⟩, h7⟩, h8⟩, h9⟩, h10⟩, h11⟩, h12⟩, h13⟩, h14⟩, h15⟩, h16⟩, h17⟩, h18⟩, h19⟩, h20⟩ := hw
    show [("parentHash", ((fieldValue keyMatch obj "parentHash").bind JsonValue.asBytes).isSome),
      ("sha3Uncles", ((fieldValue keyMatch obj "sha3Uncles").bind JsonValue.asBytes).isSome),
      ("miner", ((fieldValue keyMatch obj "miner").bind JsonValue.asBytes).isSome),
      ("stateRoot", ((fieldValue keyMatch obj "stateRoot").bind JsonValue.asBytes).isSome),
      ("transactionsRoot", ((fieldValue keyMatch obj "transactionsRoot").bind JsonValue.asBytes).isSome),
      ("receiptsRoot", ((fieldValue keyMatch obj "receiptsRoot").bind JsonValue.asBytes).isSome),
      ("logsBloom", ((fieldValue keyMatch obj "logsBloom").bind JsonValue.asBytes).isSome),
      ("difficulty", ((fieldValue keyMatch obj "difficulty").bind JsonValue.asBig).isSome),
      ("number", ((fieldValue keyMatch obj "number").bind JsonValue.asBig).isSome),
      ("gasLimit", ((fieldValue keyMatch obj "gasLimit").bind JsonValue.asUint64).isSome),
      ("gasUsed", ((fieldValue keyMatch obj "gasUsed").bind JsonValue.asUint64).isSome),
      ("timestamp", ((fieldValue keyMatch obj "timestamp").bind JsonValue.asUint64).isSome),
      ("extraData", ((fieldValue keyMatch obj "extraData").bind JsonValue.asBytes).isSome),
      ("extDataHash", ((fieldValue keyMatch obj "extDataHash").bind JsonValue.asBytes).isSome)] =
      [("parentHash", (fieldValue keyMatch obj "parentHash").isSome),
      ("sha3Uncles", (fieldValue keyMatch obj "sha3Uncles").isSome),
      ("miner", (fieldValue keyMatch obj "miner").isSome),
      ("stateRoot", (fieldValue keyMatch obj "stateRoot").isSome),
      ("transactionsRoot", (fieldValue keyMatch obj "transactionsRoot").isSome),
      ("receiptsRoot", (fieldValue keyMatch obj "receiptsRoot").isSome),
      ("logsBloom", (fieldValue keyMatch obj "logsBloom").isSome),
      ("difficulty", (fieldValue keyMatch obj "difficulty").isSome),
      ("number", (fieldValue keyMatch obj "number").isSome),
      ("gasLimit", (fieldValue keyMatch obj "gasLimit").isSome),
      ("gasUsed", (fieldValue keyMatch obj "gasUsed").isSome),
      ("timestamp", (fieldValue keyMatch obj "timestamp").isSome),
      ("extraData", (fieldValue keyMatch obj "extraData").isSome),
      ("extDataHash", (fieldValue keyMatch obj "extDataHash").isSome)]
    rw [typedOk_isSome _ _ (typedMembers_typedOk _ _ _ _ h1),
    typedOk_isSome _ _ (typedMembers_typedOk _ _ _ _ h2),
    typedOk_isSome _ _ (typedMembers_typedOk _ _ _ _ h3),
    typedOk_isSome _ _ (typedMembers_typedOk _ _ _ _ h4),
    typedOk_isSome _ _ (typedMembers_typedOk _ _ _ _ h5),
    typedOk_isSome _ _ (typedMembers_typedOk _ _ _ _ h6),
    typedOk_isSome _ _ (typedMembers_typedOk _ _ _ _ h7),
    typedOk_isSome _ _ (typedMembers_typedOk _ _ _ _ h8),
    typedOk_isSome _ _ (typedMembers_typedOk _ _ _ _ h9),
    typedOk_isSome _ _ (typedMembers_typedOk _ _ _ _ h10),
    typedOk_isSome _ _ (typedMembers_typedOk _ _ _ _ h11),
    typedOk_isSome _ _ (typedMembers_typedOk _ _ _ _ h12),
    typedOk_isSome _ _ (typedMembers_typedOk _ _ _ _ h13),
    typedOk_isSome _ _ (typedMembers_typedOk _ _ _ _ h16)]

/-- The error of `UnmarshalJSON` on a well-typed JSON object: the message for the first
required key whose field gets no value. -/
theorem UnmarshalJSON_object_error (keyMatch : String → String → Bool) (obj : JsonObject)
    (h : Header) (hw : wellTyped keyMatch obj = true) :
    (UnmarshalJSON (jsonUnmarshal keyMatch obj) h).2 =
      (firstUnset keyMatch obj).map missingMessage := by
  obtain ⟨dec, hd, hk⟩ := jsonUnmarshal_required keyMatch obj hw
  rw [hd, UnmarshalJSON_error]
  congr 1
  unfold firstMissing firstUnset
  rw [hk, find_first_false]
  congr 1
  funext n
  cases fieldValue keyMatch obj n <;> rfl

theorem firstUnset_none_iff (keyMatch : String → String → Bool) (obj : JsonObject) :
    firstUnset keyMatch obj = none ↔
      ∀ n ∈ requiredNames, fieldValue keyMatch obj n ≠ none := by
  unfold firstUnset
  rw [List.find?_eq_none]
  constructor
  · intro hx n hn hnone
    have := hx n hn
    rw [hnone] at this
    simp at this
  · intro hx n hn
    have := hx n hn
    cases hf : fieldValue keyMatch obj n with
    | none => exact absurd hf this
    | some v => simp

theorem nullMinerObject_wellTyped : wellTyped foldMatch nullMinerObject = true := by
  decide

theorem caseVariantObject_wellTyped : wellTyped foldMatch caseVariantObject = true := by
  decide

/-- C13 (as stated, refuted): an object that has all 14 required keys, with `miner` set
to `null`, is well typed and fails with "missing required field 'miner' for Header"
although no required key is absent; and an object whose only spelling of the first key
is `ParentHash` is well typed and decodes without error although the key `parentHash`
is absent. -/
theorem C13_null_value_and_case_variant_key :
    (wellTyped foldMatch nullMinerObject = true ∧
        (∀ n ∈ requiredNames, hasKey nullMinerObject n = true) ∧
        (UnmarshalJSON (jsonUnmarshal foldMatch nullMinerObject)
          (sampleHeader none none none none none none)).2 =
          some "missing required field 'miner' for Header") ∧
      (wellTyped foldMatch caseVariantObject = true ∧
        hasKey caseVariantObject "parentHash" = false ∧
        (UnmarshalJSON (jsonUnmarshal foldMatch caseVariantObject)
          (sampleHeader none none none none none none)).2 = none) := by
  have h1 := nullMinerObject_wellTyped
  have h2 := caseVariantObject_wellTyped
  refine ⟨⟨h1, by decide, ?_⟩, ⟨h2, by decide, ?_⟩⟩
  · rw [UnmarshalJSON_object_error foldMatch nullMinerObject _ h1]
    decide
  · rw [UnmarshalJSON_object_error foldMatch caseVariantObject _ h2]
    decide

/-- C13 (amended): for every JSON object that `json.Unmarshal` decodes without error,
`UnmarshalJSON` fails with the error "missing required field '<name>' for Header" if and
only if at least one of the 14 required keys gets no value from the object (no member
of the object matches the key, or the last member that matches it is `null`), and
`<name>` is the first such key in the order of the specification; when every required
key gets a value there is no error, whatever `mixHash`, `nonce`, `baseFeePerGas`,
`extDataGasUsed`, `blockGasCost` and `excessDataGas` get. -/
theorem C13_missing_required_field (keyMatch : String → String → Bool) (obj : JsonObject)
    (h : Header) (hw : wellTyped keyMatch obj = true) :
    (UnmarshalJSON (jsonUnmarshal keyMatch obj) h).2 =
        (firstUnset keyMatch obj).map missingMessage ∧
      ((∃ name, (UnmarshalJSON (jsonUnmarshal keyMatch obj) h).2 =
          some (missingMessage name)) ↔
        ∃ n ∈ requiredNames, fieldValue keyMatch obj n = none) ∧
      ((UnmarshalJSON (jsonUnmarshal keyMatch obj) h).2 ≠ none ↔
        ∃ n ∈ requiredNames, fieldValue keyMatch obj n = none) ∧
      ((∀ n ∈ requiredNames, fieldValue keyMatch obj n ≠ none) →
        (UnmarshalJSON (jsonUnmarshal keyMatch obj) h).2 = none) ∧
      (∀ name, fieldValue keyMatch obj name = none ↔
        (obj.reverse.find? (fun kv => keyMatch kv.1 name) = none ∨
          ∃ key, obj.reverse.find? (fun kv => keyMatch kv.1 name) =
            some (key, JsonValue.null))) := by
  have hmain := UnmarshalJSON_object_error keyMatch obj h hw
  have hiff : (UnmarshalJSON (jsonUnmarshal keyMatch obj) h).2 ≠ none ↔
      ∃ n ∈ requiredNames, fieldValue keyMatch obj n = none := by
    rw [hmain]
    constructor
    · intro hne
      by_contra hno
      apply hne
      have : firstUnset keyMatch obj = none := by
        rw [firstUnset_none_iff]
        intro n hn hnone
        exact hno ⟨n, hn, hnone⟩
      rw [this]
      rfl
    · rintro ⟨n, hn, hnone⟩ hx
      rw [Option.map_eq_none'] at hx
      exact (firstUnset_none_iff keyMatch obj).mp hx n hn hnone
  refine ⟨hmain, ?_, hiff, ?_, ?_⟩
  · constructor
    · rintro ⟨name, hn⟩
      exact hiff.mp (by rw [hn]; simp)
    · intro hx
      have hne := hiff.mpr hx
      rw [hmain] at hne ⊢
      cases hf : firstUnset keyMatch obj with
      | none => rw [hf] at hne; exact absurd rfl hne
      | some name => exact ⟨name, rfl⟩
  · intro hall
    rw [hmain, Option.map_eq_none', firstUnset_none_iff]
    exact hall
  · intro name
    unfold fieldValue
    cases hf : obj.reverse.find? (fun kv => keyMatch kv.1 name) with
    | none => simp
    | some kv =>
      obtain ⟨key, v⟩ := kv
      cases v <;> simp

/-- Witness for C13 (amended): the object whose `miner` is `null`. -/
theorem C13_missing_required_field_witness :
    wellTyped foldMatch nullMinerObject = true ∧
      (UnmarshalJSON (jsonUnmarshal foldMatch nullMinerObject)
        (sampleHeader none none none none none none)).2 =
        (firstUnset foldMatch nullMinerObject).map missingMessage :=
  ⟨nullMinerObject_wellTyped,
    (C13_missing_required_field foldMatch nullMinerObject
      (sampleHeader none none none none none none) nullMinerObject_wellTyped).1⟩

end avax

namespace avax

/-! ## Encoding a header to RLP -/

theorem writeBig_eq (x : Option Int) (buf : List RlpItem) :
    writeBig x buf =
      if isNegative x then .error RlpErr.ErrNegativeBigInt else .ok (buf ++ [bigItem x]) := by
  cases x with
  | none => rfl
  | some v =>
    by_cases hv : v < 0
    · simp [writeBig, isNegative, hv]
    · simp [writeBig, isNegative, bigItem, hv]

theorem lastNonNil_four (b1 b2 b3 b4 : Option Int) :
    lastNonNil [b1, b2, b3, b4] =
      if b4.isSome then 4 else if b3.isSome then 3 else if b2.isSome then 2
      else if b1.isSome then 1 else 0 := by
  cases b1 <;> cases b2 <;> cases b3 <;> cases b4 <;> rfl

theorem encodeOptional_eq (obj : Header) (w : List RlpItem) (flush : Option RlpErr) :
    encodeOptional obj w flush =
      if isNegative obj.BaseFee || isNegative obj.ExtDataGasUsed ||
          isNegative obj.BlockGasCost || isNegative obj.ExcessDataGas then
        .error RlpErr.ErrNegativeBigInt
      else
        match flush with
        | some e => .error e
        | none =>
          .ok (w ++ ((optionalFields obj).map bigItem).take (lastNonNil (optionalFields obj))) := by
  unfold encodeOptional optionalFields
  rw [lastNonNil_four]
  simp only [writeBig_eq]
  generalize obj.BaseFee = b1
  generalize obj.ExtDataGasUsed = b2
  generalize obj.BlockGasCost = b3
  generalize obj.ExcessDataGas = b4
  have hs : ∀ x : Option Int, isNegative x = true → x.isSome = true := by
    intro x hx
    cases x with
    | none => simp [isNegative] at hx
    | some v => rfl
  by_cases n1 : isNegative b1 = true
  · simp [n1, hs b1 n1]
  by_cases n2 : isNegative b2 = true
  · simp [n1, n2, hs b2 n2]
  by_cases n3 : isNegative b3 = true
  · simp [n1, n2, n3, hs b3 n3]
  by_cases n4 : isNegative b4 = true
  · simp [n1, n2, n3, n4, hs b4 n4]
  simp only [n1, n2, n3, n4, Bool.false_eq_true, if_false, Bool.or_self]
  cases h4 : b4.isSome <;> cases h3 : b3.isSome <;> cases h2 : b2.isSome <;>
    cases h1 : b1.isSome <;> simp

/-- The method `EncodeRLP` in closed form: `ErrNegativeBigInt` when an integer field is
negative, otherwise the error of the writer if it fails, otherwise the 16 mandatory
items followed by the optional items up to the last non-nil one. -/
theorem EncodeRLP_eq (obj : Header) (flush : Option RlpErr) :
    EncodeRLP obj flush =
      if hasNegative obj then .error RlpErr.ErrNegativeBigInt
      else
        match flush with
        | some e => .error e
        | none =>
          .ok (mandatoryItems obj ++
            ((optionalFields obj).map bigItem).take (lastNonNil (optionalFields obj))) := by
  unfold EncodeRLP hasNegative
  simp only [writeBig_eq, encodeOptional_eq]
  by_cases hd : isNegative obj.Difficulty = true
  · simp [hd]
  by_cases hn : isNegative obj.Number = true
  · simp [hd, hn]
  simp only [hd, hn, Bool.false_eq_true, if_false, Bool.false_or]
  by_cases ho : (isNegative obj.BaseFee || isNegative obj.ExtDataGasUsed ||
      isNegative obj.BlockGasCost || isNegative obj.ExcessDataGas) = true
  · simp only [ho, if_true]
  · simp only [ho, if_false]
    cases flush with
    | some e => rfl
    | none => simp [mandatoryItems]

theorem isNegative_iff (x : Option Int) : isNegative x = true ↔ ∃ v, v < 0 ∧ x = some v := by
  cases x with
  | none => simp [isNegative]
  | some w => simp [isNegative]

theorem lastNonNil_lt_iff : ∀ (l : List (Option Int)) (i : Nat),
    i < lastNonNil l ↔ ∃ j v, i ≤ j ∧ l[j]? = some (some v) := by
  intro l
  induction l with
  | nil =>
    intro i
    simp [lastNonNil]
  | cons x rest ih =>
    intro i
    constructor
    · intro hi
      cases hr : lastNonNil rest with
      | zero =>
        have e : lastNonNil (x :: rest) = if x.isSome then 1 else 0 := by
          simp [lastNonNil, hr]
        rw [e] at hi
        cases x with
        | none => simp at hi
        | some v =>
          simp only [Option.isSome_some, if_true] at hi
          exact ⟨0, v, by omega, by simp⟩
      | succ n =>
        have e : lastNonNil (x :: rest) = n + 2 := by
          simp [lastNonNil, hr]
        rw [e] at hi
        obtain ⟨j, v, hj, hv⟩ := (ih n).mp (by omega)
        exact ⟨j + 1, v, by omega, by simpa using hv⟩
    · rintro ⟨j, v, hij, hj⟩
      cases j with
      | zero =>
        simp only [List.getElem?_cons_zero, Option.some.injEq] at hj
        subst hj
        have hi0 : i = 0 := by omega
        subst hi0
        cases hr : lastNonNil rest with
        | zero => simp [lastNonNil, hr]
        | succ n => simp [lastNonNil, hr]
      | succ j1 =>
        simp only [List.getElem?_cons_succ] at hj
        have hlt := (ih j1).mpr ⟨j1, v, le_refl _, hj⟩
        cases hr : lastNonNil rest with
        | zero => omega
        | succ n =>
          have e : lastNonNil (x :: rest) = n + 2 := by
            simp [lastNonNil, hr]
          rw [e]
          omega

/-- C14: with a writer that does not fail, `EncodeRLP` returns `ErrNegativeBigInt` if and
only if one of `Difficulty`, `Number`, `BaseFee`, `ExtDataGasUsed`, `BlockGasCost`,
`ExcessDataGas` is non-nil and negative, whatever the other fields are; a header whose
six fields are nil or non-negative is encoded without error. -/
theorem C14_negative_integers_rejected (obj : Header) :
    (EncodeRLP obj none = .error RlpErr.ErrNegativeBigInt ↔
        ∃ v, v < 0 ∧
          (obj.Difficulty = some v ∨ obj.Number = some v ∨ obj.BaseFee = some v ∨
            obj.ExtDataGasUsed = some v ∨ obj.BlockGasCost = some v ∨
            obj.ExcessDataGas = some v)) ∧
      ((∀ v, v < 0 →
          obj.Difficulty ≠ some v ∧ obj.Number ≠ some v ∧ obj.BaseFee ≠ some v ∧
            obj.ExtDataGasUsed ≠ some v ∧ obj.BlockGasCost ≠ some v ∧
            obj.ExcessDataGas ≠ some v) →
        ∃ items, EncodeRLP obj none = .ok items) := by
  have hneg : hasNegative obj = true ↔
      ∃ v, v < 0 ∧
        (obj.Difficulty = some v ∨ obj.Number = some v ∨ obj.BaseFee = some v ∨
          obj.ExtDataGasUsed = some v ∨ obj.BlockGasCost = some v ∨
          obj.ExcessDataGas = some v) := by
    unfold hasNegative
    simp only [Bool.or_eq_true, isNegative_iff]
    constructor
    · rintro (((((⟨v, h1, h2⟩ | ⟨v, h1, h2⟩) | ⟨v, h1, h2⟩) | ⟨v, h1, h2⟩) | ⟨v, h1, h2⟩) |
        ⟨v, h1, h2⟩)
      · exact ⟨v, h1, Or.inl h2⟩
      · exact ⟨v, h1, Or.inr (Or.inl h2)⟩
      · exact ⟨v, h1, Or.inr (Or.inr (Or.inl h2))⟩
      · exact ⟨v, h1, Or.inr (Or.inr (Or.inr (Or.inl h2)))⟩
      · exact ⟨v, h1, Or.inr (Or.inr (Or.inr (Or.inr (Or.inl h2))))⟩
      · exact ⟨v, h1, Or.inr (Or.inr (Or.inr (Or.inr (Or.inr h2))))⟩
    · rintro ⟨v, h1, h2 | h2 | h2 | h2 | h2 | h2⟩
      · exact Or.inl (Or.inl (Or.inl (Or.inl (Or.inl ⟨v, h1, h2⟩))))
      · exact Or.inl (Or.inl (Or.inl (Or.inl (Or.inr ⟨v, h1, h2⟩))))
      · exact Or.inl (Or.inl (Or.inl (Or.inr ⟨v, h1, h2⟩)))
      · exact Or.inl (Or.inl (Or.inr ⟨v, h1, h2⟩))
      · exact Or.inl (Or.inr ⟨v, h1, h2⟩)
      · exact Or.inr ⟨v, h1, h2⟩
  constructor
  · rw [← hneg, EncodeRLP_eq]
    by_cases hx : hasNegative obj = true
    · simp [hx]
    · simp [hx]
  · intro hall
    have hx : ¬ hasNegative obj = true := by
      rw [hneg]
      rintro ⟨v, h1, h2⟩
      obtain ⟨a1, a2, a3, a4, a5, a6⟩ := hall v h1
      rcases h2 with h2 | h2 | h2 | h2 | h2 | h2
      · exact a1 h2
      · exact a2 h2
      · exact a3 h2
      · exact a4 h2
      · exact a5 h2
      · exact a6 h2
    rw [EncodeRLP_eq]
    simp only [hx, if_false]
    exact ⟨_, rfl⟩

/-- Witness for C14: a header whose only non-nil optional field is a negative
`BlockGasCost` is rejected, and a header with all six fields nil is encoded. -/
theorem C14_negative_integers_rejected_witness :
    EncodeRLP (sampleHeader none none none none (some (-1)) none) none =
        .error RlpErr.ErrNegativeBigInt ∧
      ∃ items, EncodeRLP (sampleHeader none none none none none none) none = .ok items :=
  ⟨(C14_negative_integers_rejected (sampleHeader none none none none (some (-1)) none)).1.mpr
      ⟨-1, by decide, Or.inr (Or.inr (Or.inr (Or.inr (Or.inl rfl))))⟩,
    (C14_negative_integers_rejected (sampleHeader none none none none none none)).2
      (fun _ _ => ⟨Option.noConfusion, Option.noConfusion, Option.noConfusion,
        Option.noConfusion, Option.noConfusion, Option.noConfusion⟩)⟩

/-- C19: for a header without negative integers and a writer that does not fail,
`EncodeRLP` writes the 16 mandatory items, a nil `Difficulty` or `Number` as the empty
string, followed by the first `k` optional items, where `k` is the 1-based position of
the last non-nil field among `BaseFee`, `ExtDataGasUsed`, `BlockGasCost`,
`ExcessDataGas` and 0 when all four are nil; the optional item at index `i` is written
exactly when the field at `i` or a later one is non-nil, and a nil field that is
written is the empty string. -/
theorem C19_optional_tail (obj : Header) (hneg : hasNegative obj = false) :
    EncodeRLP obj none =
        .ok (mandatoryItems obj ++
          ((optionalFields obj).map bigItem).take (lastNonNil (optionalFields obj))) ∧
      (mandatoryItems obj).length = 16 ∧
      (mandatoryItems obj)[7]? = some (bigItem obj.Difficulty) ∧
      (mandatoryItems obj)[8]? = some (bigItem obj.Number) ∧
      (((optionalFields obj).map bigItem).take (lastNonNil (optionalFields obj))).length =
        lastNonNil (optionalFields obj) ∧
      (∀ i, i < lastNonNil (optionalFields obj) ↔
        ∃ j v, i ≤ j ∧ (optionalFields obj)[j]? = some (some v)) ∧
      (lastNonNil (optionalFields obj) = 0 ↔
        obj.BaseFee = none ∧ obj.ExtDataGasUsed = none ∧ obj.BlockGasCost = none ∧
          obj.ExcessDataGas = none) ∧
      bigItem none = RlpItem.emptyString := by
  have hk : lastNonNil (optionalFields obj) ≤ 4 := by
    unfold optionalFields
    rw [lastNonNil_four]
    split_ifs <;> omega
  refine ⟨?_, rfl, rfl, rfl, ?_, lastNonNil_lt_iff _, ?_, rfl⟩
  · rw [EncodeRLP_eq, hneg]
    simp
  · rw [List.length_take, List.length_map]
    have : (optionalFields obj).length = 4 := rfl
    omega
  · unfold optionalFields
    rw [lastNonNil_four]
    cases obj.BaseFee <;> cases obj.ExtDataGasUsed <;> cases obj.BlockGasCost <;>
      cases obj.ExcessDataGas <;> simp

/-- Witness for C19: only `ExtDataGasUsed` is non-nil, so two optional items are written,
the first of them the empty string. -/
theorem C19_optional_tail_witness :
    EncodeRLP (sampleHeader none (some 5) none (some 7) none none) none =
      .ok (mandatoryItems (sampleHeader none (some 5) none (some 7) none none) ++
        [RlpItem.emptyString, RlpItem.bigInt 7]) :=
  (C19_optional_tail (sampleHeader none (some 5) none (some 7) none none) (by decide)).1

end avax

end EvmListener
